import Mathlib

/-!
# superlu_dist: 3-D gather/scatter of a row-distributed matrix, and power-of-radix equilibration

A shallow embedding of `SRC/nrformat_loc.c` (`matCopy`, `dGatherNRformat_loc`,
`dScatterB3d`) and of `SRC/psgsequb.c` (`psgsequb`).

Conventions of the embedding.

* A C array is a function `Nat → α` from positions to contents.  A freshly
  allocated array (`SUPERLU_MALLOC`) starts with arbitrary contents, which the
  routines take as an explicit argument (`Uninit`).
* A pointer that is written through is passed as its array together with the
  position of the pointer inside the array; a pointer that is only read is
  passed as the view `fun t => a (off + t)`.
* `for (i = 0; i < n; ++i)` is `forLoop n`, `for (j = lo; j < hi; ++j)` is
  `forRange lo hi`.
* Counts, sizes and positions (`int`, `int_t`) are natural numbers; signed
  overflow, which C leaves undefined, is not modelled.
* The routines are SPMD programs.  The processes of one communicator are
  indexed by their rank, and a collective operation is a function of the
  values contributed by all ranks, following the MPI standard.
-/

namespace SuperLU

/-! ## Arrays and loops -/

/-- The assignment `a[i] = v`. -/
def write {α : Type} (a : Nat → α) (i : Nat) (v : α) : Nat → α :=
  fun k => if k = i then v else a k

/-- The loop `for (i = 0; i < n; ++i) s = body i s`. -/
def forLoop {σ : Type} : Nat → (Nat → σ → σ) → σ → σ
  | 0, _, s => s
  | n + 1, body, s => body n (forLoop n body s)

/-- The loop `for (j = lo; j < hi; ++j) s = body j s`. -/
def forRange {σ : Type} (lo hi : Nat) (body : Nat → σ → σ) (s : σ) : σ :=
  forLoop (hi - lo) (fun t => body (lo + t)) s

/-! ## `matCopy` -/

/-- The routine `matCopy(n, m, Dst, lddst, Src, ldsrc)`: copies an `n × m` column-major
block.  `Dst` points at position `dOff` of the array `dst`; the result is the
array after the copy. -/
def matCopy {α : Type} (n m : Nat) (dst : Nat → α) (dOff : Nat) (lddst : Nat)
    (Src : Nat → α) (ldsrc : Nat) : Nat → α :=
  forLoop m (fun j D =>
    forLoop n (fun i D => write D (dOff + (i + lddst * j)) (Src (i + ldsrc * j))) D) dst

/-! ## Data model of `nrformat_loc.c` -/

/-- The struct `NRformat_loc`: the rows `fst_row .. fst_row + m_loc - 1` of a sparse
matrix, stored by rows. -/
structure NRformat_loc (α : Type) where
  nnz_loc : Nat
  m_loc : Nat
  fst_row : Nat
  nzval : Nat → α
  rowptr : Nat → Nat
  colind : Nat → Nat

/-- The fields of `gridinfo3d_t` the routines read: the shape of the 2-D grid
(`grid2d.nprow`, `grid2d.npcol`) and the depth `npdep`. -/
structure gridinfo3d_t where
  nprow : Nat
  npcol : Nat
  npdep : Nat

/-- What one process of the 3-D grid passes to `dGatherNRformat_loc` and
`dScatterB3d`: its matrix `A`, its right-hand side `B` and the stride `ldb`. -/
structure Local3d (α : Type) where
  A : NRformat_loc α
  B : Nat → α
  ldb : Nat

/-- The six tables both routines derive from the gathered counts. -/
structure Tables where
  nnz_disp : Nat → Nat
  row_disp : Nat → Nat
  b_disp : Nat → Nat
  nnz_counts_int : Nat → Nat
  row_counts_int : Nat → Nat
  b_counts_int : Nat → Nat

/-- Contents of the memory a process gets from `SUPERLU_MALLOC`, and of its
local struct `A2d`, before the routine writes to them. -/
structure Uninit (α : Type) where
  nnz_counts : Nat → Nat
  row_counts : Nat → Nat
  tables : Tables
  A2d : NRformat_loc α
  m_loc_2d_counts : Nat → Nat
  Btmp : Nat → Nat → α
  B1 : Nat → α
  B2d : Nat → α

/-- What `dGatherNRformat_loc` hands back on a process of the coordinating layer. -/
structure GatherOut (α : Type) where
  A2d : NRformat_loc α
  B2d : Nat → α

/-! ## MPI collectives

Each collective is given as the MPI standard describes its outcome.  Where the
standard requires the count of the sender and the count of the receiver to
agree, the embedding moves the items both sides agree on. -/

/-- `MPI_Gather` of one item per rank, seen from the root: `recv[i]` becomes the item
of rank `i`. -/
def MPI_Gather {β : Type} (size : Nat) (send : Nat → β) (recv : Nat → β) : Nat → β :=
  forLoop size (fun i R => write R i (send i)) recv

/-- `MPI_Allgather` of one item per rank: every rank ends with `recv[i]` the item of
rank `i`. -/
def MPI_Allgather {β : Type} (size : Nat) (send : Nat → β) (recv : Nat → β) : Nat → β :=
  forLoop size (fun i R => write R i (send i)) recv

/-- `MPI_Gatherv` seen from the root: the items of rank `i` are stored from position
`displs[i]` of the receive pointer, which sits at position `rOff` of `recv`. -/
def MPI_Gatherv {β : Type} (size : Nat) (sendbuf : Nat → Nat → β) (sendcount : Nat → Nat)
    (recv : Nat → β) (rOff : Nat) (recvcounts displs : Nat → Nat) : Nat → β :=
  forLoop size (fun i R =>
    forLoop (min (sendcount i) (recvcounts i))
      (fun t R => write R (rOff + (displs i + t)) (sendbuf i t)) R) recv

/-- `MPI_Scatterv` seen from the receiving rank `i`: it gets the items stored from
position `displs[i]` of the root's `sendbuf`. -/
def MPI_Scatterv {β : Type} (sendbuf : Nat → β) (sendcounts displs : Nat → Nat)
    (recv : Nat → β) (recvcount : Nat) (i : Nat) : Nat → β :=
  forLoop (min (sendcounts i) recvcount) (fun t R => write R t (sendbuf (displs i + t))) recv

/-! ## `dGatherNRformat_loc` -/

/-- Lines 54-65 of `dGatherNRformat_loc`: the displacement and count tables. -/
def gatherTables (nrhs npdep : Nat) (nnz_counts row_counts : Nat → Nat) (U : Tables) : Tables :=
  forLoop npdep (fun i T =>
    let nnz_disp := write T.nnz_disp (i + 1) (T.nnz_disp i + nnz_counts i)
    let row_disp := write T.row_disp (i + 1) (T.row_disp i + row_counts i)
    { nnz_disp := nnz_disp
      row_disp := row_disp
      b_disp := write T.b_disp (i + 1) (nrhs * row_disp (i + 1))
      nnz_counts_int := write T.nnz_counts_int i (nnz_counts i)
      row_counts_int := write T.row_counts_int i (row_counts i)
      b_counts_int := write T.b_counts_int i (nrhs * row_counts i) })
    { U with
      nnz_disp := write U.nnz_disp 0 0
      row_disp := write U.row_disp 0 0
      b_disp := write U.b_disp 0 0 }

/-- Lines 37-96 of `dGatherNRformat_loc` on the process with `zscp.Iam == 0` of one
depth column `X`: the tables and the struct `A2d` with every field but `fst_row` set. -/
def gatherHead {α : Type} (npdep nrhs : Nat) (X : Nat → Local3d α) (U : Uninit α) :
    NRformat_loc α × Tables :=
  let nnz_counts := MPI_Gather npdep (fun i => (X i).A.nnz_loc) U.nnz_counts
  let row_counts := MPI_Gather npdep (fun i => (X i).A.m_loc) U.row_counts
  let T := gatherTables nrhs npdep nnz_counts row_counts U.tables
  let rowptr0 := write U.A2d.rowptr 0 0
  let nzval := MPI_Gatherv npdep (fun i => (X i).A.nzval) (fun i => (X i).A.nnz_loc)
    U.A2d.nzval 0 T.nnz_counts_int T.nnz_disp
  let colind := MPI_Gatherv npdep (fun i => (X i).A.colind) (fun i => (X i).A.nnz_loc)
    U.A2d.colind 0 T.nnz_counts_int T.nnz_disp
  let rowptr1 := MPI_Gatherv npdep (fun i t => (X i).A.rowptr (1 + t)) (fun i => (X i).A.m_loc)
    rowptr0 1 T.row_counts_int T.row_disp
  let rowptr := forLoop npdep (fun i R =>
    forRange (T.row_disp i + 1) (T.row_disp (i + 1) + 1)
      (fun j R => write R j (R j + T.nnz_disp i)) R) rowptr1
  ({ nnz_loc := T.nnz_disp npdep
     m_loc := T.row_disp npdep
     fst_row := U.A2d.fst_row
     nzval := nzval
     rowptr := rowptr
     colind := colind }, T)

/-- Lines 69-71 of `dGatherNRformat_loc`: the numbers of entries requested for
`A2d.colind`, `A2d.nzval` and `A2d.rowptr`, in this order. -/
def gatherAllocLens {α : Type} (npdep nrhs : Nat) (X : Nat → Local3d α) (U : Uninit α) :
    Nat × Nat × Nat :=
  let T := (gatherHead npdep nrhs X U).2
  (T.nnz_disp npdep, T.nnz_disp npdep, T.row_disp npdep + 1)

/-- Lines 100-115 of `dGatherNRformat_loc` on the layer-0 process of 2-D rank `iam`:
the value of `A2d.fst_row` after the loop over the 2-D ranks. -/
def gatherFstRow {α : Type} (grid3d : gridinfo3d_t) (nrhs : Nat)
    (X : Nat → Nat → Local3d α) (U : Nat → Uninit α) (iam : Nat) : Nat :=
  let npdep := grid3d.npdep
  let procs2d := grid3d.nprow * grid3d.npcol
  let m_loc_2d := fun q => (gatherHead npdep nrhs (X q) (U q)).1.m_loc
  let m_loc_2d_counts := MPI_Allgather procs2d m_loc_2d (U iam).m_loc_2d_counts
  (forLoop procs2d
    (fun p (s : Nat × Nat) => (if iam = p then s.2 else s.1, s.2 + m_loc_2d_counts p))
    ((gatherHead npdep nrhs (X iam) (U iam)).1.fst_row, 0)).1

/-- Lines 118-134 of `dGatherNRformat_loc` on one depth column: every layer compacts
its `B` into `Btmp`, and the process with `zscp.Iam == 0` gathers them into `B1`. -/
def gatherB1 {α : Type} (npdep nrhs : Nat) (X : Nat → Local3d α) (U : Uninit α) : Nat → α :=
  let T := (gatherHead npdep nrhs X U).2
  let Btmp := fun i => matCopy (X i).A.m_loc nrhs (U.Btmp i) 0 (X i).A.m_loc (X i).B (X i).ldb
  MPI_Gatherv npdep Btmp (fun i => nrhs * (X i).A.m_loc) U.B1 0 T.b_counts_int T.b_disp

/-- The routine `dGatherNRformat_loc(A, B, ldb, nrhs, B2d, grid3d)` on the process of the
coordinating layer (`zscp.Iam == 0`) with 2-D rank `iam`.  `X q i` is what the
process of 2-D rank `q` and depth `i` passes, `U q` the initial memory of the
layer-0 process of 2-D rank `q` (`(U q).Btmp i` is the initial `Btmp` at depth `i`). -/
def dGatherNRformat_loc {α : Type} (grid3d : gridinfo3d_t) (nrhs : Nat)
    (X : Nat → Nat → Local3d α) (U : Nat → Uninit α) (iam : Nat) : GatherOut α :=
  let npdep := grid3d.npdep
  let head := gatherHead npdep nrhs (X iam) (U iam)
  let T := head.2
  let A2d := { head.1 with fst_row := gatherFstRow grid3d nrhs X U iam }
  let B1 := gatherB1 npdep nrhs (X iam) (U iam)
  -- lines 137-147: B2d <- colMajor(B1)
  let B2d := forLoop npdep (fun i D =>
    matCopy (T.row_counts_int i) nrhs D (T.row_disp i) A2d.m_loc
      (fun t => B1 (nrhs * T.row_disp i + t)) (T.row_counts_int i)) (U iam).B2d
  { A2d := A2d, B2d := B2d }

/-! ## `dScatterB3d` -/

/-- Lines 185-196 of `dScatterB3d`: the displacement and count tables. -/
def scatterTables (nrhs npdep : Nat) (nnz_counts row_counts : Nat → Nat) (U : Tables) : Tables :=
  forLoop npdep (fun i T =>
    let nnz_disp := write T.nnz_disp (i + 1) (T.nnz_disp i + nnz_counts i)
    let row_disp := write T.row_disp (i + 1) (T.row_disp i + row_counts i)
    { nnz_disp := nnz_disp
      row_disp := row_disp
      b_disp := write T.b_disp (i + 1) (nrhs * row_disp (i + 1))
      nnz_counts_int := write T.nnz_counts_int i (nnz_counts i)
      row_counts_int := write T.row_counts_int i (row_counts i)
      b_counts_int := write T.b_counts_int i (nrhs * row_counts i) })
    { U with
      nnz_disp := write U.nnz_disp 0 0
      row_disp := write U.row_disp 0 0
      b_disp := write U.b_disp 0 0 }

/-- Lines 169-196 of `dScatterB3d` on the process with `zscp.Iam == 0`: the tables built
from the gathered counts. -/
def scatterHead {α : Type} (npdep nrhs : Nat) (X : Nat → Local3d α) (U : Uninit α) : Tables :=
  let nnz_counts := MPI_Gather npdep (fun i => (X i).A.nnz_loc) U.nnz_counts
  let row_counts := MPI_Gather npdep (fun i => (X i).A.m_loc) U.row_counts
  scatterTables nrhs npdep nnz_counts row_counts U.tables

/-- The routine `dScatterB3d(A2d, A, B, ldb, nrhs, B2d, grid3d)` on one depth column `X`:
the array `B` of the process of depth `i` after the call.  `A2d` and `B2d` are
the arguments of the process with `zscp.Iam == 0`, `U` its initial memory
(`U.Btmp i` is the initial `Btmp` of depth `i`). -/
def dScatterB3d {α : Type} (grid3d : gridinfo3d_t) (A2d : NRformat_loc α)
    (X : Nat → Local3d α) (nrhs : Nat) (B2d : Nat → α) (U : Uninit α) (i : Nat) : Nat → α :=
  let npdep := grid3d.npdep
  let T := scatterHead npdep nrhs X U
  -- lines 205-214: B1 <- blockByBlock(B2d)
  let B1 := forLoop npdep (fun i D =>
    matCopy (T.row_counts_int i) nrhs D (nrhs * T.row_disp i) (T.row_counts_int i)
      (fun t => B2d (T.row_disp i + t)) A2d.m_loc) U.B1
  -- lines 217-222: Btmp <- scatterv(B1)
  let Btmp := MPI_Scatterv B1 T.b_counts_int T.b_disp (U.Btmp i) (nrhs * (X i).A.m_loc) i
  -- line 225: B <- colMajor(Btmp)
  matCopy (X i).A.m_loc nrhs (X i).B 0 (X i).ldb Btmp (X i).A.m_loc

/-! ## Data model of `psgsequb.c`

Floating-point numbers (`float`, `double`) are rationals and every operation on
them is exact: the embedding describes `psgsequb` in exact arithmetic, without the
rounding of `log2`, `pow` and of the conversions between `float` and `double`.  The
one conversion that can turn a non-zero number into 0, the store of line 200, is
added in `psgsequbFl`. -/

/-- Modelled from the spec: the storage formats of `supermatrix.h`, which is not among
the sources; `psgsequb` names only `SLU_NR_loc`. -/
inductive Stype_t where
  | SLU_NR_loc
  | other (tag : Nat)
  deriving DecidableEq

/-- Modelled from the spec: the data types of `supermatrix.h`, which is not among the
sources; `psgsequb` names only `SLU_S`. -/
inductive Dtype_t where
  | SLU_S
  | other (tag : Nat)
  deriving DecidableEq

/-- Modelled from the spec: the mathematical types of `supermatrix.h`, which is not
among the sources; `psgsequb` names only `SLU_GE`. -/
inductive Mtype_t where
  | SLU_GE
  | other (tag : Nat)
  deriving DecidableEq

/-- The fields of `SuperMatrix` that `psgsequb` reads besides `Store`; they are the same
on every process. -/
structure SuperMatrix where
  Stype : Stype_t
  Dtype : Dtype_t
  Mtype : Mtype_t
  nrow : Int
  ncol : Int

/-- The fields of `gridinfo_t` that `psgsequb` reads: the shape of the 2-D grid, whose
communicator has `nprow * npcol` processes. -/
structure gridinfo_t where
  nprow : Nat
  npcol : Nat

/-- The output arguments of `psgsequb` on one process: the arrays `r` and `c` and the
contents of `*rowcnd`, `*colcnd`, `*amax`, `*info`. -/
structure EquOut where
  r : Nat → ℚ
  c : Nat → ℚ
  rowcnd : ℚ
  colcnd : ℚ
  amax : ℚ
  info : Int

/-- Contents of the memory one process gets from `floatMalloc_dist` and
`SUPERLU_MALLOC` in `psgsequb`, before it writes to it. -/
structure EquUninit where
  loc_max : Nat → ℚ
  r_sizes : Nat → Nat
  displs : Nat → Nat
  loc_r : Nat → ℚ

/-! ## `psgsequb` -/

/-- The conversion `(int) log2(x)` for `x > 0`: the exact base-2 logarithm, rounded
toward zero as a C conversion to `int` does. -/
def truncLog2 (x : ℚ) : Int :=
  if 1 ≤ x then (Nat.log 2 ⌊x⌋₊ : Int) else -(Nat.log 2 ⌊x⁻¹⌋₊ : Int)

/-- The statement `iexp = (int) log2(x)/log2(radix)` of lines 145 and 210.  The cast
binds tighter than the division: the integer `n = (int) log2(x)` is divided by the
real number `log2(radix)` and the quotient is rounded toward zero by the
assignment to the integer `iexp`.  For `radix ≥ 2` that is the largest `k` with
`radix^k ≤ 2^|n|`, with the sign of `n`. -/
def iexpOf (radix : Nat) (x : ℚ) : Int :=
  let n := truncLog2 x
  if 0 ≤ n then (Nat.log radix (2 ^ n.toNat) : Int)
  else -(Nat.log radix (2 ^ (-n).toNat) : Int)

/-- Lines 145-146 and 210-211: `pow(radix, iexp)` with `iexp = (int) log2(x)/log2(radix)`. -/
def powerOfRadix (radix : Nat) (x : ℚ) : ℚ := (radix : ℚ) ^ iexpOf radix x

/-- Lines 137-150 of `psgsequb` on one process: `r` after the row pass. -/
def rowScales (nrow radix : Nat) (Astore : NRformat_loc ℚ) (r : Nat → ℚ) : Nat → ℚ :=
  let r0 := forLoop nrow (fun i r => write r i 0) r
  (forLoop Astore.m_loc (fun i (s : (Nat → ℚ) × Nat) =>
    let irow := s.2
    let r1 := forRange (Astore.rowptr i) (Astore.rowptr (i + 1))
      (fun j r => write r irow (max (r irow) |Astore.nzval j|)) s.1
    let r2 := if r1 irow > 0 then write r1 irow (powerOfRadix radix (r1 irow)) else r1
    (r2, irow + 1)) (r0, Astore.fst_row)).1

/-- Lines 153-158 and 219-224 of `psgsequb`: the pair `(rcmax, rcmin)` after the loop over
the entries `lo .. hi - 1` of `x`. -/
def localMaxMin (bignum : ℚ) (lo hi : Nat) (x : Nat → ℚ) : ℚ × ℚ :=
  forRange lo hi (fun i (s : ℚ × ℚ) => (max s.1 (x i), min s.2 (x i))) (0, bignum)

/-- `MPI_Allreduce` of one number per rank with `MPI_MAX`. -/
def MPI_Allreduce_MAX (size : Nat) (send : Nat → ℚ) : ℚ :=
  forLoop (size - 1) (fun q acc => max acc (send (q + 1))) (send 0)

/-- `MPI_Allreduce` of one number per rank with `MPI_MIN`. -/
def MPI_Allreduce_MIN (size : Nat) (send : Nat → ℚ) : ℚ :=
  forLoop (size - 1) (fun q acc => min acc (send (q + 1))) (send 0)

/-- The loops of lines 178-182 and 235-239: the first `i < n` with `x[i] == 0`, if any. -/
def firstZero (x : Nat → ℚ) : Nat → Option Nat
  | 0 => none
  | n + 1 =>
    match firstZero x n with
    | some i => some i
    | none => if x n = 0 then some n else none

/-- The loops of lines 185-186 and 242-243: every entry below `n` is replaced by
`1 / min(max(x, smlnum), bignum)`. -/
def invertScales (n : Nat) (smlnum bignum : ℚ) (x : Nat → ℚ) : Nat → ℚ :=
  forLoop n (fun i x => write x i (1 / min (max (x i) smlnum) bignum)) x

/-- Lines 192-214 of `psgsequb` on one process: the arrays `c` and `loc_max` before the
reduction. -/
def colScales (ncol radix : Nat) (Astore : NRformat_loc ℚ) (r c loc_max : Nat → ℚ) :
    (Nat → ℚ) × (Nat → ℚ) :=
  let c0 := forLoop ncol (fun j c => write c j 0) c
  let c1 := (forLoop Astore.m_loc (fun i (s : (Nat → ℚ) × Nat) =>
    let irow := s.2
    (forRange (Astore.rowptr i) (Astore.rowptr (i + 1))
      (fun j c =>
        let jcol := Astore.colind j
        write c jcol (max (c jcol) (|Astore.nzval j| * r irow))) s.1,
     irow + 1)) (c0, Astore.fst_row)).1
  forLoop ncol (fun j (s : (Nat → ℚ) × (Nat → ℚ)) =>
    let c := if s.1 j > 0 then write s.1 j (powerOfRadix radix (s.1 j)) else s.1
    (c, write s.2 j (c j))) (c1, loc_max)

/-- `MPI_Allreduce` of `count` numbers per rank with `MPI_MAX`: entry `j < count` of `recv`
becomes the largest entry `j` over all ranks. -/
def MPI_Allreduce_MAX_vec (size count : Nat) (send : Nat → Nat → ℚ) (recv : Nat → ℚ) : Nat → ℚ :=
  forLoop count (fun j R => write R j (MPI_Allreduce_MAX size (fun q => send q j))) recv

/-- `MPI_Allgatherv`: every rank ends with the items of rank `i` stored from position
`displs[i]` of `recv`. -/
def MPI_Allgatherv {β : Type} (size : Nat) (sendbuf : Nat → Nat → β) (sendcount : Nat → Nat)
    (recv : Nat → β) (recvcounts displs : Nat → Nat) : Nat → β :=
  forLoop size (fun i R =>
    forLoop (min (sendcount i) (recvcounts i))
      (fun t R => write R (displs i + t) (sendbuf i t)) R) recv

/-- Lines 250-268 of `psgsequb` on the process of rank `iam`: the array `r` after the
pieces `r[fst_row .. fst_row + m_loc - 1]` of all processes are gathered.  `r q` is
the array `r` of rank `q` before the gather. -/
def gatherR (procs : Nat) (Astore : Nat → NRformat_loc ℚ) (r : Nat → Nat → ℚ)
    (W : Nat → EquUninit) (iam : Nat) : Nat → ℚ :=
  let loc_r := fun q =>
    (forLoop (Astore q).m_loc (fun i (s : (Nat → ℚ) × Nat) =>
      (write s.1 i (r q s.2), s.2 + 1)) ((W q).loc_r, (Astore q).fst_row)).1
  let r_sizes := MPI_Allgather procs (fun q => (Astore q).m_loc) (W iam).r_sizes
  let displs := forRange 1 procs (fun i d => write d i (d (i - 1) + r_sizes (i - 1)))
    (write (W iam).displs 0 0)
  MPI_Allgatherv procs loc_r (fun q => (Astore q).m_loc) (r iam) r_sizes displs

/-- Lines 191-273 of `psgsequb` on the process of rank `iam`: the column scale factors and
the final gather of `r`.  `o q` holds the output arguments of rank `q` when it
reaches line 191.  After the reduction of line 215 the entries `c[0 .. ncol-1]` are
the same on every process, so all processes leave at line 238 or none does. -/
def psgsequbCols (nrow ncol procs : Nat) (Astore : Nat → NRformat_loc ℚ)
    (smlnum bignum : ℚ) (radix : Nat) (o : Nat → EquOut) (W : Nat → EquUninit)
    (iam : Nat) : EquOut :=
  let loc := fun q => colScales ncol radix (Astore q) (o q).r (o q).c (W q).loc_max
  let c := MPI_Allreduce_MAX_vec procs ncol (fun q => (loc q).2) (loc iam).1
  let mm := localMaxMin bignum 0 ncol c
  let rcmax := mm.1
  let rcmin := mm.2
  if rcmin = 0 then
    match firstZero c ncol with
    | some j => { o iam with c := c, info := (nrow : Int) + j + 1 }
    | none => { o iam with c := c, r := gatherR procs Astore (fun q => (o q).r) W iam }
  else
    { o iam with
      c := invertScales ncol smlnum bignum c
      colcnd := max rcmin smlnum / min rcmax bignum
      r := gatherR procs Astore (fun q => (o q).r) W iam }

/-- The routine `psgsequb(A, r, c, rowcnd, colcnd, amax, info, grid)` on the process of rank
`iam` of the 2-D grid: the output arguments when the call returns, or `none` when
it does not return because the process waits in a collective that other
processes, having returned at line 181, never enter.  `Astore q` is the local
matrix of rank `q`, `init q` the contents of its output arguments before the call;
`smlnum` and `radix` are the values of `smach_dist("S")` and `smach_dist("B")`. -/
def psgsequb (A : SuperMatrix) (Astore : Nat → NRformat_loc ℚ) (grid : gridinfo_t)
    (smlnum : ℚ) (radix : Nat) (init : Nat → EquOut) (W : Nat → EquUninit)
    (iam : Nat) : Option EquOut :=
  -- lines 109-117
  if A.nrow < 0 ∨ A.ncol < 0 ∨ A.Stype ≠ Stype_t.SLU_NR_loc ∨ A.Dtype ≠ Dtype_t.SLU_S ∨
      A.Mtype ≠ Mtype_t.SLU_GE then
    some { init iam with info := -1 }
  -- lines 120-125
  else if A.nrow = 0 ∨ A.ncol = 0 then
    some { init iam with info := 0, rowcnd := 1, colcnd := 1, amax := 0 }
  else
    let nrow := A.nrow.toNat
    let ncol := A.ncol.toNat
    let procs := grid.nprow * grid.npcol
    let bignum := 1 / smlnum
    -- lines 137-166
    let r := fun q => rowScales nrow radix (Astore q) (init q).r
    let mm := fun q =>
      localMaxMin bignum (Astore q).fst_row ((Astore q).fst_row + (Astore q).m_loc) (r q)
    let rcmax := MPI_Allreduce_MAX procs (fun q => (mm q).1)
    let rcmin := MPI_Allreduce_MIN procs (fun q => (mm q).2)
    let o1 := fun q => { init q with info := 0, r := r q, amax := rcmax }
    if rcmin = 0 then
      -- lines 178-182
      match firstZero (r iam) nrow with
      | some i => some { o1 iam with info := (i : Int) + 1 }
      | none =>
        if ∃ q, q < procs ∧ firstZero (r q) nrow ≠ none then none
        else some (psgsequbCols nrow ncol procs Astore smlnum bignum radix o1 W iam)
    else
      -- lines 185-188
      let o2 := fun q => { o1 q with
        r := invertScales nrow smlnum bignum (r q)
        rowcnd := max rcmin smlnum / min rcmax bignum }
      some (psgsequbCols nrow ncol procs Astore smlnum bignum radix o2 W iam)

/-! ## Specification vocabulary -/

/-- Sum of the first `k` counts: `c 0 + ... + c (k-1)`. -/
def prefixSum (c : Nat → Nat) : Nat → Nat
  | 0 => 0
  | k + 1 => prefixSum c k + c k

/-- The row counts `m_loc` of the layers of one depth column, by depth. -/
def rowCounts {α : Type} (X : Nat → Local3d α) : Nat → Nat := fun i => (X i).A.m_loc

/-- The non-zero counts `nnz_loc` of the layers of one depth column, by depth. -/
def nnzCounts {α : Type} (X : Nat → Local3d α) : Nat → Nat := fun i => (X i).A.nnz_loc

/-- The running maximum of lines 142-143 over row `i` of a local matrix, started at `v0`. -/
def rowMaxFrom (A : NRformat_loc ℚ) (i : Nat) (v0 : ℚ) : ℚ :=
  forRange (A.rowptr i) (A.rowptr (i + 1)) (fun j v => max v |A.nzval j|) v0

/-- The largest absolute value stored in row `i` of a local matrix, 0 for a row without
entries. -/
def rowMax (A : NRformat_loc ℚ) (i : Nat) : ℚ := rowMaxFrom A i 0

/-- A scale factor before inversion: zero or a power of the radix. -/
def ZeroOrPow (radix : Nat) (x : ℚ) : Prop := x = 0 ∨ ∃ k : ℤ, x = (radix : ℚ) ^ k

/-- A scale factor on return: a power of the radix between `smlnum` and
`bignum = 1 / smlnum`. -/
def InSafeRange (radix : Nat) (smlnum x : ℚ) : Prop :=
  (∃ k : ℤ, x = (radix : ℚ) ^ k) ∧ smlnum ≤ x ∧ x ≤ 1 / smlnum

/-- The transformer `T` of an array stores `v` at every position `a` with `R a v` and
leaves every other position alone. -/
def Writes {α : Type} (T : (Nat → α) → (Nat → α)) (R : Nat → α → Prop) : Prop :=
  ∀ m a, (∀ v, R a v → T m a = v) ∧ ((∀ v, ¬ R a v) → T m a = m a)

/-- A local matrix is well formed: `rowptr[0] = 0`, `rowptr[m_loc] = nnz_loc`, and
`rowptr` is non-decreasing on `0 .. m_loc`. -/
def WellFormed {α : Type} (A : NRformat_loc α) : Prop :=
  A.rowptr 0 = 0 ∧ A.rowptr A.m_loc = A.nnz_loc ∧
    ∀ k, k < A.m_loc → A.rowptr k ≤ A.rowptr (k + 1)

/-- Row `k` of a local matrix read through `rowptr`: its (column index, value) pairs
in storage order. -/
def rowEntries {α : Type} (A : NRformat_loc α) (k : Nat) : List (Nat × α) :=
  (List.range' (A.rowptr k) (A.rowptr (k + 1) - A.rowptr k)).map
    (fun t => (A.colind t, A.nzval t))

/-- The row count `A2d.m_loc` that `dGatherNRformat_loc` leaves on the layer-0 process
of each 2-D rank. -/
def gatheredRows {α : Type} (grid3d : gridinfo3d_t) (nrhs : Nat)
    (X : Nat → Nat → Local3d α) (U : Nat → Uninit α) : Nat → Nat :=
  fun q => (dGatherNRformat_loc grid3d nrhs X U q).A2d.m_loc

/-- The first row `A2d.fst_row` that `dGatherNRformat_loc` leaves on the layer-0 process
of each 2-D rank. -/
def gatheredFst {α : Type} (grid3d : gridinfo3d_t) (nrhs : Nat)
    (X : Nat → Nat → Local3d α) (U : Nat → Uninit α) : Nat → Nat :=
  fun q => (dGatherNRformat_loc grid3d nrhs X U q).A2d.fst_row

/-- The depth column handed to a second `dGatherNRformat_loc` after `dScatterB3d`: the
same matrices and strides, with the scattered blocks as right-hand sides. -/
def scattered {α : Type} (grid3d : gridinfo3d_t) (A2d : NRformat_loc α)
    (X : Nat → Local3d α) (nrhs : Nat) (B2d : Nat → α) (U : Uninit α) : Nat → Local3d α :=
  fun i => { A := (X i).A, B := dScatterB3d grid3d A2d X nrhs B2d U i, ldb := (X i).ldb }

instance instDecidableWellFormed {α : Type} (A : NRformat_loc α) : Decidable (WellFormed A) := by
  unfold WellFormed
  infer_instance

/-! ## The example of the specification

Depth 2 on a 1 × 1 grid: layer 0 owns 2 rows with 3 non-zeros, layer 1 owns 3 rows
with 5 non-zeros, and there are 2 right-hand sides, stored with stride 4. -/

/-- The integer array with the listed entries, 0 past the end. -/
def arrZ (l : List Int) : Nat → Int := fun t => l.getD t 0

/-- The index array with the listed entries, 0 past the end. -/
def arrN (l : List Nat) : Nat → Nat := fun t => l.getD t 0

/-- The grid of the example. -/
def exGrid : gridinfo3d_t := { nprow := 1, npcol := 1, npdep := 2 }

/-- Layer 0 of the example: rows `(0:10, 1:11)` and `(1:12)`. -/
def exA0 : NRformat_loc Int :=
  { nnz_loc := 3, m_loc := 2, fst_row := 0
    nzval := arrZ [10, 11, 12], rowptr := arrN [0, 2, 3], colind := arrN [0, 1, 1] }

/-- Layer 1 of the example: rows `(0:20)`, `(1:21, 2:22)` and `(3:23, 4:24)`. -/
def exA1 : NRformat_loc Int :=
  { nnz_loc := 5, m_loc := 3, fst_row := 0
    nzval := arrZ [20, 21, 22, 23, 24], rowptr := arrN [0, 1, 3, 5]
    colind := arrN [0, 1, 2, 3, 4] }

/-- What the two processes of the example pass; the rows past `m_loc` of each column of
`B` hold the padding value `-1`. -/
def exX : Nat → Nat → Local3d Int := fun _ i =>
  if i = 0 then { A := exA0, B := arrZ [1, 2, -1, -1, 3, 4, -1, -1], ldb := 4 }
  else { A := exA1, B := arrZ [5, 6, 7, -1, 8, 9, 10, -1], ldb := 4 }

/-- The rational array with the listed entries, 0 past the end. -/
def arrQ (l : List ℚ) : Nat → ℚ := fun t => l.getD t 0

/-- A local matrix with the single row `(0: 3/4)`. -/
def exRowA : NRformat_loc ℚ :=
  { nnz_loc := 1, m_loc := 1, fst_row := 0
    nzval := arrQ [3 / 4], rowptr := arrN [0, 1], colind := arrN [0] }

/-- A local matrix with the single row `(0: 3)`. -/
def exRowB : NRformat_loc ℚ :=
  { nnz_loc := 1, m_loc := 1, fst_row := 0
    nzval := arrQ [3], rowptr := arrN [0, 1], colind := arrN [0] }

/-- A 3 × 2 matrix of the right types. -/
def exEquA : SuperMatrix :=
  { Stype := Stype_t.SLU_NR_loc, Dtype := Dtype_t.SLU_S, Mtype := Mtype_t.SLU_GE
    nrow := 3, ncol := 2 }

/-- The rows of `exEquA` on two processes: rank 0 owns the rows `(0: 1)` and `(1: 1)`,
rank 1 owns global row 2, which has no entries. -/
def exEquStore : Nat → NRformat_loc ℚ := fun q =>
  if q = 0 then
    { nnz_loc := 2, m_loc := 2, fst_row := 0
      nzval := arrQ [1, 1], rowptr := arrN [0, 1, 2], colind := arrN [0, 1] }
  else
    { nnz_loc := 0, m_loc := 1, fst_row := 2
      nzval := arrQ [], rowptr := arrN [0, 0], colind := arrN [] }

/-- A 2 × 1 process grid. -/
def exEquGrid : gridinfo_t := { nprow := 2, npcol := 1 }

/-- Output arguments before the call: every array entry and every scalar holds 7. -/
def exEquInit : Nat → EquOut := fun _ =>
  { r := fun _ => 7, c := fun _ => 7, rowcnd := 7, colcnd := 7, amax := 7, info := 7 }

/-- Initial memory for `psgsequb`: every fresh array holds 7 everywhere. -/
def exEquW : Nat → EquUninit := fun _ =>
  { loc_max := fun _ => 7, r_sizes := fun _ => 7, displs := fun _ => 7, loc_r := fun _ => 7 }

/-- A 2 × 2 matrix of the right types. -/
def exFullA : SuperMatrix :=
  { Stype := Stype_t.SLU_NR_loc, Dtype := Dtype_t.SLU_S, Mtype := Mtype_t.SLU_GE
    nrow := 2, ncol := 2 }

/-- The rows of `exFullA` on two processes: rank 0 owns the row `(0: 1)`, rank 1 owns
the row `(1: -1)`. -/
def exFullStore : Nat → NRformat_loc ℚ := fun q =>
  if q = 0 then
    { nnz_loc := 1, m_loc := 1, fst_row := 0
      nzval := arrQ [1], rowptr := arrN [0, 1], colind := arrN [0] }
  else
    { nnz_loc := 1, m_loc := 1, fst_row := 1
      nzval := arrQ [-1], rowptr := arrN [0, 1], colind := arrN [1] }

/-- A matrix with no rows and one column, of the right types. -/
def exEmptyA : SuperMatrix :=
  { Stype := Stype_t.SLU_NR_loc, Dtype := Dtype_t.SLU_S, Mtype := Mtype_t.SLU_GE
    nrow := 0, ncol := 1 }

/-- Output arguments before the call with `c[0] = 0`. -/
def exEmptyInit : Nat → EquOut := fun _ =>
  { r := fun _ => 0, c := fun _ => 0, rowcnd := 0, colcnd := 0, amax := 0, info := 7 }

/-- The example replicated on a 2 × 1 grid: both 2-D ranks hold the same two layers. -/
def exGrid2 : gridinfo3d_t := { nprow := 2, npcol := 1, npdep := 2 }

/-- Initial memory for the example: every fresh array holds 77 everywhere. -/
def exU : Nat → Uninit Int := fun _ =>
  { nnz_counts := fun _ => 77, row_counts := fun _ => 77
    tables := ⟨fun _ => 77, fun _ => 77, fun _ => 77, fun _ => 77, fun _ => 77, fun _ => 77⟩
    A2d := ⟨77, 77, 77, fun _ => 77, fun _ => 77, fun _ => 77⟩
    m_loc_2d_counts := fun _ => 77
    Btmp := fun _ _ => 77, B1 := fun _ => 77, B2d := fun _ => 77 }

/-- The arguments `A`, `B`, `ldb` of the process of one layer, and its array `Btmp`, after
`dGatherNRformat_loc`.  On the caller's data the routine only reads: it sends
`A->nnz_loc`, `A->m_loc`, `A->nzval`, `A->colind`, `A->rowptr` (lines 46-49 and 75-83) and
passes `B` as the source of `matCopy` (line 122), whose stores go to `Btmp`. -/
def gatherArgsAfter {α : Type} (nrhs : Nat) (L : Local3d α) (Btmp : Nat → α) :
    Local3d α × (Nat → α) :=
  (L, matCopy L.A.m_loc nrhs Btmp 0 L.A.m_loc L.B L.ldb)

/-- The condition of lines 110-111 of `psgsequb`: an argument is illegal. -/
def illegalArg (A : SuperMatrix) : Prop :=
  A.nrow < 0 ∨ A.ncol < 0 ∨ A.Stype ≠ Stype_t.SLU_NR_loc ∨ A.Dtype ≠ Dtype_t.SLU_S ∨
    A.Mtype ≠ Mtype_t.SLU_GE

instance instDecidableIllegalArg (A : SuperMatrix) : Decidable (illegalArg A) := by
  unfold illegalArg
  infer_instance

/-- The array `r` of rank `q` after the row pass of lines 137-150. -/
def rowR (A : SuperMatrix) (Astore : Nat → NRformat_loc ℚ) (radix : Nat) (init : Nat → EquOut)
    (q : Nat) : Nat → ℚ :=
  rowScales A.nrow.toNat radix (Astore q) (init q).r

/-- The value of `rcmax` after the reduction of line 163. -/
def rowRcmax (A : SuperMatrix) (Astore : Nat → NRformat_loc ℚ) (grid : gridinfo_t)
    (smlnum : ℚ) (radix : Nat) (init : Nat → EquOut) : ℚ :=
  MPI_Allreduce_MAX (grid.nprow * grid.npcol) (fun q =>
    (localMaxMin (1 / smlnum) (Astore q).fst_row ((Astore q).fst_row + (Astore q).m_loc)
      (rowR A Astore radix init q)).1)

/-- The value of `rcmin` after the reduction of line 165. -/
def rowRcmin (A : SuperMatrix) (Astore : Nat → NRformat_loc ℚ) (grid : gridinfo_t)
    (smlnum : ℚ) (radix : Nat) (init : Nat → EquOut) : ℚ :=
  MPI_Allreduce_MIN (grid.nprow * grid.npcol) (fun q =>
    (localMaxMin (1 / smlnum) (Astore q).fst_row ((Astore q).fst_row + (Astore q).m_loc)
      (rowR A Astore radix init q)).2)

/-- The output arguments of rank `q` at line 176, before the test of `rcmin`. -/
def rowOut1 (A : SuperMatrix) (Astore : Nat → NRformat_loc ℚ) (grid : gridinfo_t)
    (smlnum : ℚ) (radix : Nat) (init : Nat → EquOut) (q : Nat) : EquOut :=
  { init q with
    info := 0, r := rowR A Astore radix init q
    amax := rowRcmax A Astore grid smlnum radix init }

/-- The output arguments of rank `q` at line 191 when `rcmin` is not zero: the row scale
factors are inverted and `rowcnd` is set. -/
def rowOut2 (A : SuperMatrix) (Astore : Nat → NRformat_loc ℚ) (grid : gridinfo_t)
    (smlnum : ℚ) (radix : Nat) (init : Nat → EquOut) (q : Nat) : EquOut :=
  { rowOut1 A Astore grid smlnum radix init q with
    r := invertScales A.nrow.toNat smlnum (1 / smlnum) (rowR A Astore radix init q)
    rowcnd := max (rowRcmin A Astore grid smlnum radix init) smlnum /
      min (rowRcmax A Astore grid smlnum radix init) (1 / smlnum) }

/-- The array `c` on rank `iam` after the reduction of line 215, when the processes reach
line 191 with the output arguments `o`. -/
def colC (ncol procs : Nat) (Astore : Nat → NRformat_loc ℚ) (radix : Nat) (o : Nat → EquOut)
    (W : Nat → EquUninit) (iam : Nat) : Nat → ℚ :=
  MPI_Allreduce_MAX_vec procs ncol
    (fun q => (colScales ncol radix (Astore q) (o q).r (o q).c (W q).loc_max).2)
    (colScales ncol radix (Astore iam) (o iam).r (o iam).c (W iam).loc_max).1

/-- The number of collectives (`MPI_Allreduce`, `MPI_Allgather`, `MPI_Allgatherv`) that lines
191-273 of `psgsequb` add on rank `iam`: the reduction of line 215, and the two gathers
of lines 260 and 267 unless the routine leaves at line 238. -/
def psgsequbColsCollectives (ncol procs : Nat) (Astore : Nat → NRformat_loc ℚ)
    (bignum : ℚ) (radix : Nat) (o : Nat → EquOut) (W : Nat → EquUninit) (iam : Nat) : Nat :=
  let c := colC ncol procs Astore radix o W iam
  if (localMaxMin bignum 0 ncol c).2 = 0 then
    match firstZero c ncol with
    | some _ => 1
    | none => 3
  else 3

/-- The number of collectives (`MPI_Allreduce`, `MPI_Allgather`, `MPI_Allgatherv`) that the
process of rank `iam` enters in `psgsequb`: none before the returns of lines 116 and
124, the two reductions of lines 163-166 before the return of line 181, then those
of lines 191-273.  A process that never returns is blocked in its third. -/
def psgsequbCollectives (A : SuperMatrix) (Astore : Nat → NRformat_loc ℚ) (grid : gridinfo_t)
    (smlnum : ℚ) (radix : Nat) (init : Nat → EquOut) (W : Nat → EquUninit)
    (iam : Nat) : Nat :=
  if illegalArg A then 0
  else if A.nrow = 0 ∨ A.ncol = 0 then 0
  else
    let nrow := A.nrow.toNat
    let ncol := A.ncol.toNat
    let procs := grid.nprow * grid.npcol
    if rowRcmin A Astore grid smlnum radix init = 0 then
      match firstZero (rowR A Astore radix init iam) nrow with
      | some _ => 2
      | none =>
        if ∃ q, q < procs ∧ firstZero (rowR A Astore radix init q) nrow ≠ none then 3
        else 2 + psgsequbColsCollectives ncol procs Astore (1 / smlnum) radix
          (rowOut1 A Astore grid smlnum radix init) W iam
    else 2 + psgsequbColsCollectives ncol procs Astore (1 / smlnum) radix
      (rowOut2 A Astore grid smlnum radix init) W iam

/-- The rows of the 2 × 2 matrix `exFullA` on two processes when column 1 is empty: rank 0
owns the row `(0: 1)` and rank 1 the row `(0: 1)`. -/
def exZeroColStore : Nat → NRformat_loc ℚ := fun q =>
  if q = 0 then
    { nnz_loc := 1, m_loc := 1, fst_row := 0
      nzval := arrQ [1], rowptr := arrN [0, 1], colind := arrN [0] }
  else
    { nnz_loc := 1, m_loc := 1, fst_row := 1
      nzval := arrQ [1], rowptr := arrN [0, 1], colind := arrN [0] }

/-- A 1 × 1 matrix of the right types. -/
def exOneA : SuperMatrix :=
  { Stype := Stype_t.SLU_NR_loc, Dtype := Dtype_t.SLU_S, Mtype := Mtype_t.SLU_GE
    nrow := 1, ncol := 1 }

/-- A 1 × 1 process grid. -/
def exOneGrid : gridinfo_t := { nprow := 1, npcol := 1 }

/-- A local matrix with the single row `(0: 7/4)`. -/
def exRowC : NRformat_loc ℚ :=
  { nnz_loc := 1, m_loc := 1, fst_row := 0
    nzval := arrQ [7 / 4], rowptr := arrN [0, 1], colind := arrN [0] }

/-- The numbers of local rows of the processes, in rank order. -/
def mLocs (Astore : Nat → NRformat_loc ℚ) : Nat → Nat := fun q => (Astore q).m_loc

/-- A matrix with two rows and no column, of the right types. -/
def exNoColA : SuperMatrix :=
  { Stype := Stype_t.SLU_NR_loc, Dtype := Dtype_t.SLU_S, Mtype := Mtype_t.SLU_GE
    nrow := 2, ncol := 0 }

/-- The rows of `exNoColA` on two processes: rank `q` owns global row `q`, which is empty. -/
def exNoColStore : Nat → NRformat_loc ℚ := fun q =>
  { nnz_loc := 0, m_loc := 1, fst_row := q
    nzval := arrQ [], rowptr := arrN [0, 0], colind := arrN [] }

/-- Output arguments before the call: on rank `q` every entry of `r` holds `2000 + q`. -/
def exNoColInit : Nat → EquOut := fun q =>
  { r := fun _ => 2000 + q, c := fun _ => 7, rowcnd := 7, colcnd := 7, amax := 7, info := 7 }

/-! ## `psgsequb` with the conversion to `float` at line 200

The arrays of `psgsequb` are arrays of `float`, and its arithmetic is done in `double`.
For radix 2 the numbers stored into `r` and `c` at lines 143, 146, 186, 211 and 243 are
`float` already (the magnitude of an entry of `A`, or a power of 2 in the range of
`float`), so those stores convert nothing.  The store of line 200 is different: the
product `fabs(Aval[j]) * r[irow]` of two `float` is an exact `double` that need not be a
`float`, and the assignment to `c[jcol]` converts it; a product below the smallest
positive `float` becomes 0.  `psgsequbFl` is `psgsequb` with that conversion `fl` made
explicit; `psgsequb` is the case where `fl` changes nothing. -/

/-- What is assumed of the conversion `fl` of a `double` to `float` made by an assignment:
0 is kept, the conversion is monotone, and the result is a `float`, which a second
conversion keeps.  Rounding to nearest is such a conversion; it may turn a small
positive number into 0. -/
def FloatStore (fl : ℚ → ℚ) : Prop :=
  fl 0 = 0 ∧ (∀ x y, x ≤ y → fl x ≤ fl y) ∧ ∀ x, fl (fl x) = fl x

/-- A conversion that only underflows: a magnitude of at most `2^(-150)`, half the smallest
positive `float`, becomes 0, every other number is kept. -/
def flushToZero (x : ℚ) : ℚ := if |x| ≤ 1 / 2 ^ 150 then 0 else x

/-- Lines 192-214 of `psgsequb` on one process, with the conversion `fl` of the store of line
200: the arrays `c` and `loc_max` before the reduction. -/
def colScalesFl (fl : ℚ → ℚ) (ncol radix : Nat) (Astore : NRformat_loc ℚ)
    (r c loc_max : Nat → ℚ) : (Nat → ℚ) × (Nat → ℚ) :=
  let c0 := forLoop ncol (fun j c => write c j 0) c
  let c1 := (forLoop Astore.m_loc (fun i (s : (Nat → ℚ) × Nat) =>
    let irow := s.2
    (forRange (Astore.rowptr i) (Astore.rowptr (i + 1))
      (fun j c =>
        let jcol := Astore.colind j
        write c jcol (fl (max (c jcol) (|Astore.nzval j| * r irow)))) s.1,
     irow + 1)) (c0, Astore.fst_row)).1
  forLoop ncol (fun j (s : (Nat → ℚ) × (Nat → ℚ)) =>
    let c := if s.1 j > 0 then write s.1 j (powerOfRadix radix (s.1 j)) else s.1
    (c, write s.2 j (c j))) (c1, loc_max)

/-- The array `c` on rank `iam` after the reduction of line 215, with the conversion `fl` of
line 200, when the processes reach line 191 with the output arguments `o`. -/
def colCFl (fl : ℚ → ℚ) (ncol procs : Nat) (Astore : Nat → NRformat_loc ℚ) (radix : Nat)
    (o : Nat → EquOut) (W : Nat → EquUninit) (iam : Nat) : Nat → ℚ :=
  MPI_Allreduce_MAX_vec procs ncol
    (fun q => (colScalesFl fl ncol radix (Astore q) (o q).r (o q).c (W q).loc_max).2)
    (colScalesFl fl ncol radix (Astore iam) (o iam).r (o iam).c (W iam).loc_max).1

/-- Lines 191-273 of `psgsequb` on the process of rank `iam`, with the conversion `fl` of line
200.  `o q` holds the output arguments of rank `q` when it reaches line 191. -/
def psgsequbColsFl (fl : ℚ → ℚ) (nrow ncol procs : Nat) (Astore : Nat → NRformat_loc ℚ)
    (smlnum bignum : ℚ) (radix : Nat) (o : Nat → EquOut) (W : Nat → EquUninit)
    (iam : Nat) : EquOut :=
  let loc := fun q => colScalesFl fl ncol radix (Astore q) (o q).r (o q).c (W q).loc_max
  let c := MPI_Allreduce_MAX_vec procs ncol (fun q => (loc q).2) (loc iam).1
  let mm := localMaxMin bignum 0 ncol c
  let rcmax := mm.1
  let rcmin := mm.2
  if rcmin = 0 then
    match firstZero c ncol with
    | some j => { o iam with c := c, info := (nrow : Int) + j + 1 }
    | none => { o iam with c := c, r := gatherR procs Astore (fun q => (o q).r) W iam }
  else
    { o iam with
      c := invertScales ncol smlnum bignum c
      colcnd := max rcmin smlnum / min rcmax bignum
      r := gatherR procs Astore (fun q => (o q).r) W iam }

/-- The routine `psgsequb` on the process of rank `iam`, with the conversion `fl` of line 200:
the output arguments when the call returns, or `none` when the process waits in a
collective that other processes never enter. -/
def psgsequbFl (fl : ℚ → ℚ) (A : SuperMatrix) (Astore : Nat → NRformat_loc ℚ)
    (grid : gridinfo_t) (smlnum : ℚ) (radix : Nat) (init : Nat → EquOut)
    (W : Nat → EquUninit) (iam : Nat) : Option EquOut :=
  -- lines 109-117
  if A.nrow < 0 ∨ A.ncol < 0 ∨ A.Stype ≠ Stype_t.SLU_NR_loc ∨ A.Dtype ≠ Dtype_t.SLU_S ∨
      A.Mtype ≠ Mtype_t.SLU_GE then
    some { init iam with info := -1 }
  -- lines 120-125
  else if A.nrow = 0 ∨ A.ncol = 0 then
    some { init iam with info := 0, rowcnd := 1, colcnd := 1, amax := 0 }
  else
    let nrow := A.nrow.toNat
    let ncol := A.ncol.toNat
    let procs := grid.nprow * grid.npcol
    let bignum := 1 / smlnum
    -- lines 137-166
    let r := fun q => rowScales nrow radix (Astore q) (init q).r
    let mm := fun q =>
      localMaxMin bignum (Astore q).fst_row ((Astore q).fst_row + (Astore q).m_loc) (r q)
    let rcmax := MPI_Allreduce_MAX procs (fun q => (mm q).1)
    let rcmin := MPI_Allreduce_MIN procs (fun q => (mm q).2)
    let o1 := fun q => { init q with info := 0, r := r q, amax := rcmax }
    if rcmin = 0 then
      -- lines 178-182
      match firstZero (r iam) nrow with
      | some i => some { o1 iam with info := (i : Int) + 1 }
      | none =>
        if ∃ q, q < procs ∧ firstZero (r q) nrow ≠ none then none
        else some (psgsequbColsFl fl nrow ncol procs Astore smlnum bignum radix o1 W iam)
    else
      -- lines 185-188
      let o2 := fun q => { o1 q with
        r := invertScales nrow smlnum bignum (r q)
        rowcnd := max rcmin smlnum / min rcmax bignum }
      some (psgsequbColsFl fl nrow ncol procs Astore smlnum bignum radix o2 W iam)

/-- Local row `i` of a local matrix stores a non-zero value. -/
def RowHasNonzero (A : NRformat_loc ℚ) (i : Nat) : Prop :=
  ∃ t, A.rowptr i ≤ t ∧ t < A.rowptr (i + 1) ∧ A.nzval t ≠ 0

/-- Global column `j` has no non-zero value on any of the `procs` processes. -/
def ColEmpty (procs : Nat) (Astore : Nat → NRformat_loc ℚ) (j : Nat) : Prop :=
  ∀ q, q < procs → ∀ i, i < (Astore q).m_loc → ∀ t, (Astore q).rowptr i ≤ t →
    t < (Astore q).rowptr (i + 1) → (Astore q).colind t = j → (Astore q).nzval t = 0

/-- Global column `k` has an entry `A(i,k)` whose scaled magnitude `|A(i,k)| * R(i)`, with
`R(i) = 1 / min(max(s_i, smlnum), 1/smlnum)` the inverted clamped scale of its row, is still
positive after the conversion `fl` of the store of line 200: it does not underflow. -/
def ColKept (fl : ℚ → ℚ) (procs : Nat) (A : SuperMatrix) (Astore : Nat → NRformat_loc ℚ)
    (smlnum : ℚ) (radix : Nat) (init : Nat → EquOut) (k : Nat) : Prop :=
  ∃ q, q < procs ∧ ∃ i, i < (Astore q).m_loc ∧ ∃ t, (Astore q).rowptr i ≤ t ∧
    t < (Astore q).rowptr (i + 1) ∧ (Astore q).colind t = k ∧
    0 < fl (|(Astore q).nzval t| *
      (1 / min (max (rowR A Astore radix init q ((Astore q).fst_row + i)) smlnum) (1 / smlnum)))

/-- Every entry of global column `j` is stored as 0 at line 200: the conversion `fl` turns
`max(0, |A(i,j)| * R(i))` into 0, because the entry is 0 or because the product
underflows. -/
def ColLost (fl : ℚ → ℚ) (procs : Nat) (A : SuperMatrix) (Astore : Nat → NRformat_loc ℚ)
    (smlnum : ℚ) (radix : Nat) (init : Nat → EquOut) (j : Nat) : Prop :=
  ∀ q, q < procs → ∀ i, i < (Astore q).m_loc → ∀ t, (Astore q).rowptr i ≤ t →
    t < (Astore q).rowptr (i + 1) → (Astore q).colind t = j →
    fl (max 0 (|(Astore q).nzval t| *
      (1 / min (max (rowR A Astore radix init q ((Astore q).fst_row + i)) smlnum)
        (1 / smlnum)))) = 0

/-- The local matrix of every process when the matrix has no rows. -/
def exEmptyStore : Nat → NRformat_loc ℚ := fun _ =>
  { nnz_loc := 0, m_loc := 0, fst_row := 0
    nzval := arrQ [], rowptr := arrN [0], colind := arrN [] }

/-- A 2 × 3 matrix of the right types. -/
def exUnderA : SuperMatrix :=
  { Stype := Stype_t.SLU_NR_loc, Dtype := Dtype_t.SLU_S, Mtype := Mtype_t.SLU_GE
    nrow := 2, ncol := 3 }

/-- The rows of `exUnderA` on one process: row 0 is `(0: 2^100), (1: 2^(-100))`, row 1 is
`(0: 1)`; column 2 has no entry. -/
def exUnderStore : Nat → NRformat_loc ℚ := fun _ =>
  { nnz_loc := 3, m_loc := 2, fst_row := 0
    nzval := arrQ [2 ^ 100, 1 / 2 ^ 100, 1], rowptr := arrN [0, 2, 3]
    colind := arrN [0, 1, 0] }

/-- Output arguments before the call with `r[i] = i + 1`. -/
def exRampInit : Nat → EquOut := fun _ =>
  { r := fun i => (i : ℚ) + 1, c := fun _ => 7, rowcnd := 7, colcnd := 7, amax := 7, info := 7 }

/-- A local matrix with the single row `(0: 1/8)`. -/
def exRowD : NRformat_loc ℚ :=
  { nnz_loc := 1, m_loc := 1, fst_row := 0
    nzval := arrQ [1 / 8], rowptr := arrN [0, 1], colind := arrN [0] }

/-! # Lemmas and theorems -/

/-! ## Arrays, loops, and loops of stores -/

@[simp] theorem write_same {α : Type} (a : Nat → α) (i : Nat) (v : α) : write a i v i = v := by
  simp [write]

theorem write_ne {α : Type} (a : Nat → α) (i k : Nat) (v : α) (h : k ≠ i) :
    write a i v k = a k := by
  simp [write, h]

@[simp] theorem forLoop_zero {σ : Type} (body : Nat → σ → σ) (s : σ) : forLoop 0 body s = s := rfl

theorem forLoop_succ {σ : Type} (n : Nat) (body : Nat → σ → σ) (s : σ) :
    forLoop (n + 1) body s = body n (forLoop n body s) := rfl

theorem forLoop_congr {σ : Type} (n : Nat) (f g : Nat → σ → σ) (s : σ)
    (h : ∀ i, i < n → ∀ x, f i x = g i x) : forLoop n f s = forLoop n g s := by
  induction n with
  | zero => rfl
  | succ n ih =>
    rw [forLoop_succ, forLoop_succ, ih (fun i hi x => h i (Nat.lt_succ_of_lt hi) x),
      h n (Nat.lt_succ_self n)]

theorem Writes_write {α : Type} (x : Nat) (v : α) :
    Writes (fun m => write m x v) (fun a w => a = x ∧ w = v) := by
  intro m a
  constructor
  · rintro w ⟨rfl, rfl⟩
    simp
  · intro h
    apply write_ne
    intro hax
    exact h v ⟨hax, rfl⟩

theorem Writes_forLoop {α : Type} (n : Nat) (body : Nat → (Nat → α) → (Nat → α))
    (R : Nat → Nat → α → Prop)
    (hb : ∀ i, i < n → Writes (body i) (R i))
    (hc : ∀ i j a v w, i < n → j < n → R i a v → R j a w → v = w) :
    Writes (fun m => forLoop n body m) (fun a v => ∃ i, i < n ∧ R i a v) := by
  induction n with
  | zero =>
    intro m a
    constructor
    · rintro v ⟨i, hi, _⟩
      exact absurd hi (Nat.not_lt_zero i)
    · intro _
      rfl
  | succ n ih =>
    have ih1 := ih (fun i hi => hb i (Nat.lt_succ_of_lt hi))
      (fun i j a v w hi hj => hc i j a v w (Nat.lt_succ_of_lt hi) (Nat.lt_succ_of_lt hj))
    intro m a
    have hn := hb n (Nat.lt_succ_self n) (forLoop n body m) a
    constructor
    · rintro v ⟨i, hi, hR⟩
      show body n (forLoop n body m) a = v
      by_cases hex : ∃ w, R n a w
      · obtain ⟨w, hw⟩ := hex
        rw [hn.1 w hw]
        exact hc n i a w v (Nat.lt_succ_self n) hi hw hR
      · have hno : ∀ w, ¬ R n a w := fun w hw => hex ⟨w, hw⟩
        rw [hn.2 hno]
        have hi1 : i < n := by
          rcases Nat.lt_succ_iff_lt_or_eq.mp hi with h | h
          · exact h
          · subst h
            exact absurd hR (hno v)
        exact (ih1 m a).1 v ⟨i, hi1, hR⟩
    · intro hno
      show body n (forLoop n body m) a = m a
      rw [hn.2 (fun w hw => hno w ⟨n, Nat.lt_succ_self n, hw⟩)]
      exact (ih1 m a).2 (fun w ⟨i, hi, hw⟩ => hno w ⟨i, Nat.lt_succ_of_lt hi, hw⟩)

/-- Column-major positions determine row and column when the row is below the stride. -/
theorem colMajor_inj {ld i j i1 j1 : Nat} (hi : i < ld) (hi1 : i1 < ld)
    (h : i + ld * j = i1 + ld * j1) : i = i1 ∧ j = j1 := by
  have hmod : (i + ld * j) % ld = (i1 + ld * j1) % ld := by rw [h]
  rw [Nat.add_mul_mod_self_left, Nat.add_mul_mod_self_left, Nat.mod_eq_of_lt hi,
    Nat.mod_eq_of_lt hi1] at hmod
  subst hmod
  have hpos : 0 < ld := Nat.lt_of_le_of_lt (Nat.zero_le _) hi
  have hmul : ld * j = ld * j1 := Nat.add_left_cancel h
  exact ⟨rfl, Nat.eq_of_mul_eq_mul_left hpos hmul⟩

theorem colMajor_lt {n m i j : Nat} (hi : i < n) (hj : j < m) : i + n * j < n * m := by
  have h1 : n * j + n ≤ n * m := by
    have : n * (j + 1) ≤ n * m := Nat.mul_le_mul_left n hj
    rwa [Nat.mul_succ] at this
  omega

theorem matCopy_writes {α : Type} (n m dOff lddst : Nat) (Src : Nat → α) (ldsrc : Nat)
    (hld : n ≤ lddst) :
    Writes (fun D => matCopy n m D dOff lddst Src ldsrc)
      (fun a v => ∃ j, j < m ∧ ∃ i, i < n ∧ (a = dOff + (i + lddst * j) ∧ v = Src (i + ldsrc * j))) := by
  unfold matCopy
  apply Writes_forLoop m _ (fun j a v => ∃ i, i < n ∧ (a = dOff + (i + lddst * j) ∧ v = Src (i + ldsrc * j)))
  · intro j _
    apply Writes_forLoop n _ (fun i a v => a = dOff + (i + lddst * j) ∧ v = Src (i + ldsrc * j))
    · intro i _
      exact Writes_write _ _
    · rintro i i1 a v w _ _ ⟨h1, h2⟩ ⟨h3, h4⟩
      have : i = i1 := by omega
      subst this
      rw [h2, h4]
  · rintro j j1 a v w _ _ ⟨i, hi, h1, h2⟩ ⟨i1, hi1, h3, h4⟩
    have h : i + lddst * j = i1 + lddst * j1 := by omega
    obtain ⟨rfl, rfl⟩ := colMajor_inj (Nat.lt_of_lt_of_le hi hld) (Nat.lt_of_lt_of_le hi1 hld) h
    rw [h2, h4]

theorem matCopy_read {α : Type} (n m : Nat) (dst : Nat → α) (dOff lddst : Nat) (Src : Nat → α)
    (ldsrc : Nat) (hld : n ≤ lddst) {i j : Nat} (hi : i < n) (hj : j < m) :
    matCopy n m dst dOff lddst Src ldsrc (dOff + (i + lddst * j)) = Src (i + ldsrc * j) :=
  ((matCopy_writes n m dOff lddst Src ldsrc hld) dst _).1 _ ⟨j, hj, i, hi, rfl, rfl⟩

/-! ## Prefix sums -/

theorem prefixSum_congr (c d : Nat → Nat) (k : Nat) (h : ∀ i, i < k → c i = d i) :
    prefixSum c k = prefixSum d k := by
  induction k with
  | zero => rfl
  | succ k ih =>
    simp only [prefixSum]
    rw [ih (fun i hi => h i (Nat.lt_succ_of_lt hi)), h k (Nat.lt_succ_self k)]

theorem prefixSum_mul (n : Nat) (c : Nat → Nat) (k : Nat) :
    prefixSum (fun i => n * c i) k = n * prefixSum c k := by
  induction k with
  | zero => rfl
  | succ k ih => simp only [prefixSum, ih, Nat.mul_add]

theorem prefixSum_mono (c : Nat → Nat) {i j : Nat} (h : i ≤ j) :
    prefixSum c i ≤ prefixSum c j := by
  induction j with
  | zero =>
    have : i = 0 := Nat.le_zero.mp h
    subst this
    exact Nat.le_refl _
  | succ j ih =>
    rcases Nat.lt_or_ge i (j + 1) with hlt | hge
    · exact Nat.le_trans (ih (Nat.lt_succ_iff.mp hlt)) (Nat.le_add_right _ _)
    · have : i = j + 1 := Nat.le_antisymm h hge
      subst this
      exact Nat.le_refl _

theorem prefixSum_block_le (c : Nat → Nat) {i j : Nat} (h : i < j) :
    prefixSum c i + c i ≤ prefixSum c j :=
  prefixSum_mono c (Nat.succ_le_of_lt h)

/-- A position below the total lies in exactly one block of a prefix-sum layout. -/
theorem prefixSum_unique (c : Nat → Nat) {i j t u : Nat} (ht : t < c i) (hu : u < c j)
    (h : prefixSum c i + t = prefixSum c j + u) : i = j ∧ t = u := by
  rcases Nat.lt_trichotomy i j with hlt | heq | hgt
  · have := prefixSum_block_le c hlt
    omega
  · subst heq
    exact ⟨rfl, by omega⟩
  · have := prefixSum_block_le c hgt
    omega

theorem prefixSum_find (c : Nat → Nat) (n r : Nat) (h : r < prefixSum c n) :
    ∃ i, i < n ∧ ∃ k, k < c i ∧ r = prefixSum c i + k := by
  induction n with
  | zero => exact absurd h (Nat.not_lt_zero r)
  | succ n ih =>
    rcases Nat.lt_or_ge r (prefixSum c n) with hlt | hge
    · obtain ⟨i, hi, k, hk, hr⟩ := ih hlt
      exact ⟨i, Nat.lt_succ_of_lt hi, k, hk, hr⟩
    · refine ⟨n, Nat.lt_succ_self n, r - prefixSum c n, ?_, ?_⟩
      · simp only [prefixSum] at h
        omega
      · omega

/-! ## The collectives -/

theorem MPI_Gather_read {β : Type} (size : Nat) (send recv : Nat → β) {i : Nat} (hi : i < size) :
    MPI_Gather size send recv i = send i := by
  have h := Writes_forLoop size (fun i R => write R i (send i))
    (fun i a v => a = i ∧ v = send i) (fun i _ => Writes_write _ _)
    (by
      rintro i j a v w _ _ ⟨h1, h2⟩ ⟨h3, h4⟩
      rw [h2, h4, ← h1, ← h3])
  exact (h recv i).1 _ ⟨i, hi, rfl, rfl⟩

theorem MPI_Allgather_read {β : Type} (size : Nat) (send recv : Nat → β) {i : Nat}
    (hi : i < size) : MPI_Allgather size send recv i = send i :=
  MPI_Gather_read size send recv hi

/-- Outcome of `MPI_Gatherv` when rank `i` contributes `cnt i` items and the
displacements are the prefix sums of the counts. -/
theorem MPI_Gatherv_writes {β : Type} (size : Nat) (sendbuf : Nat → Nat → β)
    (sendcount : Nat → Nat) (rOff : Nat) (recvcounts displs cnt : Nat → Nat)
    (hcnt : ∀ i, i < size → min (sendcount i) (recvcounts i) = cnt i)
    (hdis : ∀ i, i < size → displs i = prefixSum cnt i) :
    Writes (fun R => MPI_Gatherv size sendbuf sendcount R rOff recvcounts displs)
      (fun a v => ∃ i, i < size ∧ ∃ t, t < cnt i ∧
        (a = rOff + (prefixSum cnt i + t) ∧ v = sendbuf i t)) := by
  have hrw : ∀ R, MPI_Gatherv size sendbuf sendcount R rOff recvcounts displs =
      forLoop size (fun i R => forLoop (cnt i)
        (fun t R => write R (rOff + (prefixSum cnt i + t)) (sendbuf i t)) R) R := by
    intro R
    unfold MPI_Gatherv
    apply forLoop_congr
    intro i hi x
    rw [hcnt i hi, hdis i hi]
  simp only [hrw]
  apply Writes_forLoop size _ (fun i a v => ∃ t, t < cnt i ∧
    (a = rOff + (prefixSum cnt i + t) ∧ v = sendbuf i t))
  · intro i _
    apply Writes_forLoop (cnt i) _
      (fun t a v => a = rOff + (prefixSum cnt i + t) ∧ v = sendbuf i t)
    · intro t _
      exact Writes_write _ _
    · rintro t u a v w _ _ ⟨h1, h2⟩ ⟨h3, h4⟩
      have : t = u := by omega
      subst this
      rw [h2, h4]
  · rintro i j a v w _ _ ⟨t, ht, h1, h2⟩ ⟨u, hu, h3, h4⟩
    have h : prefixSum cnt i + t = prefixSum cnt j + u := by omega
    obtain ⟨rfl, rfl⟩ := prefixSum_unique cnt ht hu h
    rw [h2, h4]

theorem MPI_Gatherv_read {β : Type} (size : Nat) (sendbuf : Nat → Nat → β)
    (sendcount : Nat → Nat) (recv : Nat → β) (rOff : Nat) (recvcounts displs cnt : Nat → Nat)
    (hcnt : ∀ i, i < size → min (sendcount i) (recvcounts i) = cnt i)
    (hdis : ∀ i, i < size → displs i = prefixSum cnt i)
    {i t : Nat} (hi : i < size) (ht : t < cnt i) :
    MPI_Gatherv size sendbuf sendcount recv rOff recvcounts displs
      (rOff + (prefixSum cnt i + t)) = sendbuf i t :=
  ((MPI_Gatherv_writes size sendbuf sendcount rOff recvcounts displs cnt hcnt hdis) recv _).1 _
    ⟨i, hi, t, ht, rfl, rfl⟩

theorem MPI_Gatherv_frame {β : Type} (size : Nat) (sendbuf : Nat → Nat → β)
    (sendcount : Nat → Nat) (recv : Nat → β) (rOff : Nat) (recvcounts displs cnt : Nat → Nat)
    (hcnt : ∀ i, i < size → min (sendcount i) (recvcounts i) = cnt i)
    (hdis : ∀ i, i < size → displs i = prefixSum cnt i)
    (a : Nat) (ha : a < rOff) :
    MPI_Gatherv size sendbuf sendcount recv rOff recvcounts displs a = recv a :=
  ((MPI_Gatherv_writes size sendbuf sendcount rOff recvcounts displs cnt hcnt hdis) recv a).2
    (by
      rintro v ⟨i, _, t, _, h, _⟩
      omega)

theorem MPI_Scatterv_read {β : Type} (sendbuf : Nat → β) (sendcounts displs : Nat → Nat)
    (recv : Nat → β) (recvcount i : Nat) {t : Nat} (ht : t < min (sendcounts i) recvcount) :
    MPI_Scatterv sendbuf sendcounts displs recv recvcount i t = sendbuf (displs i + t) := by
  have h := Writes_forLoop (min (sendcounts i) recvcount)
    (fun t R => write R t (sendbuf (displs i + t)))
    (fun t a v => a = t ∧ v = sendbuf (displs i + t)) (fun t _ => Writes_write _ _)
    (by
      rintro t u a v w _ _ ⟨h1, h2⟩ ⟨h3, h4⟩
      rw [h2, h4, ← h1, ← h3])
  exact (h recv t).1 _ ⟨t, ht, rfl, rfl⟩

/-! ## The tables -/

theorem scatterTables_eq_gatherTables : scatterTables = gatherTables := rfl

theorem gatherTables_spec (nrhs npdep : Nat) (nc rc : Nat → Nat) (U : Tables) :
    (∀ k, k ≤ npdep →
      (gatherTables nrhs npdep nc rc U).nnz_disp k = prefixSum nc k ∧
      (gatherTables nrhs npdep nc rc U).row_disp k = prefixSum rc k ∧
      (gatherTables nrhs npdep nc rc U).b_disp k = nrhs * prefixSum rc k) ∧
    (∀ i, i < npdep →
      (gatherTables nrhs npdep nc rc U).nnz_counts_int i = nc i ∧
      (gatherTables nrhs npdep nc rc U).row_counts_int i = rc i ∧
      (gatherTables nrhs npdep nc rc U).b_counts_int i = nrhs * rc i) := by
  induction npdep with
  | zero =>
    constructor
    · intro k hk
      have : k = 0 := Nat.le_zero.mp hk
      subst this
      simp [gatherTables, prefixSum]
    · intro i hi
      exact absurd hi (Nat.not_lt_zero i)
  | succ n ih =>
    obtain ⟨ihd, ihc⟩ := ih
    have hstep : gatherTables nrhs (n + 1) nc rc U =
        (fun i T =>
          let nnz_disp := write T.nnz_disp (i + 1) (T.nnz_disp i + nc i)
          let row_disp := write T.row_disp (i + 1) (T.row_disp i + rc i)
          ({ nnz_disp := nnz_disp
             row_disp := row_disp
             b_disp := write T.b_disp (i + 1) (nrhs * row_disp (i + 1))
             nnz_counts_int := write T.nnz_counts_int i (nc i)
             row_counts_int := write T.row_counts_int i (rc i)
             b_counts_int := write T.b_counts_int i (nrhs * rc i) } : Tables))
          n (gatherTables nrhs n nc rc U) := rfl
    rw [hstep]
    obtain ⟨hn1, hn2, _⟩ := ihd n (Nat.le_refl n)
    constructor
    · intro k hk
      rcases Nat.lt_succ_iff_lt_or_eq.mp (Nat.lt_succ_of_le hk) with hlt | heq
      · have hne : k ≠ n + 1 := Nat.ne_of_lt hlt
        simp only [write_ne _ _ _ _ hne]
        exact ihd k (Nat.lt_succ_iff.mp hlt)
      · subst heq
        simp only [write_same, hn1, hn2, prefixSum, and_self]
    · intro i hi
      rcases Nat.lt_succ_iff_lt_or_eq.mp hi with hlt | heq
      · have hne : i ≠ n := Nat.ne_of_lt hlt
        simp only [write_ne _ _ _ _ hne]
        exact ihc i hlt
      · subst heq
        simp only [write_same, and_self]

theorem rebase_inner (lo hi d : Nat) (R0 : Nat → Nat) (a : Nat) :
    forRange lo hi (fun j R => write R j (R j + d)) R0 a =
      if lo ≤ a ∧ a < hi then R0 a + d else R0 a := by
  unfold forRange
  have key : ∀ c, forLoop c (fun t R => write R (lo + t) (R (lo + t) + d)) R0 a =
      if lo ≤ a ∧ a < lo + c then R0 a + d else R0 a := by
    intro c
    induction c generalizing a with
    | zero =>
      have : ¬ (lo ≤ a ∧ a < lo + 0) := by omega
      rw [forLoop_zero, if_neg this]
    | succ c ih =>
      rw [forLoop_succ]
      by_cases ha : a = lo + c
      · subst ha
        rw [write_same, ih]
        have h1 : ¬ (lo ≤ lo + c ∧ lo + c < lo + c) := by omega
        have h2 : lo ≤ lo + c ∧ lo + c < lo + (c + 1) := by omega
        simp [h1, h2]
      · rw [write_ne _ _ _ _ ha, ih]
        by_cases h1 : lo ≤ a ∧ a < lo + c
        · have h2 : lo ≤ a ∧ a < lo + (c + 1) := by omega
          simp [h1, h2]
        · have h2 : ¬ (lo ≤ a ∧ a < lo + (c + 1)) := by omega
          simp [h1, h2]
  rw [key]
  by_cases h1 : lo ≤ a ∧ a < hi
  · have h2 : lo ≤ a ∧ a < lo + (hi - lo) := by omega
    simp [h1, h2]
  · have h2 : ¬ (lo ≤ a ∧ a < lo + (hi - lo)) := by omega
    simp [h1, h2]

/-- The loop of lines 87-94: every entry gathered from layer `i` is raised by `nd i`,
entry 0 and the entries past the last layer are left alone. -/
theorem rebase_spec (n : Nat) (rc nd : Nat → Nat) (R0 : Nat → Nat)
    (F : Nat → (Nat → Nat) → (Nat → Nat))
    (hF : ∀ i R, F i R = forRange (prefixSum rc i + 1) (prefixSum rc (i + 1) + 1)
        (fun j R => write R j (R j + nd i)) R) :
    (∀ a, prefixSum rc n < a → forLoop n F R0 a = R0 a) ∧
    (forLoop n F R0 0 = R0 0) ∧
    (∀ i, i < n → ∀ k, k < rc i →
      forLoop n F R0 (prefixSum rc i + k + 1) = R0 (prefixSum rc i + k + 1) + nd i) := by
  induction n with
  | zero =>
    refine ⟨fun a _ => rfl, rfl, fun i hi => absurd hi (Nat.not_lt_zero i)⟩
  | succ n ih =>
    obtain ⟨ih1, ih2, ih3⟩ := ih
    have hps : prefixSum rc (n + 1) = prefixSum rc n + rc n := rfl
    refine ⟨?_, ?_, ?_⟩
    · intro a ha
      rw [forLoop_succ, hF, rebase_inner]
      have h1 : ¬ (prefixSum rc n + 1 ≤ a ∧ a < prefixSum rc (n + 1) + 1) := by omega
      rw [if_neg h1]
      exact ih1 a (by omega)
    · rw [forLoop_succ, hF, rebase_inner]
      have h1 : ¬ (prefixSum rc n + 1 ≤ 0 ∧ 0 < prefixSum rc (n + 1) + 1) := by omega
      rw [if_neg h1]
      exact ih2
    · intro i hi k hk
      rw [forLoop_succ, hF, rebase_inner]
      rcases Nat.lt_succ_iff_lt_or_eq.mp hi with hlt | heq
      · have hle := prefixSum_block_le rc hlt
        have h1 : ¬ (prefixSum rc n + 1 ≤ prefixSum rc i + k + 1 ∧
            prefixSum rc i + k + 1 < prefixSum rc (n + 1) + 1) := by omega
        rw [if_neg h1]
        exact ih3 i hlt k hk
      · subst heq
        have h1 : prefixSum rc i + 1 ≤ prefixSum rc i + k + 1 ∧
            prefixSum rc i + k + 1 < prefixSum rc (i + 1) + 1 := by omega
        rw [if_pos h1, ih1 _ (by omega)]

/-! ## What `gatherHead` computes -/

theorem gatherHead_tables {α : Type} (npdep nrhs : Nat) (X : Nat → Local3d α) (U : Uninit α) :
    (∀ k, k ≤ npdep →
      (gatherHead npdep nrhs X U).2.nnz_disp k = prefixSum (nnzCounts X) k ∧
      (gatherHead npdep nrhs X U).2.row_disp k = prefixSum (rowCounts X) k ∧
      (gatherHead npdep nrhs X U).2.b_disp k = nrhs * prefixSum (rowCounts X) k) ∧
    (∀ i, i < npdep →
      (gatherHead npdep nrhs X U).2.nnz_counts_int i = nnzCounts X i ∧
      (gatherHead npdep nrhs X U).2.row_counts_int i = rowCounts X i ∧
      (gatherHead npdep nrhs X U).2.b_counts_int i = nrhs * rowCounts X i) := by
  have h := gatherTables_spec nrhs npdep
    (MPI_Gather npdep (nnzCounts X) U.nnz_counts)
    (MPI_Gather npdep (rowCounts X) U.row_counts) U.tables
  have e1 : ∀ k, k ≤ npdep →
      prefixSum (MPI_Gather npdep (nnzCounts X) U.nnz_counts) k = prefixSum (nnzCounts X) k :=
    fun k hk =>
      prefixSum_congr _ _ k (fun i hi => MPI_Gather_read _ _ _ (Nat.lt_of_lt_of_le hi hk))
  have e2 : ∀ k, k ≤ npdep →
      prefixSum (MPI_Gather npdep (rowCounts X) U.row_counts) k = prefixSum (rowCounts X) k :=
    fun k hk =>
      prefixSum_congr _ _ k (fun i hi => MPI_Gather_read _ _ _ (Nat.lt_of_lt_of_le hi hk))
  constructor
  · intro k hk
    obtain ⟨h1, h2, h3⟩ := h.1 k hk
    rw [← e1 k hk, ← e2 k hk]
    exact ⟨h1, h2, h3⟩
  · intro i hi
    obtain ⟨h1, h2, h3⟩ := h.2 i hi
    rw [← MPI_Gather_read npdep (nnzCounts X) U.nnz_counts hi,
      ← MPI_Gather_read npdep (rowCounts X) U.row_counts hi]
    exact ⟨h1, h2, h3⟩

theorem gatherHead_m_loc {α : Type} (npdep nrhs : Nat) (X : Nat → Local3d α) (U : Uninit α) :
    (gatherHead npdep nrhs X U).1.m_loc = prefixSum (rowCounts X) npdep :=
  ((gatherHead_tables npdep nrhs X U).1 npdep (Nat.le_refl _)).2.1

theorem gatherHead_nnz_loc {α : Type} (npdep nrhs : Nat) (X : Nat → Local3d α) (U : Uninit α) :
    (gatherHead npdep nrhs X U).1.nnz_loc = prefixSum (nnzCounts X) npdep :=
  ((gatherHead_tables npdep nrhs X U).1 npdep (Nat.le_refl _)).1

theorem gatherHead_nzval {α : Type} (npdep nrhs : Nat) (X : Nat → Local3d α) (U : Uninit α)
    {i t : Nat} (hi : i < npdep) (ht : t < nnzCounts X i) :
    (gatherHead npdep nrhs X U).1.nzval (prefixSum (nnzCounts X) i + t) = (X i).A.nzval t := by
  have hT := gatherHead_tables npdep nrhs X U
  have h := MPI_Gatherv_read npdep (fun i => (X i).A.nzval) (nnzCounts X) U.A2d.nzval 0
    (gatherHead npdep nrhs X U).2.nnz_counts_int (gatherHead npdep nrhs X U).2.nnz_disp
    (nnzCounts X)
    (fun j hj => by rw [(hT.2 j hj).1]; exact Nat.min_self _)
    (fun j hj => (hT.1 j (Nat.le_of_lt hj)).1) hi ht
  rw [Nat.zero_add] at h
  exact h

theorem gatherHead_colind {α : Type} (npdep nrhs : Nat) (X : Nat → Local3d α) (U : Uninit α)
    {i t : Nat} (hi : i < npdep) (ht : t < nnzCounts X i) :
    (gatherHead npdep nrhs X U).1.colind (prefixSum (nnzCounts X) i + t) = (X i).A.colind t := by
  have hT := gatherHead_tables npdep nrhs X U
  have h := MPI_Gatherv_read npdep (fun i => (X i).A.colind) (nnzCounts X) U.A2d.colind 0
    (gatherHead npdep nrhs X U).2.nnz_counts_int (gatherHead npdep nrhs X U).2.nnz_disp
    (nnzCounts X)
    (fun j hj => by rw [(hT.2 j hj).1]; exact Nat.min_self _)
    (fun j hj => (hT.1 j (Nat.le_of_lt hj)).1) hi ht
  rw [Nat.zero_add] at h
  exact h

/-- The row pointers after the three gathers and the rebasing loop, whatever the
layers hold: entry 0 is 0 and entry `row_disp[i] + k + 1` is entry `k + 1` of layer
`i` raised by `nnz_disp[i]`. -/
theorem gatherHead_rowptr {α : Type} (npdep nrhs : Nat) (X : Nat → Local3d α) (U : Uninit α) :
    (gatherHead npdep nrhs X U).1.rowptr 0 = 0 ∧
    ∀ i, i < npdep → ∀ k, k < rowCounts X i →
      (gatherHead npdep nrhs X U).1.rowptr (prefixSum (rowCounts X) i + k + 1) =
        prefixSum (nnzCounts X) i + (X i).A.rowptr (k + 1) := by
  have hT := gatherHead_tables npdep nrhs X U
  have hcnt : ∀ j, j < npdep →
      min (rowCounts X j) ((gatherHead npdep nrhs X U).2.row_counts_int j) = rowCounts X j :=
    fun j hj => by rw [(hT.2 j hj).2.1]; exact Nat.min_self _
  have hdis : ∀ j, j < npdep →
      (gatherHead npdep nrhs X U).2.row_disp j = prefixSum (rowCounts X) j :=
    fun j hj => (hT.1 j (Nat.le_of_lt hj)).2.1
  -- the rebasing loop, with the tables replaced by the prefix sums
  have hloop : (gatherHead npdep nrhs X U).1.rowptr =
      forLoop npdep (fun i R =>
        forRange (prefixSum (rowCounts X) i + 1) (prefixSum (rowCounts X) (i + 1) + 1)
          (fun j R => write R j (R j + prefixSum (nnzCounts X) i)) R)
        (MPI_Gatherv npdep (fun i t => (X i).A.rowptr (1 + t)) (rowCounts X)
          (write U.A2d.rowptr 0 0) 1
          (gatherHead npdep nrhs X U).2.row_counts_int (gatherHead npdep nrhs X U).2.row_disp) := by
    show forLoop npdep (fun i R =>
        forRange ((gatherHead npdep nrhs X U).2.row_disp i + 1)
          ((gatherHead npdep nrhs X U).2.row_disp (i + 1) + 1)
          (fun j R => write R j (R j + (gatherHead npdep nrhs X U).2.nnz_disp i)) R) _ = _
    apply forLoop_congr
    intro i hi R
    rw [(hT.1 i (Nat.le_of_lt hi)).2.1, (hT.1 (i + 1) (Nat.succ_le_of_lt hi)).2.1,
      (hT.1 i (Nat.le_of_lt hi)).1]
  have hr := rebase_spec npdep (rowCounts X) (prefixSum (nnzCounts X))
    (MPI_Gatherv npdep (fun i t => (X i).A.rowptr (1 + t)) (rowCounts X)
      (write U.A2d.rowptr 0 0) 1
      (gatherHead npdep nrhs X U).2.row_counts_int (gatherHead npdep nrhs X U).2.row_disp)
    _ (fun _ _ => rfl)
  rw [hloop]
  constructor
  · rw [hr.2.1, MPI_Gatherv_frame npdep _ _ _ 1 _ _ (rowCounts X) hcnt hdis 0 Nat.zero_lt_one,
      write_same]
  · intro i hi k hk
    rw [hr.2.2 i hi k hk]
    have h1 := MPI_Gatherv_read npdep (fun i t => (X i).A.rowptr (1 + t)) (rowCounts X)
      (write U.A2d.rowptr 0 0) 1 _ _ (rowCounts X) hcnt hdis hi hk
    have e : prefixSum (rowCounts X) i + k + 1 = 1 + (prefixSum (rowCounts X) i + k) := by
      rw [Nat.add_comm]
    rw [e, h1]
    show (X i).A.rowptr (1 + k) + prefixSum (nnzCounts X) i =
      prefixSum (nnzCounts X) i + (X i).A.rowptr (k + 1)
    rw [Nat.add_comm 1 k, Nat.add_comm]

/-- With well-formed layers the boundary between the blocks of two layers carries the
displacement of the later one: `rowptr[row_disp[i]] = nnz_disp[i]`, also when layers
in between own no rows. -/
theorem gatherHead_rowptr_boundary {α : Type} (npdep nrhs : Nat) (X : Nat → Local3d α)
    (U : Uninit α) (hwf : ∀ i, i < npdep → WellFormed (X i).A) :
    ∀ i, i ≤ npdep →
      (gatherHead npdep nrhs X U).1.rowptr (prefixSum (rowCounts X) i) =
        prefixSum (nnzCounts X) i := by
  have hR := gatherHead_rowptr npdep nrhs X U
  intro i
  induction i with
  | zero =>
    intro _
    exact hR.1
  | succ i ih =>
    intro hi
    have hi1 : i < npdep := Nat.lt_of_succ_le hi
    obtain ⟨w0, wn, _⟩ := hwf i hi1
    have hps : prefixSum (rowCounts X) (i + 1) = prefixSum (rowCounts X) i + (X i).A.m_loc := rfl
    have hpn : prefixSum (nnzCounts X) (i + 1) = prefixSum (nnzCounts X) i + (X i).A.nnz_loc := rfl
    rw [hps, hpn]
    rcases Nat.eq_zero_or_pos (X i).A.m_loc with h0 | hpos
    · rw [h0] at wn
      rw [h0, Nat.add_zero, ih (Nat.le_of_lt hi1), ← wn, w0, Nat.add_zero]
    · obtain ⟨k, hk⟩ : ∃ k, (X i).A.m_loc = k + 1 := ⟨(X i).A.m_loc - 1, by omega⟩
      have hk1 : k < rowCounts X i := by
        show k < (X i).A.m_loc
        omega
      have h := hR.2 i hi1 k hk1
      rw [← hk] at h
      rw [hk, ← Nat.add_assoc, h, wn]

/-- With well-formed layers, every row pointer of layer `i` reappears raised by
`nnz_disp[i]` at distance `row_disp[i]`. -/
theorem gatherHead_rowptr_wf {α : Type} (npdep nrhs : Nat) (X : Nat → Local3d α)
    (U : Uninit α) (hwf : ∀ i, i < npdep → WellFormed (X i).A)
    {i k : Nat} (hi : i < npdep) (hk : k ≤ (X i).A.m_loc) :
    (gatherHead npdep nrhs X U).1.rowptr (prefixSum (rowCounts X) i + k) =
      prefixSum (nnzCounts X) i + (X i).A.rowptr k := by
  cases k with
  | zero =>
    rw [Nat.add_zero, gatherHead_rowptr_boundary npdep nrhs X U hwf i (Nat.le_of_lt hi),
      (hwf i hi).1, Nat.add_zero]
  | succ k =>
    rw [← Nat.add_assoc]
    exact (gatherHead_rowptr npdep nrhs X U).2 i hi k hk

theorem wellFormed_mono {α : Type} (A : NRformat_loc α) (h : WellFormed A) {a b : Nat}
    (hab : a ≤ b) (hb : b ≤ A.m_loc) : A.rowptr a ≤ A.rowptr b := by
  induction b with
  | zero =>
    have : a = 0 := Nat.le_zero.mp hab
    subst this
    exact Nat.le_refl _
  | succ b ih =>
    rcases Nat.lt_or_ge a (b + 1) with hlt | hge
    · exact Nat.le_trans (ih (Nat.lt_succ_iff.mp hlt) (Nat.le_of_succ_le hb))
        (h.2.2 b (Nat.lt_of_succ_le hb))
    · have : a = b + 1 := Nat.le_antisymm hab hge
      subst this
      exact Nat.le_refl _

/-! ## Re-blocking loops of the right-hand side -/

/-- The loop of lines 139-144 of `dGatherNRformat_loc`: block `i` lands in rows
`prefixSum c i ..` of every column of a matrix with `prefixSum c n` rows. -/
theorem colMajorLoop_read {α : Type} (n nrhs : Nat) (c : Nat → Nat) (S : Nat → Nat → α)
    (l : Nat → Nat) (D0 : Nat → α) {i k j : Nat} (hi : i < n) (hk : k < c i) (hj : j < nrhs) :
    forLoop n (fun i D => matCopy (c i) nrhs D (prefixSum c i) (prefixSum c n) (S i) (l i)) D0
      (prefixSum c i + (k + prefixSum c n * j)) = S i (k + l i * j) := by
  have h := Writes_forLoop n
    (fun i D => matCopy (c i) nrhs D (prefixSum c i) (prefixSum c n) (S i) (l i))
    (fun i a v => ∃ j, j < nrhs ∧ ∃ k, k < c i ∧
      (a = prefixSum c i + (k + prefixSum c n * j) ∧ v = S i (k + l i * j)))
    (fun i hi => matCopy_writes (c i) nrhs (prefixSum c i) (prefixSum c n) (S i) (l i)
      (Nat.le_trans (Nat.le_add_left _ _) (prefixSum_block_le c hi)))
    (by
      rintro i i1 a v w hi hi1 ⟨j, _, k, hk, h1, h2⟩ ⟨j1, _, k1, hk1, h3, h4⟩
      have b1 := prefixSum_block_le c hi
      have b2 := prefixSum_block_le c hi1
      have e : (prefixSum c i + k) + prefixSum c n * j =
          (prefixSum c i1 + k1) + prefixSum c n * j1 := by omega
      obtain ⟨e1, e2⟩ := colMajor_inj (by omega) (by omega) e
      obtain ⟨e3, e4⟩ := prefixSum_unique c hk hk1 e1
      subst e2 e3 e4
      rw [h2, h4])
  exact (h D0 _).1 _ ⟨i, hi, j, hj, k, hk, rfl, rfl⟩

/-- The loop of lines 207-212 of `dScatterB3d`: block `i` becomes a packed
`c i × nrhs` matrix starting at `nrhs * prefixSum c i`. -/
theorem blockLoop_read {α : Type} (n nrhs : Nat) (c : Nat → Nat) (S : Nat → Nat → α)
    (l : Nat → Nat) (D0 : Nat → α) {i k j : Nat} (hi : i < n) (hk : k < c i) (hj : j < nrhs) :
    forLoop n (fun i D => matCopy (c i) nrhs D (nrhs * prefixSum c i) (c i) (S i) (l i)) D0
      (nrhs * prefixSum c i + (k + c i * j)) = S i (k + l i * j) := by
  have h := Writes_forLoop n
    (fun i D => matCopy (c i) nrhs D (nrhs * prefixSum c i) (c i) (S i) (l i))
    (fun i a v => ∃ j, j < nrhs ∧ ∃ k, k < c i ∧
      (a = nrhs * prefixSum c i + (k + c i * j) ∧ v = S i (k + l i * j)))
    (fun i _ => matCopy_writes (c i) nrhs (nrhs * prefixSum c i) (c i) (S i) (l i)
      (Nat.le_refl _))
    (by
      rintro i i1 a v w _ _ ⟨j, hj, k, hk, h1, h2⟩ ⟨j1, hj1, k1, hk1, h3, h4⟩
      have t1 : k + c i * j < nrhs * c i := by
        rw [Nat.mul_comm nrhs]
        exact colMajor_lt hk hj
      have t2 : k1 + c i1 * j1 < nrhs * c i1 := by
        rw [Nat.mul_comm nrhs]
        exact colMajor_lt hk1 hj1
      have e : prefixSum (fun i => nrhs * c i) i + (k + c i * j) =
          prefixSum (fun i => nrhs * c i) i1 + (k1 + c i1 * j1) := by
        rw [prefixSum_mul, prefixSum_mul, ← h1, ← h3]
      obtain ⟨e1, e2⟩ := prefixSum_unique (fun i => nrhs * c i) t1 t2 e
      subst e1
      obtain ⟨e3, e4⟩ := colMajor_inj hk hk1 e2
      subst e3 e4
      rw [h2, h4])
  exact (h D0 _).1 _ ⟨i, hi, j, hj, k, hk, rfl, rfl⟩

/-- The loop of lines 107-113 of `dGatherNRformat_loc`. -/
theorem fstRowLoop_spec (P iam : Nat) (cnt : Nat → Nat) (x0 : Nat) :
    (forLoop P (fun p (s : Nat × Nat) => (if iam = p then s.2 else s.1, s.2 + cnt p)) (x0, 0)).2 =
      prefixSum cnt P ∧
    (forLoop P (fun p (s : Nat × Nat) => (if iam = p then s.2 else s.1, s.2 + cnt p)) (x0, 0)).1 =
      if iam < P then prefixSum cnt iam else x0 := by
  induction P with
  | zero => exact ⟨rfl, rfl⟩
  | succ P ih =>
    obtain ⟨ih1, ih2⟩ := ih
    rw [forLoop_succ]
    constructor
    · show _ + cnt P = prefixSum cnt P + cnt P
      rw [ih1]
    · show (if iam = P then _ else _) = _
      by_cases h : iam = P
      · subst h
        rw [if_pos rfl, if_pos (Nat.lt_succ_self _), ih1]
      · rw [if_neg h, ih2]
        by_cases h2 : iam < P
        · rw [if_pos h2, if_pos (Nat.lt_succ_of_lt h2)]
        · have h3 : ¬ iam < P + 1 := by omega
          rw [if_neg h2, if_neg h3]

/-! ## The right-hand side through `dGatherNRformat_loc` and `dScatterB3d` -/

theorem scatterHead_eq {α : Type} (npdep nrhs : Nat) (X : Nat → Local3d α) (U : Uninit α) :
    scatterHead npdep nrhs X U = (gatherHead npdep nrhs X U).2 := rfl

theorem gatherB1_read {α : Type} (npdep nrhs : Nat) (X : Nat → Local3d α) (U : Uninit α)
    {i k j : Nat} (hi : i < npdep) (hk : k < rowCounts X i) (hj : j < nrhs) :
    gatherB1 npdep nrhs X U (nrhs * prefixSum (rowCounts X) i + (k + rowCounts X i * j)) =
      (X i).B (k + (X i).ldb * j) := by
  have hT := gatherHead_tables npdep nrhs X U
  have h := MPI_Gatherv_read npdep
    (fun i => matCopy (X i).A.m_loc nrhs (U.Btmp i) 0 (X i).A.m_loc (X i).B (X i).ldb)
    (fun i => nrhs * (X i).A.m_loc) U.B1 0
    (gatherHead npdep nrhs X U).2.b_counts_int (gatherHead npdep nrhs X U).2.b_disp
    (fun i => nrhs * rowCounts X i)
    (fun j hj => by rw [(hT.2 j hj).2.2]; exact Nat.min_self _)
    (fun j hj => by rw [(hT.1 j (Nat.le_of_lt hj)).2.2, prefixSum_mul])
    hi (t := k + rowCounts X i * j) (by
      show k + rowCounts X i * j < nrhs * rowCounts X i
      rw [Nat.mul_comm nrhs]
      exact colMajor_lt hk hj)
  rw [Nat.zero_add, prefixSum_mul] at h
  have h2 := matCopy_read (X i).A.m_loc nrhs (U.Btmp i) 0 (X i).A.m_loc (X i).B (X i).ldb
    (Nat.le_refl _) hk hj
  rw [Nat.zero_add] at h2
  exact h.trans h2

/-- Layout of the gathered right-hand side: row `k` of layer `i` is row
`row_disp[i] + k` of every column of `B2d`, whose leading dimension is the total row count. -/
theorem dGather_B2d_read {α : Type} (grid3d : gridinfo3d_t) (nrhs : Nat)
    (X : Nat → Nat → Local3d α) (U : Nat → Uninit α) (iam : Nat)
    {i k j : Nat} (hi : i < grid3d.npdep) (hk : k < rowCounts (X iam) i) (hj : j < nrhs) :
    (dGatherNRformat_loc grid3d nrhs X U iam).B2d
      (prefixSum (rowCounts (X iam)) i +
        (k + prefixSum (rowCounts (X iam)) grid3d.npdep * j)) =
      (X iam i).B (k + (X iam i).ldb * j) := by
  have hT := gatherHead_tables grid3d.npdep nrhs (X iam) (U iam)
  have hloop : (dGatherNRformat_loc grid3d nrhs X U iam).B2d =
      forLoop grid3d.npdep (fun i D =>
        matCopy (rowCounts (X iam) i) nrhs D (prefixSum (rowCounts (X iam)) i)
          (prefixSum (rowCounts (X iam)) grid3d.npdep)
          (fun t => gatherB1 grid3d.npdep nrhs (X iam) (U iam)
            (nrhs * prefixSum (rowCounts (X iam)) i + t))
          (rowCounts (X iam) i)) (U iam).B2d := by
    show forLoop grid3d.npdep (fun i D =>
        matCopy ((gatherHead grid3d.npdep nrhs (X iam) (U iam)).2.row_counts_int i) nrhs D
          ((gatherHead grid3d.npdep nrhs (X iam) (U iam)).2.row_disp i)
          (gatherHead grid3d.npdep nrhs (X iam) (U iam)).1.m_loc
          (fun t => gatherB1 grid3d.npdep nrhs (X iam) (U iam)
            (nrhs * (gatherHead grid3d.npdep nrhs (X iam) (U iam)).2.row_disp i + t))
          ((gatherHead grid3d.npdep nrhs (X iam) (U iam)).2.row_counts_int i)) (U iam).B2d = _
    apply forLoop_congr
    intro i hi D
    rw [(hT.2 i hi).2.1, (hT.1 i (Nat.le_of_lt hi)).2.1, gatherHead_m_loc]
  rw [hloop, colMajorLoop_read grid3d.npdep nrhs (rowCounts (X iam)) _ _ _ hi hk hj]
  exact gatherB1_read grid3d.npdep nrhs (X iam) (U iam) hi hk hj

/-- Layout after `dScatterB3d`: row `k` of layer `i` is read from row `row_disp[i] + k`
of every column of `B2d`, taken with leading dimension `A2d.m_loc`. -/
theorem dScatter_read {α : Type} (grid3d : gridinfo3d_t) (A2d : NRformat_loc α)
    (X : Nat → Local3d α) (nrhs : Nat) (B2d : Nat → α) (U : Uninit α)
    {i k j : Nat} (hi : i < grid3d.npdep) (hld : (X i).A.m_loc ≤ (X i).ldb)
    (hk : k < rowCounts X i) (hj : j < nrhs) :
    dScatterB3d grid3d A2d X nrhs B2d U i (k + (X i).ldb * j) =
      B2d (prefixSum (rowCounts X) i + (k + A2d.m_loc * j)) := by
  have hT := gatherHead_tables grid3d.npdep nrhs X U
  rw [← scatterHead_eq] at hT
  have hB1 : forLoop grid3d.npdep (fun i D =>
        matCopy ((scatterHead grid3d.npdep nrhs X U).row_counts_int i) nrhs D
          (nrhs * (scatterHead grid3d.npdep nrhs X U).row_disp i)
          ((scatterHead grid3d.npdep nrhs X U).row_counts_int i)
          (fun t => B2d ((scatterHead grid3d.npdep nrhs X U).row_disp i + t)) A2d.m_loc) U.B1 =
      forLoop grid3d.npdep (fun i D =>
        matCopy (rowCounts X i) nrhs D (nrhs * prefixSum (rowCounts X) i) (rowCounts X i)
          (fun t => B2d (prefixSum (rowCounts X) i + t)) A2d.m_loc) U.B1 := by
    apply forLoop_congr
    intro i hi D
    rw [(hT.2 i hi).2.1, (hT.1 i (Nat.le_of_lt hi)).2.1]
  have h1 := matCopy_read (X i).A.m_loc nrhs (X i).B 0 (X i).ldb
    (MPI_Scatterv
      (forLoop grid3d.npdep (fun i D =>
        matCopy ((scatterHead grid3d.npdep nrhs X U).row_counts_int i) nrhs D
          (nrhs * (scatterHead grid3d.npdep nrhs X U).row_disp i)
          ((scatterHead grid3d.npdep nrhs X U).row_counts_int i)
          (fun t => B2d ((scatterHead grid3d.npdep nrhs X U).row_disp i + t)) A2d.m_loc) U.B1)
      (scatterHead grid3d.npdep nrhs X U).b_counts_int
      (scatterHead grid3d.npdep nrhs X U).b_disp (U.Btmp i) (nrhs * (X i).A.m_loc) i)
    (X i).A.m_loc hld hk hj
  rw [Nat.zero_add] at h1
  have hlt : k + (X i).A.m_loc * j <
      min ((scatterHead grid3d.npdep nrhs X U).b_counts_int i) (nrhs * (X i).A.m_loc) := by
    rw [(hT.2 i hi).2.2]
    show _ < min (nrhs * (X i).A.m_loc) (nrhs * (X i).A.m_loc)
    rw [Nat.min_self, Nat.mul_comm nrhs]
    exact colMajor_lt hk hj
  have h2 := MPI_Scatterv_read
    (forLoop grid3d.npdep (fun i D =>
        matCopy ((scatterHead grid3d.npdep nrhs X U).row_counts_int i) nrhs D
          (nrhs * (scatterHead grid3d.npdep nrhs X U).row_disp i)
          ((scatterHead grid3d.npdep nrhs X U).row_counts_int i)
          (fun t => B2d ((scatterHead grid3d.npdep nrhs X U).row_disp i + t)) A2d.m_loc) U.B1)
    (scatterHead grid3d.npdep nrhs X U).b_counts_int
    (scatterHead grid3d.npdep nrhs X U).b_disp (U.Btmp i) (nrhs * (X i).A.m_loc) i hlt
  have h3 : forLoop grid3d.npdep (fun i D =>
        matCopy ((scatterHead grid3d.npdep nrhs X U).row_counts_int i) nrhs D
          (nrhs * (scatterHead grid3d.npdep nrhs X U).row_disp i)
          ((scatterHead grid3d.npdep nrhs X U).row_counts_int i)
          (fun t => B2d ((scatterHead grid3d.npdep nrhs X U).row_disp i + t)) A2d.m_loc) U.B1
        ((scatterHead grid3d.npdep nrhs X U).b_disp i + (k + (X i).A.m_loc * j)) =
      B2d (prefixSum (rowCounts X) i + (k + A2d.m_loc * j)) := by
    rw [(hT.1 i (Nat.le_of_lt hi)).2.2, hB1]
    exact blockLoop_read grid3d.npdep nrhs (rowCounts X)
      (fun i t => B2d (prefixSum (rowCounts X) i + t)) (fun _ => A2d.m_loc) U.B1 hi hk hj
  exact h1.trans (h2.trans h3)

/-! ## Claims on `dGatherNRformat_loc` and `dScatterB3d` -/

theorem prefixSum_eq_sum (c : Nat → Nat) (k : Nat) :
    prefixSum c k = ∑ i in Finset.range k, c i := by
  induction k with
  | zero => rfl
  | succ k ih => rw [Finset.sum_range_succ, ← ih]; rfl

theorem gatherFstRow_eq {α : Type} (grid3d : gridinfo3d_t) (nrhs : Nat)
    (X : Nat → Nat → Local3d α) (U : Nat → Uninit α) {p : Nat}
    (hp : p < grid3d.nprow * grid3d.npcol) :
    gatheredFst grid3d nrhs X U p = prefixSum (gatheredRows grid3d nrhs X U) p := by
  have h := (fstRowLoop_spec (grid3d.nprow * grid3d.npcol) p
    (MPI_Allgather (grid3d.nprow * grid3d.npcol) (gatheredRows grid3d nrhs X U)
      (U p).m_loc_2d_counts)
    (gatherHead grid3d.npdep nrhs (X p) (U p)).1.fst_row).2
  rw [if_pos hp] at h
  have e := prefixSum_congr
    (MPI_Allgather (grid3d.nprow * grid3d.npcol) (gatheredRows grid3d nrhs X U)
      (U p).m_loc_2d_counts) (gatheredRows grid3d nrhs X U) p
    (fun i hi => MPI_Allgather_read _ _ _ (Nat.lt_trans hi hp))
  rw [e] at h
  exact h

theorem gatheredRows_eq {α : Type} (grid3d : gridinfo3d_t) (nrhs : Nat)
    (X : Nat → Nat → Local3d α) (U : Nat → Uninit α) (q : Nat) :
    gatheredRows grid3d nrhs X U q = prefixSum (rowCounts (X q)) grid3d.npdep :=
  gatherHead_m_loc grid3d.npdep nrhs (X q) (U q)

/-- C1. Round trip of the right-hand side: `dGatherNRformat_loc` followed by `dScatterB3d`
on the unmodified `A2d` and `B2d`, called with the same matrices and strides (`Y`
differs from the depth column `X iam` at most in the contents of the arrays `B`
that receive the result), leaves in `B[k + j*ldb]` of layer `i` the original
`B[k + j*ldb]`, for every row `k < m_loc` and column `j < nrhs`, provided
`ldb ≥ m_loc` on that layer. -/
theorem C1_gather_scatter_roundtrip {α : Type} (grid3d : gridinfo3d_t) (nrhs : Nat)
    (X : Nat → Nat → Local3d α) (U : Nat → Uninit α) (iam : Nat)
    (Y : Nat → Local3d α) (V : Uninit α)
    (hY : ∀ i, i < grid3d.npdep → (Y i).A = (X iam i).A ∧ (Y i).ldb = (X iam i).ldb)
    (i k j : Nat) (hi : i < grid3d.npdep) (hld : (X iam i).A.m_loc ≤ (X iam i).ldb)
    (hk : k < (X iam i).A.m_loc) (hj : j < nrhs) :
    dScatterB3d grid3d (dGatherNRformat_loc grid3d nrhs X U iam).A2d Y nrhs
        (dGatherNRformat_loc grid3d nrhs X U iam).B2d V i (k + j * (X iam i).ldb) =
      (X iam i).B (k + j * (X iam i).ldb) := by
  have hrc : ∀ l, l < grid3d.npdep → rowCounts Y l = rowCounts (X iam) l := fun l hl => by
    show (Y l).A.m_loc = (X iam l).A.m_loc
    rw [(hY l hl).1]
  have hk' : k < rowCounts Y i := by rw [hrc i hi]; exact hk
  have hld' : (Y i).A.m_loc ≤ (Y i).ldb := by rw [(hY i hi).1, (hY i hi).2]; exact hld
  have h1 := dScatter_read grid3d (dGatherNRformat_loc grid3d nrhs X U iam).A2d Y nrhs
    (dGatherNRformat_loc grid3d nrhs X U iam).B2d V hi hld' hk' hj
  rw [(hY i hi).2] at h1
  rw [Nat.mul_comm j, h1,
    prefixSum_congr (rowCounts Y) (rowCounts (X iam)) i (fun l hl => hrc l (Nat.lt_trans hl hi))]
  have hm : (dGatherNRformat_loc grid3d nrhs X U iam).A2d.m_loc =
      prefixSum (rowCounts (X iam)) grid3d.npdep := gatherHead_m_loc _ _ _ _
  rw [hm]
  exact dGather_B2d_read grid3d nrhs X U iam hi hk hj

/-- C1 at the example of the specification: entry (row 2, column 1) of layer 1. -/
theorem C1_gather_scatter_roundtrip_witness :
    dScatterB3d exGrid (dGatherNRformat_loc exGrid 2 exX exU 0).A2d (exX 0) 2
        (dGatherNRformat_loc exGrid 2 exX exU 0).B2d (exU 0) 1 (2 + 1 * (exX 0 1).ldb) =
      (exX 0 1).B (2 + 1 * (exX 0 1).ldb) :=
  C1_gather_scatter_roundtrip exGrid 2 exX exU 0 (exX 0) (exU 0) (fun _ _ => ⟨rfl, rfl⟩)
    1 2 1 (by decide) (by decide) (by decide) (by decide)

/-- C2. The gathered matrix holds every layer's rows unchanged and in layer order.  For
well-formed layers and every layer `i`: the displacements are the sums of the
counts of the layers before `i`; `A2d.rowptr[row_disp[i]+k+1] = nnz_disp[i] +
A_i.rowptr[k+1]` for `k < m_loc_i`; `A2d.colind` and `A2d.nzval` at
`nnz_disp[i]+t` are those of layer `i` at `t < nnz_loc_i`; and row
`row_disp[i]+k` of `A2d`, read through `A2d.rowptr`, is the same list of (column
index, value) pairs as row `k` of layer `i`. Layers without rows are allowed. -/
theorem C2_gathered_rows {α : Type} (grid3d : gridinfo3d_t) (nrhs : Nat)
    (X : Nat → Nat → Local3d α) (U : Nat → Uninit α) (iam : Nat)
    (hwf : ∀ i, i < grid3d.npdep → WellFormed (X iam i).A)
    (i : Nat) (hi : i < grid3d.npdep) :
    ((gatherHead grid3d.npdep nrhs (X iam) (U iam)).2.row_disp i =
        ∑ l in Finset.range i, (X iam l).A.m_loc ∧
      (gatherHead grid3d.npdep nrhs (X iam) (U iam)).2.nnz_disp i =
        ∑ l in Finset.range i, (X iam l).A.nnz_loc) ∧
    (∀ k, k < (X iam i).A.m_loc →
      (dGatherNRformat_loc grid3d nrhs X U iam).A2d.rowptr
          ((gatherHead grid3d.npdep nrhs (X iam) (U iam)).2.row_disp i + k + 1) =
        (gatherHead grid3d.npdep nrhs (X iam) (U iam)).2.nnz_disp i +
          (X iam i).A.rowptr (k + 1)) ∧
    (∀ t, t < (X iam i).A.nnz_loc →
      (dGatherNRformat_loc grid3d nrhs X U iam).A2d.colind
          ((gatherHead grid3d.npdep nrhs (X iam) (U iam)).2.nnz_disp i + t) =
        (X iam i).A.colind t ∧
      (dGatherNRformat_loc grid3d nrhs X U iam).A2d.nzval
          ((gatherHead grid3d.npdep nrhs (X iam) (U iam)).2.nnz_disp i + t) =
        (X iam i).A.nzval t) ∧
    (∀ k, k < (X iam i).A.m_loc →
      rowEntries (dGatherNRformat_loc grid3d nrhs X U iam).A2d
          ((gatherHead grid3d.npdep nrhs (X iam) (U iam)).2.row_disp i + k) =
        rowEntries (X iam i).A k) := by
  obtain ⟨hdn, hdr, _⟩ := (gatherHead_tables grid3d.npdep nrhs (X iam) (U iam)).1 i
    (Nat.le_of_lt hi)
  rw [hdn, hdr]
  refine ⟨⟨prefixSum_eq_sum _ _, prefixSum_eq_sum _ _⟩, ?_, ?_, ?_⟩
  · intro k hk
    exact (gatherHead_rowptr grid3d.npdep nrhs (X iam) (U iam)).2 i hi k hk
  · intro t ht
    exact ⟨gatherHead_colind grid3d.npdep nrhs (X iam) (U iam) hi ht,
      gatherHead_nzval grid3d.npdep nrhs (X iam) (U iam) hi ht⟩
  · intro k hk
    have hw := hwf i hi
    have r0 : (dGatherNRformat_loc grid3d nrhs X U iam).A2d.rowptr
        (prefixSum (rowCounts (X iam)) i + k) =
        prefixSum (nnzCounts (X iam)) i + (X iam i).A.rowptr k :=
      gatherHead_rowptr_wf grid3d.npdep nrhs (X iam) (U iam) hwf hi (Nat.le_of_lt hk)
    have r1 : (dGatherNRformat_loc grid3d nrhs X U iam).A2d.rowptr
        (prefixSum (rowCounts (X iam)) i + k + 1) =
        prefixSum (nnzCounts (X iam)) i + (X iam i).A.rowptr (k + 1) :=
      gatherHead_rowptr_wf grid3d.npdep nrhs (X iam) (U iam) hwf hi (Nat.succ_le_of_lt hk)
    have hle : (X iam i).A.rowptr (k + 1) ≤ (X iam i).A.nnz_loc := by
      rw [← hw.2.1]
      exact wellFormed_mono _ hw (Nat.succ_le_of_lt hk) (Nat.le_refl _)
    have hmono : (X iam i).A.rowptr k ≤ (X iam i).A.rowptr (k + 1) := hw.2.2 k hk
    unfold rowEntries
    rw [r0, r1, Nat.add_sub_add_left]
    apply List.ext_getElem
    · simp
    · intro n h1 h2
      simp only [List.length_map, List.length_range'] at h1
      simp only [List.getElem_map, List.getElem_range', Nat.one_mul]
      have hlt : (X iam i).A.rowptr k + n < nnzCounts (X iam) i := by
        show _ < (X iam i).A.nnz_loc
        omega
      rw [Nat.add_assoc]
      exact congrArg₂ Prod.mk (gatherHead_colind grid3d.npdep nrhs (X iam) (U iam) hi hlt)
        (gatherHead_nzval grid3d.npdep nrhs (X iam) (U iam) hi hlt)

/-- C2 at the example of the specification: the last row of layer 1. -/
theorem C2_gathered_rows_witness :
    rowEntries (dGatherNRformat_loc exGrid 2 exX exU 0).A2d
        ((gatherHead exGrid.npdep 2 (exX 0) (exU 0)).2.row_disp 1 + 2) =
      rowEntries (exX 0 1).A 2 :=
  (C2_gathered_rows exGrid 2 exX exU 0 (by decide) 1 (by decide)).2.2.2 2 (by decide)

/-- C3. Row-partition invariant after gathering.  On a 2-D grid of `P = nprow*npcol`
processes, `dGatherNRformat_loc` sets `A2d.fst_row` on 2-D rank `p` to the sum of the
gathered row counts `A2d.m_loc` of the ranks before `p`; the ranges
`[fst_row, fst_row + m_loc)` follow each other in rank order, stay below `nrow`, the
sum of `m_loc` over all processes of the 3-D grid, and every row below `nrow` lies
in exactly one of them. -/
theorem C3_row_partition {α : Type} (grid3d : gridinfo3d_t) (nrhs : Nat)
    (X : Nat → Nat → Local3d α) (U : Nat → Uninit α) :
    (∀ p, p < grid3d.nprow * grid3d.npcol →
      (dGatherNRformat_loc grid3d nrhs X U p).A2d.fst_row =
        ∑ q in Finset.range p, (dGatherNRformat_loc grid3d nrhs X U q).A2d.m_loc) ∧
    (∀ p q, p < q → q < grid3d.nprow * grid3d.npcol →
      (dGatherNRformat_loc grid3d nrhs X U p).A2d.fst_row +
          (dGatherNRformat_loc grid3d nrhs X U p).A2d.m_loc ≤
        (dGatherNRformat_loc grid3d nrhs X U q).A2d.fst_row) ∧
    (∀ p, p < grid3d.nprow * grid3d.npcol →
      (dGatherNRformat_loc grid3d nrhs X U p).A2d.fst_row +
          (dGatherNRformat_loc grid3d nrhs X U p).A2d.m_loc ≤
        ∑ q in Finset.range (grid3d.nprow * grid3d.npcol),
          ∑ i in Finset.range grid3d.npdep, (X q i).A.m_loc) ∧
    (∀ g, g < ∑ q in Finset.range (grid3d.nprow * grid3d.npcol),
          ∑ i in Finset.range grid3d.npdep, (X q i).A.m_loc →
      ∃! p, p < grid3d.nprow * grid3d.npcol ∧
        (dGatherNRformat_loc grid3d nrhs X U p).A2d.fst_row ≤ g ∧
        g < (dGatherNRformat_loc grid3d nrhs X U p).A2d.fst_row +
          (dGatherNRformat_loc grid3d nrhs X U p).A2d.m_loc) := by
  have hfst : ∀ p, p < grid3d.nprow * grid3d.npcol →
      (dGatherNRformat_loc grid3d nrhs X U p).A2d.fst_row =
        prefixSum (gatheredRows grid3d nrhs X U) p := fun p hp =>
    gatherFstRow_eq grid3d nrhs X U hp
  have hM : ∀ p, (dGatherNRformat_loc grid3d nrhs X U p).A2d.m_loc =
      gatheredRows grid3d nrhs X U p := fun _ => rfl
  have hnrow : (∑ q in Finset.range (grid3d.nprow * grid3d.npcol),
      ∑ i in Finset.range grid3d.npdep, (X q i).A.m_loc) =
      prefixSum (gatheredRows grid3d nrhs X U) (grid3d.nprow * grid3d.npcol) := by
    rw [prefixSum_eq_sum]
    apply Finset.sum_congr rfl
    intro q _
    rw [gatheredRows_eq, prefixSum_eq_sum]
    rfl
  rw [hnrow]
  refine ⟨?_, ?_, ?_, ?_⟩
  · intro p hp
    rw [hfst p hp, prefixSum_eq_sum]
    rfl
  · intro p q hpq hq
    rw [hfst p (Nat.lt_trans hpq hq), hfst q hq, hM]
    exact prefixSum_block_le _ hpq
  · intro p hp
    rw [hfst p hp, hM]
    exact prefixSum_block_le _ hp
  · intro g hg
    obtain ⟨p, hp, k, hk, hgk⟩ := prefixSum_find _ _ g hg
    refine ⟨p, ⟨hp, ?_, ?_⟩, ?_⟩
    · rw [hfst p hp, hgk]
      exact Nat.le_add_right _ _
    · rw [hfst p hp, hM, hgk]
      exact Nat.add_lt_add_left hk _
    · rintro q ⟨hq, h1, h2⟩
      rw [hfst q hq] at h1 h2
      rw [hM] at h2
      have hk2 : g - prefixSum (gatheredRows grid3d nrhs X U) q <
          gatheredRows grid3d nrhs X U q := by omega
      have e : prefixSum (gatheredRows grid3d nrhs X U) q +
          (g - prefixSum (gatheredRows grid3d nrhs X U) q) =
          prefixSum (gatheredRows grid3d nrhs X U) p + k := by omega
      exact (prefixSum_unique _ hk2 hk e).1

/-- C3 on a 2 × 1 grid of depth 2: the second 2-D rank starts after the rows of the first. -/
theorem C3_row_partition_witness :
    (dGatherNRformat_loc exGrid2 2 exX exU 1).A2d.fst_row =
      ∑ q in Finset.range 1, (dGatherNRformat_loc exGrid2 2 exX exU q).A2d.m_loc :=
  (C3_row_partition exGrid2 2 exX exU).1 1 (by decide)

/-- C5. Layout of the gathered right-hand side: `B2d` is column-major with leading
dimension `M = A2d.m_loc`, and `B2d[row_disp[i] + k + j*M] = B_i[k + j*ldb_i]` for
every layer `i`, row `k < m_loc_i` and column `j < nrhs`; `row_disp[i]` is the sum of
the row counts of the layers before `i`, so layer `i` fills rows
`row_disp[i] .. row_disp[i+1] - 1` of every column. -/
theorem C5_gathered_rhs_layout {α : Type} (grid3d : gridinfo3d_t) (nrhs : Nat)
    (X : Nat → Nat → Local3d α) (U : Nat → Uninit α) (iam : Nat)
    (i k j : Nat) (hi : i < grid3d.npdep) (hk : k < (X iam i).A.m_loc) (hj : j < nrhs) :
    (dGatherNRformat_loc grid3d nrhs X U iam).B2d
        ((gatherHead grid3d.npdep nrhs (X iam) (U iam)).2.row_disp i + k +
          j * (dGatherNRformat_loc grid3d nrhs X U iam).A2d.m_loc) =
      (X iam i).B (k + j * (X iam i).ldb) ∧
    (gatherHead grid3d.npdep nrhs (X iam) (U iam)).2.row_disp i =
      ∑ l in Finset.range i, (X iam l).A.m_loc ∧
    (gatherHead grid3d.npdep nrhs (X iam) (U iam)).2.row_disp (i + 1) =
      (gatherHead grid3d.npdep nrhs (X iam) (U iam)).2.row_disp i + (X iam i).A.m_loc := by
  have hT := (gatherHead_tables grid3d.npdep nrhs (X iam) (U iam)).1
  have hm : (dGatherNRformat_loc grid3d nrhs X U iam).A2d.m_loc =
      prefixSum (rowCounts (X iam)) grid3d.npdep := gatherHead_m_loc _ _ _ _
  rw [(hT i (Nat.le_of_lt hi)).2.1, (hT (i + 1) (Nat.succ_le_of_lt hi)).2.1, hm]
  refine ⟨?_, prefixSum_eq_sum _ _, rfl⟩
  rw [Nat.mul_comm j, Nat.mul_comm j, Nat.add_assoc]
  exact dGather_B2d_read grid3d nrhs X U iam hi hk hj

/-- C5 at the example of the specification (layers of 2 and 3 rows, `nrhs = 2`): row 2 of
layer 1 in column 1. -/
theorem C5_gathered_rhs_layout_witness :
    (dGatherNRformat_loc exGrid 2 exX exU 0).B2d
        ((gatherHead exGrid.npdep 2 (exX 0) (exU 0)).2.row_disp 1 + 2 +
          1 * (dGatherNRformat_loc exGrid 2 exX exU 0).A2d.m_loc) =
      (exX 0 1).B (2 + 1 * (exX 0 1).ldb) :=
  (C5_gathered_rhs_layout exGrid 2 exX exU 0 1 2 1 (by decide) (by decide) (by decide)).1

/-- C6. `dScatterB3d` inverts the gather layout for any contents of `B2d`: after the call
`B[k + j*ldb_i] = B2d[row_disp[i] + k + j*A2d.m_loc]` on layer `i`, for `k < m_loc_i`
and `j < nrhs`, where `row_disp[i]` is the sum of the row counts of the layers
before `i`; and when `A2d.m_loc` is the sum of all row counts and every stride is
at least the row count, gathering the scattered blocks again gives back every
entry `B2d[r + j*A2d.m_loc]`, `r < A2d.m_loc`, `j < nrhs`. -/
theorem C6_scatter_inverts_layout {α : Type} (grid3d : gridinfo3d_t) (A2d : NRformat_loc α)
    (X : Nat → Local3d α) (nrhs : Nat) (B2d : Nat → α) (U : Uninit α)
    (hld : ∀ i, i < grid3d.npdep → (X i).A.m_loc ≤ (X i).ldb) :
    (∀ i k j, i < grid3d.npdep → k < (X i).A.m_loc → j < nrhs →
      dScatterB3d grid3d A2d X nrhs B2d U i (k + j * (X i).ldb) =
        B2d ((scatterHead grid3d.npdep nrhs X U).row_disp i + k + j * A2d.m_loc) ∧
      (scatterHead grid3d.npdep nrhs X U).row_disp i =
        ∑ l in Finset.range i, (X l).A.m_loc) ∧
    (A2d.m_loc = ∑ l in Finset.range grid3d.npdep, (X l).A.m_loc →
      ∀ (V : Nat → Uninit α) (iam r j : Nat), r < A2d.m_loc → j < nrhs →
        (dGatherNRformat_loc grid3d nrhs
            (fun _ => scattered grid3d A2d X nrhs B2d U) V iam).B2d (r + j * A2d.m_loc) =
          B2d (r + j * A2d.m_loc)) := by
  have hT := (gatherHead_tables grid3d.npdep nrhs X U).1
  have key : ∀ i k j, i < grid3d.npdep → k < (X i).A.m_loc → j < nrhs →
      dScatterB3d grid3d A2d X nrhs B2d U i (k + (X i).ldb * j) =
        B2d (prefixSum (rowCounts X) i + (k + A2d.m_loc * j)) := fun i k j hi hk hj =>
    dScatter_read grid3d A2d X nrhs B2d U hi (hld i hi) hk hj
  constructor
  · intro i k j hi hk hj
    rw [scatterHead_eq, (hT i (Nat.le_of_lt hi)).2.1, Nat.mul_comm j, Nat.mul_comm j,
      Nat.add_assoc]
    exact ⟨key i k j hi hk hj, prefixSum_eq_sum _ _⟩
  · intro hM V iam r j hr hj
    have hM' : A2d.m_loc = prefixSum (rowCounts X) grid3d.npdep := by
      rw [hM, prefixSum_eq_sum]
      rfl
    rw [hM'] at hr
    obtain ⟨i, hi, k, hk, hrk⟩ := prefixSum_find _ _ r hr
    have h := dGather_B2d_read grid3d nrhs (fun _ => scattered grid3d A2d X nrhs B2d U) V iam
      hi (k := k) hk hj
    have e : rowCounts (scattered grid3d A2d X nrhs B2d U) = rowCounts X := rfl
    rw [e] at h
    rw [hrk, Nat.mul_comm j, Nat.add_assoc]
    conv_lhs => rw [hM']
    rw [h]
    exact key i k j hi hk hj

/-- C6 at the example: scattering the gathered `B2d` of the example, then reading layer
1, row 0, column 1. -/
theorem C6_scatter_inverts_layout_witness :
    dScatterB3d exGrid (dGatherNRformat_loc exGrid 2 exX exU 0).A2d (exX 0) 2
        (dGatherNRformat_loc exGrid 2 exX exU 0).B2d (exU 0) 1 (0 + 1 * (exX 0 1).ldb) =
      (dGatherNRformat_loc exGrid 2 exX exU 0).B2d
        ((scatterHead exGrid.npdep 2 (exX 0) (exU 0)).row_disp 1 + 0 +
          1 * (dGatherNRformat_loc exGrid 2 exX exU 0).A2d.m_loc) :=
  ((C6_scatter_inverts_layout exGrid (dGatherNRformat_loc exGrid 2 exX exU 0).A2d (exX 0) 2
    (dGatherNRformat_loc exGrid 2 exX exU 0).B2d (exU 0) (by decide)).1
      1 0 1 (by decide) (by decide) (by decide)).1

/-- C7. The gathered matrix is well formed when every layer is: `A2d.rowptr` is
allocated with `A2d.m_loc + 1` entries, `A2d.rowptr[0] = 0`,
`A2d.rowptr[A2d.m_loc] = A2d.nnz_loc`, and `A2d.rowptr` is non-decreasing on
`0 .. A2d.m_loc`, for every depth and also when layers own no rows. -/
theorem C7_gathered_wellformed {α : Type} (grid3d : gridinfo3d_t) (nrhs : Nat)
    (X : Nat → Nat → Local3d α) (U : Nat → Uninit α) (iam : Nat)
    (hwf : ∀ i, i < grid3d.npdep → WellFormed (X iam i).A) :
    (gatherAllocLens grid3d.npdep nrhs (X iam) (U iam)).2.2 =
      (dGatherNRformat_loc grid3d nrhs X U iam).A2d.m_loc + 1 ∧
    WellFormed (dGatherNRformat_loc grid3d nrhs X U iam).A2d ∧
    ∀ a b, a ≤ b → b ≤ (dGatherNRformat_loc grid3d nrhs X U iam).A2d.m_loc →
      (dGatherNRformat_loc grid3d nrhs X U iam).A2d.rowptr a ≤
        (dGatherNRformat_loc grid3d nrhs X U iam).A2d.rowptr b := by
  have hm : (dGatherNRformat_loc grid3d nrhs X U iam).A2d.m_loc =
      prefixSum (rowCounts (X iam)) grid3d.npdep := gatherHead_m_loc _ _ _ _
  have hn : (dGatherNRformat_loc grid3d nrhs X U iam).A2d.nnz_loc =
      prefixSum (nnzCounts (X iam)) grid3d.npdep := gatherHead_nnz_loc _ _ _ _
  have hwf2 : WellFormed (dGatherNRformat_loc grid3d nrhs X U iam).A2d := by
    refine ⟨(gatherHead_rowptr grid3d.npdep nrhs (X iam) (U iam)).1, ?_, ?_⟩
    · rw [hm, hn]
      exact gatherHead_rowptr_boundary grid3d.npdep nrhs (X iam) (U iam) hwf _ (Nat.le_refl _)
    · intro r hr
      rw [hm] at hr
      obtain ⟨i, hi, k, hk, hrk⟩ := prefixSum_find _ _ r hr
      have r0 : (dGatherNRformat_loc grid3d nrhs X U iam).A2d.rowptr
          (prefixSum (rowCounts (X iam)) i + k) = _ :=
        gatherHead_rowptr_wf grid3d.npdep nrhs (X iam) (U iam) hwf hi (Nat.le_of_lt hk)
      have r1 : (dGatherNRformat_loc grid3d nrhs X U iam).A2d.rowptr
          (prefixSum (rowCounts (X iam)) i + (k + 1)) = _ :=
        gatherHead_rowptr_wf grid3d.npdep nrhs (X iam) (U iam) hwf hi (Nat.succ_le_of_lt hk)
      rw [hrk, r0, Nat.add_assoc, r1]
      exact Nat.add_le_add_left ((hwf i hi).2.2 k hk) _
  exact ⟨rfl, hwf2, fun a b hab hb => wellFormed_mono _ hwf2 hab hb⟩

/-- C7 at the example of the specification: the gathered matrix is well formed. -/
theorem C7_gathered_wellformed_witness :
    WellFormed (dGatherNRformat_loc exGrid 2 exX exU 0).A2d :=
  (C7_gathered_wellformed exGrid 2 exX exU 0 (by decide)).2.1

/-- C8. Conservation of sizes: after `dGatherNRformat_loc` the coordinating layer has
`A2d.nnz_loc` equal to the sum of `nnz_loc` over the depth layers and `A2d.m_loc`
equal to the sum of `m_loc` over the depth layers; in the example of the
specification (2 rows/3 non-zeros and 3 rows/5 non-zeros) `A2d.m_loc = 5`,
`A2d.nnz_loc = 8` and `rowptr[5] = 8`. -/
theorem C8_conservation {α : Type} (grid3d : gridinfo3d_t) (nrhs : Nat)
    (X : Nat → Nat → Local3d α) (U : Nat → Uninit α) (iam : Nat) :
    ((dGatherNRformat_loc grid3d nrhs X U iam).A2d.nnz_loc =
        ∑ i in Finset.range grid3d.npdep, (X iam i).A.nnz_loc ∧
      (dGatherNRformat_loc grid3d nrhs X U iam).A2d.m_loc =
        ∑ i in Finset.range grid3d.npdep, (X iam i).A.m_loc) ∧
    ((dGatherNRformat_loc exGrid 2 exX exU 0).A2d.m_loc = 5 ∧
      (dGatherNRformat_loc exGrid 2 exX exU 0).A2d.nnz_loc = 8 ∧
      (dGatherNRformat_loc exGrid 2 exX exU 0).A2d.rowptr 5 = 8) := by
  refine ⟨⟨?_, ?_⟩, by decide⟩
  · exact (gatherHead_nnz_loc _ _ _ _).trans (prefixSum_eq_sum _ _)
  · exact (gatherHead_m_loc _ _ _ _).trans (prefixSum_eq_sum _ _)

/-! ## The row pass of `psgsequb` -/

theorem zeroLoop_read (n : Nat) (r : Nat → ℚ) (k : Nat) :
    forLoop n (fun i r => write r i 0) r k = if k < n then 0 else r k := by
  induction n with
  | zero => simp
  | succ n ih =>
    rw [forLoop_succ]
    by_cases hk : k = n
    · subst hk
      simp
    · rw [write_ne _ _ _ _ hk, ih]
      by_cases h1 : k < n
      · rw [if_pos h1, if_pos (Nat.lt_succ_of_lt h1)]
      · have h2 : ¬ k < n + 1 := by omega
        rw [if_neg h1, if_neg h2]

theorem maxInner_read (lo hi irow : Nat) (f : Nat → ℚ) (r0 : Nat → ℚ) (k : Nat) :
    forRange lo hi (fun j r => write r irow (max (r irow) (f j))) r0 k =
      if k = irow then forRange lo hi (fun j v => max v (f j)) (r0 irow) else r0 k := by
  unfold forRange
  induction (hi - lo) generalizing k with
  | zero =>
    by_cases h : k = irow
    · subst h
      simp
    · simp [h]
  | succ c ih =>
    rw [forLoop_succ, forLoop_succ]
    beta_reduce
    by_cases h : k = irow
    · subst h
      rw [write_same, if_pos rfl, ih k, if_pos rfl]
    · rw [write_ne _ _ _ _ h, ih k, if_neg h, if_neg h]

theorem foldMax_ge_init (c : Nat) (g : Nat → ℚ) (v0 : ℚ) :
    v0 ≤ forLoop c (fun t v => max v (g t)) v0 := by
  induction c with
  | zero => exact le_refl _
  | succ c ih =>
    rw [forLoop_succ]
    exact le_trans ih (le_max_left _ _)

theorem foldMax_ge (c : Nat) (g : Nat → ℚ) (v0 : ℚ) {t : Nat} (ht : t < c) :
    g t ≤ forLoop c (fun t v => max v (g t)) v0 := by
  induction c with
  | zero => exact absurd ht (Nat.not_lt_zero t)
  | succ c ih =>
    rw [forLoop_succ]
    rcases Nat.lt_succ_iff_lt_or_eq.mp ht with h | h
    · exact le_trans (ih h) (le_max_left _ _)
    · subst h
      exact le_max_right _ _

theorem foldMax_attain (c : Nat) (g : Nat → ℚ) (v0 : ℚ) :
    forLoop c (fun t v => max v (g t)) v0 = v0 ∨
      ∃ t, t < c ∧ forLoop c (fun t v => max v (g t)) v0 = g t := by
  induction c with
  | zero => exact Or.inl rfl
  | succ c ih =>
    rw [forLoop_succ]
    rcases max_choice (forLoop c (fun t v => max v (g t)) v0) (g c) with h | h
    · rw [h]
      rcases ih with h1 | ⟨t, ht, h1⟩
      · exact Or.inl h1
      · exact Or.inr ⟨t, Nat.lt_succ_of_lt ht, h1⟩
    · exact Or.inr ⟨c, Nat.lt_succ_self c, h⟩

theorem rowMaxFrom_ge_init (A : NRformat_loc ℚ) (i : Nat) (v0 : ℚ) : v0 ≤ rowMaxFrom A i v0 :=
  foldMax_ge_init _ _ v0

theorem rowMax_nonneg (A : NRformat_loc ℚ) (i : Nat) : 0 ≤ rowMax A i :=
  rowMaxFrom_ge_init A i 0

theorem rowMax_ge (A : NRformat_loc ℚ) (i : Nat) {j : Nat} (h1 : A.rowptr i ≤ j)
    (h2 : j < A.rowptr (i + 1)) : |A.nzval j| ≤ rowMax A i := by
  have h := foldMax_ge (A.rowptr (i + 1) - A.rowptr i) (fun t => |A.nzval (A.rowptr i + t)|) 0
    (t := j - A.rowptr i) (by omega)
  have e : A.rowptr i + (j - A.rowptr i) = j := by omega
  simp only [e] at h
  exact h

theorem rowMax_attain (A : NRformat_loc ℚ) (i : Nat) :
    rowMax A i = 0 ∨
      ∃ j, A.rowptr i ≤ j ∧ j < A.rowptr (i + 1) ∧ rowMax A i = |A.nzval j| := by
  rcases foldMax_attain (A.rowptr (i + 1) - A.rowptr i)
    (fun t => |A.nzval (A.rowptr i + t)|) 0 with h | ⟨t, ht, h⟩
  · exact Or.inl h
  · exact Or.inr ⟨A.rowptr i + t, Nat.le_add_right _ _, by omega, h⟩

/-- A value that bounds the absolute entries of row `i` and is attained by one of them is
the running maximum of the row. -/
theorem rowMax_eq_of_largest (A : NRformat_loc ℚ) (i : Nat) (v : ℚ)
    (hle : ∀ j, A.rowptr i ≤ j → j < A.rowptr (i + 1) → |A.nzval j| ≤ v)
    (hat : ∃ j, A.rowptr i ≤ j ∧ j < A.rowptr (i + 1) ∧ |A.nzval j| = v) :
    rowMax A i = v := by
  obtain ⟨j, h1, h2, h3⟩ := hat
  have hge : v ≤ rowMax A i := h3 ▸ rowMax_ge A i h1 h2
  have hv : 0 ≤ v := h3 ▸ abs_nonneg _
  rcases rowMax_attain A i with h | ⟨j1, g1, g2, g3⟩
  · rw [h] at hge ⊢
    exact le_antisymm hv hge
  · exact le_antisymm (g3 ▸ hle j1 g1 g2) hge

theorem rowMax_eq_zero (A : NRformat_loc ℚ) (i : Nat)
    (hz : ∀ j, A.rowptr i ≤ j → j < A.rowptr (i + 1) → A.nzval j = 0) : rowMax A i = 0 := by
  rcases rowMax_attain A i with h | ⟨j, g1, g2, g3⟩
  · exact h
  · rw [g3, hz j g1 g2, abs_zero]

/-- The loop of lines 141-150 after `n` rows: `irow` has advanced by `n`, the entries of the
rows passed hold the power of the radix computed from their running maximum (or that
maximum when it is not positive), and every other entry is untouched. -/
theorem rowLoop_spec (radix : Nat) (A : NRformat_loc ℚ) (r0 : Nat → ℚ)
    (F : Nat → (Nat → ℚ) × Nat → (Nat → ℚ) × Nat)
    (hF : ∀ i s, F i s =
      (if forRange (A.rowptr i) (A.rowptr (i + 1))
            (fun j r => write r s.2 (max (r s.2) |A.nzval j|)) s.1 s.2 > 0 then
          write (forRange (A.rowptr i) (A.rowptr (i + 1))
            (fun j r => write r s.2 (max (r s.2) |A.nzval j|)) s.1) s.2
            (powerOfRadix radix (forRange (A.rowptr i) (A.rowptr (i + 1))
              (fun j r => write r s.2 (max (r s.2) |A.nzval j|)) s.1 s.2))
        else forRange (A.rowptr i) (A.rowptr (i + 1))
            (fun j r => write r s.2 (max (r s.2) |A.nzval j|)) s.1, s.2 + 1))
    (n : Nat) :
    (forLoop n F (r0, A.fst_row)).2 = A.fst_row + n ∧
    ∀ k, (forLoop n F (r0, A.fst_row)).1 k =
      if A.fst_row ≤ k ∧ k < A.fst_row + n then
        (if rowMaxFrom A (k - A.fst_row) (r0 k) > 0 then
          powerOfRadix radix (rowMaxFrom A (k - A.fst_row) (r0 k))
        else rowMaxFrom A (k - A.fst_row) (r0 k))
      else r0 k := by
  induction n with
  | zero =>
    refine ⟨rfl, fun k => ?_⟩
    have : ¬ (A.fst_row ≤ k ∧ k < A.fst_row + 0) := by omega
    rw [if_neg this]
    rfl
  | succ n ih =>
    obtain ⟨ih1, ih2⟩ := ih
    rw [forLoop_succ, hF]
    refine ⟨by rw [ih1]; rfl, fun k => ?_⟩
    simp only [ih1, maxInner_read, if_true]
    have hcur : (forLoop n F (r0, A.fst_row)).1 (A.fst_row + n) = r0 (A.fst_row + n) := by
      rw [ih2]
      have : ¬ (A.fst_row ≤ A.fst_row + n ∧ A.fst_row + n < A.fst_row + n) := by omega
      rw [if_neg this]
    rw [hcur]
    have hrm : forRange (A.rowptr n) (A.rowptr (n + 1)) (fun j v => max v |A.nzval j|)
        (r0 (A.fst_row + n)) = rowMaxFrom A n (r0 (A.fst_row + n)) := rfl
    rw [hrm]
    by_cases hk : k = A.fst_row + n
    · subst hk
      have h1 : A.fst_row ≤ A.fst_row + n ∧ A.fst_row + n < A.fst_row + (n + 1) := by omega
      rw [if_pos h1, Nat.add_sub_cancel_left]
      by_cases hpos : rowMaxFrom A n (r0 (A.fst_row + n)) > 0
      · rw [if_pos hpos, if_pos hpos, write_same]
      · rw [if_neg hpos, if_neg hpos, maxInner_read, if_pos rfl, hcur]
        rfl
    · have hbody : ∀ x : ℚ, (if rowMaxFrom A n (r0 (A.fst_row + n)) > 0 then
            write (forRange (A.rowptr n) (A.rowptr (n + 1))
              (fun j r => write r (A.fst_row + n) (max (r (A.fst_row + n)) |A.nzval j|))
              (forLoop n F (r0, A.fst_row)).1) (A.fst_row + n) x
          else forRange (A.rowptr n) (A.rowptr (n + 1))
              (fun j r => write r (A.fst_row + n) (max (r (A.fst_row + n)) |A.nzval j|))
              (forLoop n F (r0, A.fst_row)).1) k = (forLoop n F (r0, A.fst_row)).1 k := by
        intro x
        split
        · rw [write_ne _ _ _ _ hk, maxInner_read, if_neg hk]
        · rw [maxInner_read, if_neg hk]
      rw [hbody, ih2]
      by_cases h1 : A.fst_row ≤ k ∧ k < A.fst_row + n
      · have h2 : A.fst_row ≤ k ∧ k < A.fst_row + (n + 1) := by omega
        rw [if_pos h1, if_pos h2]
      · have h2 : ¬ (A.fst_row ≤ k ∧ k < A.fst_row + (n + 1)) := by omega
        rw [if_neg h1, if_neg h2]

theorem rowScales_eq (nrow radix : Nat) (A : NRformat_loc ℚ) (r : Nat → ℚ) (k : Nat) :
    rowScales nrow radix A r k =
      if A.fst_row ≤ k ∧ k < A.fst_row + A.m_loc then
        (if rowMaxFrom A (k - A.fst_row) (if k < nrow then 0 else r k) > 0 then
          powerOfRadix radix (rowMaxFrom A (k - A.fst_row) (if k < nrow then 0 else r k))
        else rowMaxFrom A (k - A.fst_row) (if k < nrow then 0 else r k))
      else if k < nrow then 0 else r k := by
  have h := (rowLoop_spec radix A (forLoop nrow (fun i r => write r i 0) r) _
    (fun _ _ => rfl) A.m_loc).2 k
  simp only [zeroLoop_read] at h
  exact h

/-- The scale of an owned row after the row pass. -/
theorem rowScales_owned (nrow radix : Nat) (A : NRformat_loc ℚ) (r : Nat → ℚ) {i : Nat}
    (hi : i < A.m_loc) (hrows : A.fst_row + A.m_loc ≤ nrow) :
    rowScales nrow radix A r (A.fst_row + i) =
      if rowMax A i > 0 then powerOfRadix radix (rowMax A i) else rowMax A i := by
  rw [rowScales_eq]
  have h1 : A.fst_row ≤ A.fst_row + i ∧ A.fst_row + i < A.fst_row + A.m_loc := by omega
  have h2 : A.fst_row + i < nrow := by omega
  rw [if_pos h1, if_pos h2, Nat.add_sub_cancel_left]
  rfl

/-! ## Rounding to a power of the radix -/

theorem iexpOf_of_one_le (radix : Nat) {x : ℚ} (hx : 1 ≤ x) :
    iexpOf radix x = (Nat.log radix (2 ^ Nat.log 2 ⌊x⌋₊) : Int) := by
  unfold iexpOf truncLog2
  simp only [if_pos hx]
  rw [if_pos (Int.natCast_nonneg _), Int.toNat_natCast]

theorem iexpOf_of_lt_one (radix : Nat) {x : ℚ} (hx : x < 1) :
    iexpOf radix x = -(Nat.log radix (2 ^ Nat.log 2 ⌊x⁻¹⌋₊) : Int) := by
  unfold iexpOf truncLog2
  simp only [if_neg (not_le.mpr hx)]
  by_cases h0 : Nat.log 2 ⌊x⁻¹⌋₊ = 0
  · rw [h0]
    simp
  · have hneg : ¬ (0 : Int) ≤ -(Nat.log 2 ⌊x⁻¹⌋₊ : Int) := by
      have : 0 < Nat.log 2 ⌊x⁻¹⌋₊ := Nat.pos_of_ne_zero h0
      omega
    rw [if_neg hneg, neg_neg, Int.toNat_natCast]

/-- Both logarithm steps round down: `radix^k ≤ 2^m ≤ ⌊y⌋ ≤ y`. -/
theorem pow_log_le (radix : Nat) {y : ℚ} (hy : 1 ≤ y) :
    ((radix : ℚ) ^ Nat.log radix (2 ^ Nat.log 2 ⌊y⌋₊)) ≤ y := by
  have hfl : ⌊y⌋₊ ≠ 0 := by
    have : 1 ≤ ⌊y⌋₊ := Nat.le_floor (by simpa using hy)
    omega
  have h1 : radix ^ Nat.log radix (2 ^ Nat.log 2 ⌊y⌋₊) ≤ 2 ^ Nat.log 2 ⌊y⌋₊ :=
    Nat.pow_log_le_self radix (by positivity)
  have h2 : 2 ^ Nat.log 2 ⌊y⌋₊ ≤ ⌊y⌋₊ := Nat.pow_log_le_self 2 hfl
  have h3 : ((⌊y⌋₊ : ℕ) : ℚ) ≤ y := Nat.floor_le (by linarith)
  have h4 : ((radix ^ Nat.log radix (2 ^ Nat.log 2 ⌊y⌋₊) : ℕ) : ℚ) ≤ ((⌊y⌋₊ : ℕ) : ℚ) := by
    exact_mod_cast Nat.le_trans h1 h2
  calc ((radix : ℚ) ^ Nat.log radix (2 ^ Nat.log 2 ⌊y⌋₊))
      = ((radix ^ Nat.log radix (2 ^ Nat.log 2 ⌊y⌋₊) : ℕ) : ℚ) := by push_cast; rfl
    _ ≤ ((⌊y⌋₊ : ℕ) : ℚ) := h4
    _ ≤ y := h3

/-- For a radix `2^s` nothing is lost between the two steps: `y < radix^(k+1)`. -/
theorem lt_pow_log_succ (s : Nat) (hs : 1 ≤ s) (y : ℚ) :
    y < (((2 ^ s : ℕ) : ℚ)) ^ (Nat.log (2 ^ s) (2 ^ Nat.log 2 ⌊y⌋₊) + 1) := by
  have hb : 1 < 2 ^ s := Nat.one_lt_two_pow (by omega)
  have h1 : 2 ^ Nat.log 2 ⌊y⌋₊ < (2 ^ s) ^ (Nat.log (2 ^ s) (2 ^ Nat.log 2 ⌊y⌋₊) + 1) :=
    Nat.lt_pow_succ_log_self hb _
  rw [← Nat.pow_mul] at h1
  have h2 : Nat.log 2 ⌊y⌋₊ < s * (Nat.log (2 ^ s) (2 ^ Nat.log 2 ⌊y⌋₊) + 1) :=
    (Nat.pow_lt_pow_iff_right (by norm_num)).mp h1
  have h3 : 2 ^ (Nat.log 2 ⌊y⌋₊ + 1) ≤ 2 ^ (s * (Nat.log (2 ^ s) (2 ^ Nat.log 2 ⌊y⌋₊) + 1)) :=
    Nat.pow_le_pow_right (by norm_num) h2
  have h4 : ⌊y⌋₊ < 2 ^ (Nat.log 2 ⌊y⌋₊ + 1) := Nat.lt_pow_succ_log_self (by norm_num) _
  have h5 : ⌊y⌋₊ + 1 ≤ (2 ^ s) ^ (Nat.log (2 ^ s) (2 ^ Nat.log 2 ⌊y⌋₊) + 1) := by
    rw [← Nat.pow_mul]
    omega
  have h6 : y < ((⌊y⌋₊ : ℕ) : ℚ) + 1 := Nat.lt_floor_add_one y
  have h7 : (((⌊y⌋₊ + 1 : ℕ)) : ℚ) ≤
      (((2 ^ s) ^ (Nat.log (2 ^ s) (2 ^ Nat.log 2 ⌊y⌋₊) + 1) : ℕ) : ℚ) := by
    exact_mod_cast h5
  push_cast at h7
  push_cast
  linarith

/-- At or above 1 the code rounds down, for a radix that is a power of two. -/
theorem powerOfRadix_of_one_le (s : Nat) (hs : 1 ≤ s) {v : ℚ} (hv : 1 ≤ v) :
    powerOfRadix (2 ^ s) v ≤ v ∧ v < ((2 ^ s : ℕ) : ℚ) * powerOfRadix (2 ^ s) v := by
  unfold powerOfRadix
  rw [iexpOf_of_one_le _ hv, zpow_natCast]
  refine ⟨pow_log_le _ hv, ?_⟩
  have h := lt_pow_log_succ s hs v
  rw [pow_succ] at h
  linarith

/-- Below 1 the code rounds up, for a radix that is a power of two. -/
theorem powerOfRadix_of_lt_one (s : Nat) (hs : 1 ≤ s) {v : ℚ} (h0 : 0 < v) (hv : v < 1) :
    v ≤ powerOfRadix (2 ^ s) v ∧ powerOfRadix (2 ^ s) v < ((2 ^ s : ℕ) : ℚ) * v := by
  unfold powerOfRadix
  rw [iexpOf_of_lt_one _ hv, zpow_neg, zpow_natCast]
  have hy : 1 ≤ v⁻¹ := (one_le_inv₀ h0).mpr (le_of_lt hv)
  have hpos : (0 : ℚ) < ((2 ^ s : ℕ) : ℚ) ^ Nat.log (2 ^ s) (2 ^ Nat.log 2 ⌊v⁻¹⌋₊) := by
    positivity
  have h1 := pow_log_le (2 ^ s) hy
  have h2 := lt_pow_log_succ s hs v⁻¹
  rw [pow_succ] at h2
  constructor
  · rw [le_inv_comm₀ h0 hpos]
    exact h1
  · rw [inv_lt_iff_one_lt_mul₀ hpos]
    have h3 : v⁻¹ * v = 1 := inv_mul_cancel₀ (ne_of_gt h0)
    nlinarith

theorem powerOfRadix_isPow (radix : Nat) (v : ℚ) : ∃ k : ℤ, powerOfRadix radix v = (radix : ℚ) ^ k :=
  ⟨iexpOf radix v, rfl⟩

/-- The definition `truncLog2` is the base-2 logarithm rounded toward zero: for `x ≥ 1` it is
the `n ≥ 0` with `2^n ≤ x < 2^(n+1)`, for `0 < x < 1` the `n ≤ 0` with
`2^(n-1) < x ≤ 2^n`. -/
theorem truncLog2_spec {x : ℚ} (hx : 0 < x) :
    (1 ≤ x → 0 ≤ truncLog2 x ∧ (2 : ℚ) ^ truncLog2 x ≤ x ∧ x < (2 : ℚ) ^ (truncLog2 x + 1)) ∧
    (x < 1 → truncLog2 x ≤ 0 ∧ (2 : ℚ) ^ (truncLog2 x - 1) < x ∧ x ≤ (2 : ℚ) ^ truncLog2 x) := by
  have key : ∀ y : ℚ, 1 ≤ y →
      (2 : ℚ) ^ Nat.log 2 ⌊y⌋₊ ≤ y ∧ y < (2 : ℚ) ^ (Nat.log 2 ⌊y⌋₊ + 1) := by
    intro y hy
    have hfl : ⌊y⌋₊ ≠ 0 := by
      have : 1 ≤ ⌊y⌋₊ := Nat.le_floor (by simpa using hy)
      omega
    have h1 : 2 ^ Nat.log 2 ⌊y⌋₊ ≤ ⌊y⌋₊ := Nat.pow_log_le_self 2 hfl
    have h2 : ⌊y⌋₊ + 1 ≤ 2 ^ (Nat.log 2 ⌊y⌋₊ + 1) :=
      Nat.lt_pow_succ_log_self (by norm_num) _
    have h3 : ((⌊y⌋₊ : ℕ) : ℚ) ≤ y := Nat.floor_le (by linarith)
    have h4 : y < ((⌊y⌋₊ : ℕ) : ℚ) + 1 := Nat.lt_floor_add_one y
    have h5 : ((2 ^ Nat.log 2 ⌊y⌋₊ : ℕ) : ℚ) ≤ ((⌊y⌋₊ : ℕ) : ℚ) := by exact_mod_cast h1
    have h6 : ((⌊y⌋₊ + 1 : ℕ) : ℚ) ≤ ((2 ^ (Nat.log 2 ⌊y⌋₊ + 1) : ℕ) : ℚ) := by
      exact_mod_cast h2
    push_cast at h5 h6
    exact ⟨le_trans h5 h3, lt_of_lt_of_le h4 h6⟩
  constructor
  · intro h1
    obtain ⟨k1, k2⟩ := key x h1
    unfold truncLog2
    rw [if_pos h1]
    refine ⟨Int.natCast_nonneg _, ?_, ?_⟩
    · rw [zpow_natCast]
      exact k1
    · have : ((Nat.log 2 ⌊x⌋₊ : ℕ) : ℤ) + 1 = ((Nat.log 2 ⌊x⌋₊ + 1 : ℕ) : ℤ) := by push_cast; rfl
      rw [this, zpow_natCast]
      exact k2
  · intro h1
    have hy : 1 ≤ x⁻¹ := (one_le_inv₀ hx).mpr (le_of_lt h1)
    obtain ⟨k1, k2⟩ := key x⁻¹ hy
    unfold truncLog2
    rw [if_neg (not_le.mpr h1)]
    have hp1 : (0 : ℚ) < (2 : ℚ) ^ Nat.log 2 ⌊x⁻¹⌋₊ := by positivity
    have hp2 : (0 : ℚ) < (2 : ℚ) ^ (Nat.log 2 ⌊x⁻¹⌋₊ + 1) := by positivity
    refine ⟨by omega, ?_, ?_⟩
    · have : -((Nat.log 2 ⌊x⁻¹⌋₊ : ℕ) : ℤ) - 1 = -((Nat.log 2 ⌊x⁻¹⌋₊ + 1 : ℕ) : ℤ) := by
        push_cast; ring
      rw [this, zpow_neg, zpow_natCast]
      exact (inv_lt_comm₀ hp2 hx).mpr k2
    · rw [zpow_neg, zpow_natCast]
      exact (le_inv_comm₀ hx hp1).mpr k1

/-- The definition `iexpOf` divides `n = truncLog2 x` by `log2(radix)` and rounds toward zero:
for `n ≥ 0` it is the `k ≥ 0` with `radix^k ≤ 2^n < radix^(k+1)`, for `n < 0` the
`k ≤ 0` with `radix^(k-1) < 2^n ≤ radix^k`. -/
theorem iexpOf_spec (radix : Nat) (hr : 2 ≤ radix) (x : ℚ) :
    (0 ≤ truncLog2 x → 0 ≤ iexpOf radix x ∧
      (radix : ℚ) ^ iexpOf radix x ≤ (2 : ℚ) ^ truncLog2 x ∧
      (2 : ℚ) ^ truncLog2 x < (radix : ℚ) ^ (iexpOf radix x + 1)) ∧
    (truncLog2 x < 0 → iexpOf radix x ≤ 0 ∧
      (radix : ℚ) ^ (iexpOf radix x - 1) < (2 : ℚ) ^ truncLog2 x ∧
      (2 : ℚ) ^ truncLog2 x ≤ (radix : ℚ) ^ iexpOf radix x) := by
  have key : ∀ m : ℕ, (radix : ℚ) ^ Nat.log radix (2 ^ m) ≤ (2 : ℚ) ^ m ∧
      (2 : ℚ) ^ m < (radix : ℚ) ^ (Nat.log radix (2 ^ m) + 1) := by
    intro m
    have h1 : radix ^ Nat.log radix (2 ^ m) ≤ 2 ^ m := Nat.pow_log_le_self radix (by positivity)
    have h2 : 2 ^ m < radix ^ (Nat.log radix (2 ^ m) + 1) :=
      Nat.lt_pow_succ_log_self (by omega) _
    have h3 : ((radix ^ Nat.log radix (2 ^ m) : ℕ) : ℚ) ≤ ((2 ^ m : ℕ) : ℚ) := by
      exact_mod_cast h1
    have h4 : ((2 ^ m : ℕ) : ℚ) < ((radix ^ (Nat.log radix (2 ^ m) + 1) : ℕ) : ℚ) := by
      exact_mod_cast h2
    push_cast at h3 h4
    exact ⟨h3, h4⟩
  have hrpos : (0 : ℚ) < (radix : ℚ) := by
    have : 0 < radix := by omega
    exact_mod_cast this
  constructor
  · intro hn
    obtain ⟨m, hm⟩ := Int.eq_ofNat_of_zero_le hn
    unfold iexpOf
    simp only [hm]
    rw [if_pos (Int.natCast_nonneg _), Int.toNat_natCast]
    obtain ⟨k1, k2⟩ := key m
    refine ⟨Int.natCast_nonneg _, ?_, ?_⟩
    · rw [zpow_natCast, zpow_natCast]
      exact k1
    · have : ((Nat.log radix (2 ^ m) : ℕ) : ℤ) + 1 = ((Nat.log radix (2 ^ m) + 1 : ℕ) : ℤ) := by
        push_cast; rfl
      rw [this, zpow_natCast, zpow_natCast]
      exact k2
  · intro hn
    obtain ⟨m, hm⟩ : ∃ m : ℕ, truncLog2 x = -(m : ℤ) := ⟨(-truncLog2 x).toNat, by omega⟩
    unfold iexpOf
    simp only [hm]
    have hneg : ¬ (0 : ℤ) ≤ -(m : ℤ) := by omega
    rw [if_neg hneg, neg_neg, Int.toNat_natCast]
    obtain ⟨k1, k2⟩ := key m
    have hp1 : (0 : ℚ) < (radix : ℚ) ^ Nat.log radix (2 ^ m) := by positivity
    have hp2 : (0 : ℚ) < (radix : ℚ) ^ (Nat.log radix (2 ^ m) + 1) := by positivity
    have hp3 : (0 : ℚ) < (2 : ℚ) ^ m := by positivity
    refine ⟨by omega, ?_, ?_⟩
    · have : -((Nat.log radix (2 ^ m) : ℕ) : ℤ) - 1 =
          -((Nat.log radix (2 ^ m) + 1 : ℕ) : ℤ) := by push_cast; ring
      rw [this, zpow_neg, zpow_natCast, zpow_neg, zpow_natCast]
      exact (inv_lt_inv₀ hp2 hp3).mpr k2
    · rw [zpow_neg, zpow_natCast, zpow_neg, zpow_natCast]
      exact (inv_le_inv₀ hp3 hp1).mpr k1

/-! ## Claims on the row pass of `psgsequb` -/

theorem floor_inv_three_quarters : ⌊((3 : ℚ) / 4)⁻¹⌋₊ = 1 := by
  rw [Nat.floor_eq_iff (by norm_num)]
  constructor <;> norm_num

theorem powerOfRadix_two_three_quarters : powerOfRadix 2 (3 / 4) = 1 := by
  unfold powerOfRadix
  rw [iexpOf_of_lt_one 2 (by norm_num), floor_inv_three_quarters]
  simp

theorem powerOfRadix_three_three : powerOfRadix 3 3 = 1 := by
  unfold powerOfRadix
  rw [iexpOf_of_one_le 3 (by norm_num)]
  have h1 : ⌊(3 : ℚ)⌋₊ = 3 := Nat.floor_ofNat 3
  have h2 : Nat.log 2 3 = 1 := Nat.log_eq_of_pow_le_of_lt_pow (by norm_num) (by norm_num)
  have h3 : Nat.log 3 (2 ^ 1) = 0 := Nat.log_of_lt (by norm_num)
  rw [h1, h2, h3]
  simp

theorem rowMax_exRowA : rowMax exRowA 0 = 3 / 4 := by
  norm_num [rowMax, rowMaxFrom, exRowA, arrN, arrQ, forRange, forLoop, abs_of_nonneg]

theorem rowMax_exRowB : rowMax exRowB 0 = 3 := by
  norm_num [rowMax, rowMaxFrom, exRowB, arrN, arrQ, forRange, forLoop]

/-- C9, as stated, fails.  With radix 2 and a row whose largest absolute entry is
`v = 3/4 > 0` the row pass leaves the scale 1, which exceeds `v` and is not
`2^floor(log2 v) = 1/2`: the conversion to `int` rounds the negative logarithm
toward zero.  With radix 3 and `v = 3` it leaves the scale 1, so that
`v < radix * scale` fails: the logarithm is truncated before it is divided by
`log2(radix)`. -/
theorem C9_row_scale_counterexample :
    (0 < rowMax exRowA 0 ∧
      rowScales 1 2 exRowA (fun _ => 0) (exRowA.fst_row + 0) = 1 ∧
      ¬ (rowScales 1 2 exRowA (fun _ => 0) (exRowA.fst_row + 0) ≤ rowMax exRowA 0) ∧
      rowScales 1 2 exRowA (fun _ => 0) (exRowA.fst_row + 0) ≠
        (2 : ℚ) ^ Int.log 2 (rowMax exRowA 0)) ∧
    (0 < rowMax exRowB 0 ∧
      rowScales 1 3 exRowB (fun _ => 0) (exRowB.fst_row + 0) = 1 ∧
      ¬ (rowMax exRowB 0 < 3 * rowScales 1 3 exRowB (fun _ => 0) (exRowB.fst_row + 0))) := by
  have hA : rowScales 1 2 exRowA (fun _ => 0) (exRowA.fst_row + 0) = 1 := by
    rw [rowScales_owned 1 2 exRowA _ (by decide) (by decide), rowMax_exRowA,
      if_pos (by norm_num), powerOfRadix_two_three_quarters]
  have hB : rowScales 1 3 exRowB (fun _ => 0) (exRowB.fst_row + 0) = 1 := by
    rw [rowScales_owned 1 3 exRowB _ (by decide) (by decide), rowMax_exRowB,
      if_pos (by norm_num), powerOfRadix_three_three]
  rw [hA, hB, rowMax_exRowA, rowMax_exRowB]
  refine ⟨⟨by norm_num, rfl, by norm_num, ?_⟩, by norm_num, rfl, by norm_num⟩
  intro h
  have hle : (2 : ℚ) ^ Int.log 2 ((3 : ℚ) / 4) ≤ 3 / 4 := by
    have := Int.zpow_log_le_self (b := 2) (r := (3 : ℚ) / 4) (by norm_num) (by norm_num)
    exact_mod_cast this
  rw [← h] at hle
  norm_num at hle

/-- C9, amended.  In exact arithmetic and for a radix `2^s`, `s ≥ 1`, the scale that the
row pass of `psgsequb` leaves for an owned row with largest absolute entry `v > 0` is
a power of the radix; for `v ≥ 1` it is the largest one not exceeding `v`
(`scale ≤ v < radix*scale`), for `v < 1` it is the smallest one not below `v`
(`v ≤ scale < radix*v`); a row with no entries or only zero entries gets scale 0. -/
theorem C9_row_scale_amended (nrow s : Nat) (hs : 1 ≤ s) (A : NRformat_loc ℚ) (r : Nat → ℚ)
    (i : Nat) (hi : i < A.m_loc) (hrows : A.fst_row + A.m_loc ≤ nrow) :
    (∀ v : ℚ, 0 < v →
      (∀ j, A.rowptr i ≤ j → j < A.rowptr (i + 1) → |A.nzval j| ≤ v) →
      (∃ j, A.rowptr i ≤ j ∧ j < A.rowptr (i + 1) ∧ |A.nzval j| = v) →
      (∃ k : ℤ, rowScales nrow (2 ^ s) A r (A.fst_row + i) = ((2 ^ s : ℕ) : ℚ) ^ k) ∧
      (1 ≤ v → rowScales nrow (2 ^ s) A r (A.fst_row + i) ≤ v ∧
        v < ((2 ^ s : ℕ) : ℚ) * rowScales nrow (2 ^ s) A r (A.fst_row + i)) ∧
      (v < 1 → v ≤ rowScales nrow (2 ^ s) A r (A.fst_row + i) ∧
        rowScales nrow (2 ^ s) A r (A.fst_row + i) < ((2 ^ s : ℕ) : ℚ) * v)) ∧
    ((∀ j, A.rowptr i ≤ j → j < A.rowptr (i + 1) → A.nzval j = 0) →
      rowScales nrow (2 ^ s) A r (A.fst_row + i) = 0) := by
  rw [rowScales_owned nrow (2 ^ s) A r hi hrows]
  constructor
  · intro v hv hle hat
    rw [rowMax_eq_of_largest A i v hle hat, if_pos hv]
    exact ⟨powerOfRadix_isPow _ v, fun h1 => powerOfRadix_of_one_le s hs h1,
      fun h1 => powerOfRadix_of_lt_one s hs hv h1⟩
  · intro hz
    rw [rowMax_eq_zero A i hz, if_neg (lt_irrefl _)]

/-- C9, amended, at the row `(0: 3/4)` with radix 2: the scale lies between `3/4` and
`2 * 3/4`. -/
theorem C9_row_scale_amended_witness :
    (3 : ℚ) / 4 ≤ rowScales 1 (2 ^ 1) exRowA (fun _ => 0) (exRowA.fst_row + 0) ∧
      rowScales 1 (2 ^ 1) exRowA (fun _ => 0) (exRowA.fst_row + 0) <
        ((2 ^ 1 : ℕ) : ℚ) * (3 / 4) :=
  ((C9_row_scale_amended 1 1 (by decide) exRowA (fun _ => 0) 0 (by decide) (by decide)).1
    (3 / 4) (by norm_num)
    (fun j h1 h2 => by
      have hj : j = 0 := by
        simp [exRowA, arrN] at h2
        exact h2
      subst hj
      norm_num [exRowA, arrQ, abs_of_nonneg])
    ⟨0, by decide, by decide, by norm_num [exRowA, arrQ, abs_of_nonneg]⟩).2.2 (by norm_num)

theorem powerOfRadix_two_one : powerOfRadix 2 1 = 1 := by
  simp [powerOfRadix, iexpOf, truncLog2]

/-- C4 fails on two processes.  In the 3 × 2 matrix `exEquA` the only row without
entries is global row 2, owned by rank 1.  Rank 0 reports `info = 3`, as the claim
says, but rank 1 reports `info = 1`: it scans its own array `r`, in which the rows
it does not own are still 0. -/
theorem C4_zero_row_info_per_process :
    rowMax (exEquStore 0) 0 = 1 ∧ rowMax (exEquStore 0) 1 = 1 ∧ rowMax (exEquStore 1) 0 = 0 ∧
    (psgsequb exEquA exEquStore exEquGrid (1 / 1024) 2 exEquInit exEquW 0).map (fun o => o.info) =
      some 3 ∧
    (psgsequb exEquA exEquStore exEquGrid (1 / 1024) 2 exEquInit exEquW 1).map (fun o => o.info) =
      some 1 := by
  refine ⟨?_, ?_, ?_, ?_, ?_⟩
  · norm_num [rowMax, rowMaxFrom, exEquStore, arrN, arrQ, forRange, forLoop]
  · norm_num [rowMax, rowMaxFrom, exEquStore, arrN, arrQ, forRange, forLoop]
  · norm_num [rowMax, rowMaxFrom, exEquStore, arrN, arrQ, forRange, forLoop]
  · simp [psgsequb, exEquA, exEquGrid, rowScales, exEquStore, forLoop, forRange, write, arrN,
      arrQ, exEquInit, powerOfRadix_two_one, localMaxMin, MPI_Allreduce_MAX, MPI_Allreduce_MIN,
      firstZero]
  · simp [psgsequb, exEquA, exEquGrid, rowScales, exEquStore, forLoop, forRange, write, arrN,
      arrQ, exEquInit, powerOfRadix_two_one, localMaxMin, MPI_Allreduce_MAX, MPI_Allreduce_MIN,
      firstZero]

/-- C10, as stated, fails at the quick return of lines 120-125: for a matrix with no
rows and one column `psgsequb` returns `info = 0` without touching `c`, so `c[0]`
keeps the value 0 it had before the call, which is not a power of the radix. -/
theorem C10_quick_return_counterexample :
    ∃ o, psgsequb exEmptyA exEmptyStore exEquGrid (1 / 1024) 2 exEmptyInit exEquW 0 = some o ∧
      o.info = 0 ∧ (0 : Int) < exEmptyA.ncol ∧ o.c 0 = 0 ∧
      ¬ InSafeRange 2 (1 / 1024) (o.c 0) := by
  refine ⟨{ exEmptyInit 0 with info := 0, rowcnd := 1, colcnd := 1, amax := 0 }, ?_, rfl,
    by decide, rfl, ?_⟩
  · simp [psgsequb, exEmptyA]
  · rintro ⟨_, h, _⟩
    have h0 : (exEmptyInit 0).c 0 = 0 := rfl
    rw [h0] at h
    norm_num at h

/-! ## Invariants of loops, reductions and scale factors -/

theorem forLoop_inv {σ : Type} (P : σ → Prop) (n : Nat) (body : Nat → σ → σ) (s : σ)
    (h0 : P s) (hstep : ∀ i, i < n → ∀ x, P x → P (body i x)) : P (forLoop n body s) := by
  induction n with
  | zero => exact h0
  | succ n ih =>
    rw [forLoop_succ]
    exact hstep n (Nat.lt_succ_self n) _
      (ih (fun i hi x hx => hstep i (Nat.lt_succ_of_lt hi) x hx))

theorem forRange_inv {σ : Type} (P : σ → Prop) (lo hi : Nat) (body : Nat → σ → σ) (s : σ)
    (h0 : P s) (hstep : ∀ j x, P x → P (body j x)) : P (forRange lo hi body s) :=
  forLoop_inv P _ _ s h0 (fun _ _ x hx => hstep _ x hx)

theorem zeroOrPow_max (radix : Nat) {a b : ℚ} (ha : ZeroOrPow radix a) (hb : ZeroOrPow radix b) :
    ZeroOrPow radix (max a b) := by
  rcases max_choice a b with h | h <;> rw [h] <;> assumption

theorem MPI_Allreduce_MAX_inv (P : ℚ → Prop) (hP : ∀ a b, P a → P b → P (max a b))
    (size : Nat) (send : Nat → ℚ) (h : ∀ q, P (send q)) : P (MPI_Allreduce_MAX size send) :=
  forLoop_inv P _ _ _ (h 0) (fun q _ _ hx => hP _ _ hx (h (q + 1)))

theorem MPI_Allreduce_MIN_attain (size : Nat) (send : Nat → ℚ) (hsize : 0 < size) :
    ∃ q, q < size ∧ MPI_Allreduce_MIN size send = send q := by
  unfold MPI_Allreduce_MIN
  have key : ∀ n, ∃ q, q < n + 1 ∧
      forLoop n (fun q acc => min acc (send (q + 1))) (send 0) = send q := by
    intro n
    induction n with
    | zero => exact ⟨0, Nat.zero_lt_one, rfl⟩
    | succ n ih =>
      obtain ⟨q, hq, he⟩ := ih
      rw [forLoop_succ]
      rcases min_choice (forLoop n (fun q acc => min acc (send (q + 1))) (send 0))
        (send (n + 1)) with h | h
      · exact ⟨q, Nat.lt_succ_of_lt hq, h.trans he⟩
      · exact ⟨n + 1, Nat.lt_succ_self _, h⟩
  obtain ⟨q, hq, he⟩ := key (size - 1)
  exact ⟨q, by omega, he⟩

theorem MPI_Allreduce_MAX_vec_read (size count : Nat) (send : Nat → Nat → ℚ) (recv : Nat → ℚ)
    (j : Nat) :
    MPI_Allreduce_MAX_vec size count send recv j =
      if j < count then MPI_Allreduce_MAX size (fun q => send q j) else recv j := by
  unfold MPI_Allreduce_MAX_vec
  induction count with
  | zero => simp
  | succ n ih =>
    rw [forLoop_succ]
    by_cases hj : j = n
    · subst hj
      rw [write_same, if_pos (Nat.lt_succ_self _)]
    · rw [write_ne _ _ _ _ hj, ih]
      by_cases h1 : j < n
      · rw [if_pos h1, if_pos (Nat.lt_succ_of_lt h1)]
      · have h2 : ¬ j < n + 1 := by omega
        rw [if_neg h1, if_neg h2]

/-- The smaller component of `localMaxMin` is the starting value or one of the entries. -/
theorem localMaxMin_min_attain (bignum : ℚ) (lo hi : Nat) (x : Nat → ℚ) :
    (localMaxMin bignum lo hi x).2 = bignum ∨
      ∃ i, lo ≤ i ∧ i < hi ∧ (localMaxMin bignum lo hi x).2 = x i := by
  unfold localMaxMin forRange
  have key : ∀ n, (forLoop n (fun t (s : ℚ × ℚ) => (max s.1 (x (lo + t)), min s.2 (x (lo + t))))
      (0, bignum)).2 = bignum ∨
      ∃ t, t < n ∧ (forLoop n (fun t (s : ℚ × ℚ) =>
        (max s.1 (x (lo + t)), min s.2 (x (lo + t)))) (0, bignum)).2 = x (lo + t) := by
    intro n
    induction n with
    | zero => exact Or.inl rfl
    | succ n ih =>
      rw [forLoop_succ]
      show min _ (x (lo + n)) = bignum ∨ ∃ t, t < n + 1 ∧ min _ (x (lo + n)) = x (lo + t)
      rcases min_choice (forLoop n (fun t (s : ℚ × ℚ) =>
        (max s.1 (x (lo + t)), min s.2 (x (lo + t)))) (0, bignum)).2 (x (lo + n)) with h | h
      · rw [h]
        rcases ih with h1 | ⟨t, ht, h1⟩
        · exact Or.inl h1
        · exact Or.inr ⟨t, Nat.lt_succ_of_lt ht, h1⟩
      · exact Or.inr ⟨n, Nat.lt_succ_self n, h⟩
  rcases key (hi - lo) with h | ⟨t, ht, h⟩
  · exact Or.inl h
  · exact Or.inr ⟨lo + t, Nat.le_add_right _ _, by omega, h⟩

theorem firstZero_eq_none (x : Nat → ℚ) (n : Nat) (h : firstZero x n = none) :
    ∀ i, i < n → x i ≠ 0 := by
  induction n with
  | zero => exact fun i hi => absurd hi (Nat.not_lt_zero i)
  | succ n ih =>
    unfold firstZero at h
    cases hf : firstZero x n with
    | some i =>
      rw [hf] at h
      exact absurd h (by simp)
    | none =>
      rw [hf] at h
      have hn : x n ≠ 0 := by
        intro h0
        simp [h0] at h
      intro i hi
      rcases Nat.lt_succ_iff_lt_or_eq.mp hi with h1 | h1
      · exact ih hf i h1
      · rw [h1]
        exact hn

theorem invertScales_read (n : Nat) (smlnum bignum : ℚ) (x : Nat → ℚ) (i : Nat) :
    invertScales n smlnum bignum x i =
      if i < n then 1 / min (max (x i) smlnum) bignum else x i := by
  unfold invertScales
  induction n generalizing i with
  | zero => simp
  | succ n ih =>
    rw [forLoop_succ]
    by_cases hi : i = n
    · subst hi
      rw [write_same, if_pos (Nat.lt_succ_self _), ih, if_neg (Nat.lt_irrefl _)]
    · rw [write_ne _ _ _ _ hi, ih]
      by_cases h1 : i < n
      · rw [if_pos h1, if_pos (Nat.lt_succ_of_lt h1)]
      · have h2 : ¬ i < n + 1 := by omega
        rw [if_neg h1, if_neg h2]

/-- Inverting a clamped scale factor gives a power of the radix in the safe range. -/
theorem clampInv_inSafeRange (radix : Nat) (hr : 1 ≤ radix) (smlnum : ℚ) (e : ℤ)
    (hs : smlnum = (radix : ℚ) ^ e) (hs1 : smlnum ≤ 1) {x : ℚ} (hx : ZeroOrPow radix x) :
    InSafeRange radix smlnum (1 / min (max x smlnum) (1 / smlnum)) := by
  have hrpos : (0 : ℚ) < (radix : ℚ) := by exact_mod_cast hr
  have hspos : 0 < smlnum := by rw [hs]; exact zpow_pos hrpos e
  have hbig : smlnum ≤ 1 / smlnum := by
    rw [le_div_iff₀ hspos]
    nlinarith
  have hy1 : smlnum ≤ min (max x smlnum) (1 / smlnum) := le_min (le_max_right _ _) hbig
  have hy2 : min (max x smlnum) (1 / smlnum) ≤ 1 / smlnum := min_le_right _ _
  have hypos : 0 < min (max x smlnum) (1 / smlnum) := lt_of_lt_of_le hspos hy1
  have hpow : ∃ k : ℤ, min (max x smlnum) (1 / smlnum) = (radix : ℚ) ^ k := by
    rcases min_choice (max x smlnum) (1 / smlnum) with h | h
    · rw [h]
      rcases max_choice x smlnum with h1 | h1
      · rw [h1]
        rcases hx with h0 | hk
        · exfalso
          have : smlnum ≤ x := h1 ▸ le_max_right x smlnum
          rw [h0] at this
          linarith
        · exact hk
      · rw [h1]
        exact ⟨e, hs⟩
    · rw [h]
      exact ⟨-e, by rw [hs, zpow_neg, one_div]⟩
  obtain ⟨k, hk⟩ := hpow
  refine ⟨⟨-k, by rw [hk, zpow_neg, one_div]⟩, ?_, ?_⟩
  · rw [le_div_iff₀ hypos]
    have := (le_div_iff₀ hspos).mp hy2
    linarith
  · exact one_div_le_one_div_of_le hspos hy1

/-! ## The column pass and the final gather of `psgsequb` -/

theorem rowScales_zeroOrPow (nrow radix : Nat) (A : NRformat_loc ℚ) (r : Nat → ℚ) {k : Nat}
    (hk : k < nrow) : ZeroOrPow radix (rowScales nrow radix A r k) := by
  rw [rowScales_eq]
  simp only [if_pos hk]
  split
  · split
    · exact Or.inr (powerOfRadix_isPow _ _)
    · next hpos =>
      exact Or.inl (le_antisymm (not_lt.mp hpos) (rowMaxFrom_ge_init A _ 0))
  · exact Or.inl rfl

/-- The accumulation loop of lines 196-203 keeps the entries below `ncol` non-negative. -/
theorem colAccum_nonneg (ncol : Nat) (A : NRformat_loc ℚ) (r c0 : Nat → ℚ) (f : Nat)
    (h0 : ∀ j, j < ncol → 0 ≤ c0 j) :
    ∀ j, j < ncol → 0 ≤ (forLoop A.m_loc (fun i (s : (Nat → ℚ) × Nat) =>
      (forRange (A.rowptr i) (A.rowptr (i + 1))
        (fun j c => write c (A.colind j) (max (c (A.colind j)) (|A.nzval j| * r s.2))) s.1,
       s.2 + 1)) (c0, f)).1 j := by
  apply forLoop_inv (fun s : (Nat → ℚ) × Nat => ∀ j, j < ncol → 0 ≤ s.1 j)
  · exact h0
  · intro i _ s hs
    apply forRange_inv (fun c : Nat → ℚ => ∀ j, j < ncol → 0 ≤ c j)
    · exact hs
    · intro t c hc j hj
      by_cases h : j = A.colind t
      · rw [h, write_same]
        exact le_trans (hc _ (h ▸ hj)) (le_max_left _ _)
      · rw [write_ne _ _ _ _ h]
        exact hc j hj

/-- The loop of lines 208-214: after `n` columns the entries passed hold the power of the
radix (or the non-positive value they had), and `loc_max` holds a copy of them. -/
theorem colFinal_spec (radix : Nat) (c1 lm : Nat → ℚ) (n : Nat) :
    (∀ j, (forLoop n (fun j (s : (Nat → ℚ) × (Nat → ℚ)) =>
        ((if s.1 j > 0 then write s.1 j (powerOfRadix radix (s.1 j)) else s.1),
         write s.2 j ((if s.1 j > 0 then write s.1 j (powerOfRadix radix (s.1 j)) else s.1) j)))
        (c1, lm)).1 j =
      if j < n then (if c1 j > 0 then powerOfRadix radix (c1 j) else c1 j) else c1 j) ∧
    (∀ j, j < n → (forLoop n (fun j (s : (Nat → ℚ) × (Nat → ℚ)) =>
        ((if s.1 j > 0 then write s.1 j (powerOfRadix radix (s.1 j)) else s.1),
         write s.2 j ((if s.1 j > 0 then write s.1 j (powerOfRadix radix (s.1 j)) else s.1) j)))
        (c1, lm)).2 j =
      if c1 j > 0 then powerOfRadix radix (c1 j) else c1 j) := by
  induction n with
  | zero =>
    exact ⟨fun j => by simp, fun j hj => absurd hj (Nat.not_lt_zero j)⟩
  | succ n ih =>
    obtain ⟨ih1, ih2⟩ := ih
    rw [forLoop_succ]
    have hcur := ih1 n
    rw [if_neg (Nat.lt_irrefl n)] at hcur
    have hnew : ∀ j, (if (forLoop n (fun j (s : (Nat → ℚ) × (Nat → ℚ)) =>
        ((if s.1 j > 0 then write s.1 j (powerOfRadix radix (s.1 j)) else s.1),
         write s.2 j ((if s.1 j > 0 then write s.1 j (powerOfRadix radix (s.1 j)) else s.1) j)))
        (c1, lm)).1 n > 0 then
          write (forLoop n (fun j (s : (Nat → ℚ) × (Nat → ℚ)) =>
        ((if s.1 j > 0 then write s.1 j (powerOfRadix radix (s.1 j)) else s.1),
         write s.2 j ((if s.1 j > 0 then write s.1 j (powerOfRadix radix (s.1 j)) else s.1) j)))
        (c1, lm)).1 n (powerOfRadix radix ((forLoop n (fun j (s : (Nat → ℚ) × (Nat → ℚ)) =>
        ((if s.1 j > 0 then write s.1 j (powerOfRadix radix (s.1 j)) else s.1),
         write s.2 j ((if s.1 j > 0 then write s.1 j (powerOfRadix radix (s.1 j)) else s.1) j)))
        (c1, lm)).1 n))
        else (forLoop n (fun j (s : (Nat → ℚ) × (Nat → ℚ)) =>
        ((if s.1 j > 0 then write s.1 j (powerOfRadix radix (s.1 j)) else s.1),
         write s.2 j ((if s.1 j > 0 then write s.1 j (powerOfRadix radix (s.1 j)) else s.1) j)))
        (c1, lm)).1) j =
        if j < n + 1 then (if c1 j > 0 then powerOfRadix radix (c1 j) else c1 j) else c1 j := by
      intro j
      rw [hcur]
      by_cases hj : j = n
      · subst hj
        rw [if_pos (Nat.lt_succ_self _)]
        by_cases hpos : c1 j > 0
        · rw [if_pos hpos, if_pos hpos, write_same]
        · rw [if_neg hpos, if_neg hpos, hcur]
      · have hrest : (forLoop n (fun j (s : (Nat → ℚ) × (Nat → ℚ)) =>
            ((if s.1 j > 0 then write s.1 j (powerOfRadix radix (s.1 j)) else s.1),
             write s.2 j
               ((if s.1 j > 0 then write s.1 j (powerOfRadix radix (s.1 j)) else s.1) j)))
            (c1, lm)).1 j =
            if j < n + 1 then (if c1 j > 0 then powerOfRadix radix (c1 j) else c1 j)
            else c1 j := by
          rw [ih1 j]
          by_cases h1 : j < n
          · rw [if_pos h1, if_pos (Nat.lt_succ_of_lt h1)]
          · have h2 : ¬ j < n + 1 := by omega
            rw [if_neg h1, if_neg h2]
        split
        · rw [write_ne _ _ _ _ hj]
          exact hrest
        · exact hrest
    refine ⟨hnew, ?_⟩
    intro j hj
    show write _ n _ j = _
    by_cases hjn : j = n
    · subst hjn
      rw [write_same, hnew j, if_pos (Nat.lt_succ_self _)]
    · rw [write_ne _ _ _ _ hjn]
      exact ih2 j (by omega)

theorem colScales_locmax_zeroOrPow (ncol radix : Nat) (A : NRformat_loc ℚ)
    (r c lm : Nat → ℚ) {j : Nat} (hj : j < ncol) :
    ZeroOrPow radix ((colScales ncol radix A r c lm).2 j) := by
  unfold colScales
  simp only []
  rw [(colFinal_spec radix _ lm ncol).2 j hj]
  have hnn := colAccum_nonneg ncol A r (forLoop ncol (fun j c => write c j 0) c) A.fst_row
    (fun j hj => by rw [zeroLoop_read, if_pos hj]) j hj
  split
  · exact Or.inr (powerOfRadix_isPow _ _)
  · next hpos => exact Or.inl (le_antisymm (not_lt.mp hpos) hnn)

theorem locR_spec (r l0 : Nat → ℚ) (f n : Nat) :
    (forLoop n (fun i (s : (Nat → ℚ) × Nat) => (write s.1 i (r s.2), s.2 + 1)) (l0, f)).2 =
      f + n ∧
    ∀ t, t < n →
      (forLoop n (fun i (s : (Nat → ℚ) × Nat) => (write s.1 i (r s.2), s.2 + 1)) (l0, f)).1 t =
        r (f + t) := by
  induction n with
  | zero => exact ⟨rfl, fun t ht => absurd ht (Nat.not_lt_zero t)⟩
  | succ n ih =>
    obtain ⟨ih1, ih2⟩ := ih
    rw [forLoop_succ]
    refine ⟨by show _ + 1 = _; rw [ih1]; rfl, fun t ht => ?_⟩
    show write _ n _ t = _
    by_cases h : t = n
    · subst h
      rw [write_same, ih1]
    · rw [write_ne _ _ _ _ h]
      exact ih2 t (by omega)

theorem MPI_Allgatherv_inv (P : ℚ → Prop) (n size : Nat) (sendbuf : Nat → Nat → ℚ)
    (sendcount : Nat → Nat) (recv : Nat → ℚ) (recvcounts displs : Nat → Nat)
    (h0 : ∀ i, i < n → P (recv i))
    (hs : ∀ q, q < size → ∀ t, t < sendcount q → P (sendbuf q t)) :
    ∀ i, i < n → P (MPI_Allgatherv size sendbuf sendcount recv recvcounts displs i) := by
  unfold MPI_Allgatherv
  apply forLoop_inv (fun R : Nat → ℚ => ∀ i, i < n → P (R i))
  · exact h0
  · intro q hq R hR
    apply forLoop_inv (fun R : Nat → ℚ => ∀ i, i < n → P (R i))
    · exact hR
    · intro t ht R1 hR1 i hi
      by_cases h : i = displs q + t
      · rw [h, write_same]
        exact hs q hq t (Nat.lt_of_lt_of_le ht (Nat.min_le_left _ _))
      · rw [write_ne _ _ _ _ h]
        exact hR1 i hi

/-- The gather of lines 250-268 keeps a property that holds for the entries below `nrow`
of the array `r` of every process, when the row ranges lie below `nrow`. -/
theorem gatherR_inv (P : ℚ → Prop) (nrow procs : Nat) (Astore : Nat → NRformat_loc ℚ)
    (r : Nat → Nat → ℚ) (W : Nat → EquUninit) (iam : Nat)
    (hrows : ∀ q, q < procs → (Astore q).fst_row + (Astore q).m_loc ≤ nrow)
    (hr : ∀ q i, i < nrow → P (r q i)) :
    ∀ i, i < nrow → P (gatherR procs Astore r W iam i) := by
  unfold gatherR
  apply MPI_Allgatherv_inv P nrow
  · exact hr iam
  · intro q hq t ht
    rw [(locR_spec (r q) (W q).loc_r (Astore q).fst_row (Astore q).m_loc).2 t ht]
    exact hr q _ (by have := hrows q hq; omega)

/-! ## Claims on the scale factors returned by `psgsequb` -/

/-- Lines 191-273 started with row scale factors in the safe range on every process and
left with `info = 0`: the row and the column scale factors are in the safe range. -/
theorem psgsequbCols_safe (nrow ncol procs : Nat) (Astore : Nat → NRformat_loc ℚ)
    (smlnum : ℚ) (radix : Nat) (e : ℤ) (hr : 1 ≤ radix) (hs : smlnum = (radix : ℚ) ^ e)
    (hs1 : smlnum ≤ 1) (o : Nat → EquOut) (W : Nat → EquUninit) (iam : Nat)
    (hrows : ∀ q, q < procs → (Astore q).fst_row + (Astore q).m_loc ≤ nrow)
    (hR : ∀ q i, i < nrow → InSafeRange radix smlnum ((o q).r i))
    (hres : (psgsequbCols nrow ncol procs Astore smlnum (1 / smlnum) radix o W iam).info = 0) :
    (∀ i, i < nrow → InSafeRange radix smlnum
      ((psgsequbCols nrow ncol procs Astore smlnum (1 / smlnum) radix o W iam).r i)) ∧
    (∀ j, j < ncol → InSafeRange radix smlnum
      ((psgsequbCols nrow ncol procs Astore smlnum (1 / smlnum) radix o W iam).c j)) := by
  have hrpos : (0 : ℚ) < (radix : ℚ) := by exact_mod_cast hr
  have hspos : 0 < smlnum := by rw [hs]; exact zpow_pos hrpos e
  have hbig : (1 : ℚ) / smlnum ≠ 0 := ne_of_gt (one_div_pos.mpr hspos)
  -- the reduced column maxima
  have hc : ∀ j, j < ncol → ZeroOrPow radix
      (MPI_Allreduce_MAX_vec procs ncol
        (fun q => (colScales ncol radix (Astore q) (o q).r (o q).c (W q).loc_max).2)
        (colScales ncol radix (Astore iam) (o iam).r (o iam).c (W iam).loc_max).1 j) := by
    intro j hj
    rw [MPI_Allreduce_MAX_vec_read, if_pos hj]
    exact MPI_Allreduce_MAX_inv (ZeroOrPow radix) (fun _ _ => zeroOrPow_max radix) _ _
      (fun q => colScales_locmax_zeroOrPow ncol radix _ _ _ _ hj)
  have hgather := gatherR_inv (InSafeRange radix smlnum) nrow procs Astore
    (fun q => (o q).r) W iam hrows hR
  unfold psgsequbCols at hres ⊢
  simp only [] at hres ⊢
  split at hres
  · next hmin =>
    -- `rcmin == 0`: some column maximum is zero, so the routine leaves with `info > 0`
    exfalso
    rcases localMaxMin_min_attain (1 / smlnum) 0 ncol _ with h | ⟨j, _, hj, h⟩
    · rw [hmin] at h
      exact hbig h.symm
    · rw [hmin] at h
      split at hres
      · next j1 _ =>
        have : (0 : Int) < (nrow : Int) + (j1 : Int) + 1 := by positivity
        simp only [] at hres
        omega
      · next hnone => exact firstZero_eq_none _ _ hnone j hj h.symm
  · next hmin =>
    rw [if_neg hmin]
    refine ⟨hgather, fun j hj => ?_⟩
    show InSafeRange radix smlnum (invertScales ncol smlnum (1 / smlnum) _ j)
    rw [invertScales_read, if_pos hj]
    exact clampInv_inSafeRange radix hr smlnum e hs hs1 (hc j hj)

/-- C10, amended.  In exact arithmetic, with `radix ≥ 1`, `smlnum` a power of the radix
with `smlnum ≤ 1`, `bignum = 1/smlnum`, a matrix with `nrow > 0` and `ncol > 0` on at
least one process and every process's rows `fst_row .. fst_row + m_loc - 1` below
`nrow`: whenever `psgsequb` returns `info = 0` on a process, every `R(i)`, `i < nrow`,
and every `C(j)`, `j < ncol`, on that process is `radix^k` for an integer `k` and
lies between `smlnum` and `bignum`; in particular none is 0. -/
theorem C10_safe_range_amended (A : SuperMatrix) (Astore : Nat → NRformat_loc ℚ)
    (grid : gridinfo_t) (smlnum : ℚ) (radix : Nat) (init : Nat → EquOut)
    (W : Nat → EquUninit) (iam : Nat) (o : EquOut) (e : ℤ)
    (hr : 1 ≤ radix) (hs : smlnum = (radix : ℚ) ^ e) (hs1 : smlnum ≤ 1)
    (hnrow : 0 < A.nrow) (hncol : 0 < A.ncol) (hprocs : 0 < grid.nprow * grid.npcol)
    (hrows : ∀ q, q < grid.nprow * grid.npcol →
      ((Astore q).fst_row + (Astore q).m_loc : Int) ≤ A.nrow)
    (hret : psgsequb A Astore grid smlnum radix init W iam = some o) (hinfo : o.info = 0) :
    (∀ i : Nat, (i : Int) < A.nrow →
      (∃ k : ℤ, o.r i = (radix : ℚ) ^ k) ∧ smlnum ≤ o.r i ∧ o.r i ≤ 1 / smlnum ∧ o.r i ≠ 0) ∧
    (∀ j : Nat, (j : Int) < A.ncol →
      (∃ k : ℤ, o.c j = (radix : ℚ) ^ k) ∧ smlnum ≤ o.c j ∧ o.c j ≤ 1 / smlnum ∧ o.c j ≠ 0) := by
  have hrpos : (0 : ℚ) < (radix : ℚ) := by exact_mod_cast hr
  have hspos : 0 < smlnum := by rw [hs]; exact zpow_pos hrpos e
  have hbig : (1 : ℚ) / smlnum ≠ 0 := ne_of_gt (one_div_pos.mpr hspos)
  have hrows' : ∀ q, q < grid.nprow * grid.npcol →
      (Astore q).fst_row + (Astore q).m_loc ≤ A.nrow.toNat := by
    intro q hq
    have := hrows q hq
    omega
  -- it is enough to reach the safe range
  suffices hsafe : (∀ i, i < A.nrow.toNat → InSafeRange radix smlnum (o.r i)) ∧
      (∀ j, j < A.ncol.toNat → InSafeRange radix smlnum (o.c j)) by
    constructor
    · intro i hi
      obtain ⟨h1, h2, h3⟩ := hsafe.1 i (by omega)
      exact ⟨h1, h2, h3, ne_of_gt (lt_of_lt_of_le hspos h2)⟩
    · intro j hj
      obtain ⟨h1, h2, h3⟩ := hsafe.2 j (by omega)
      exact ⟨h1, h2, h3, ne_of_gt (lt_of_lt_of_le hspos h2)⟩
  unfold psgsequb at hret
  simp only [] at hret
  split at hret
  · -- illegal argument: `info = -1`
    exfalso
    rw [← Option.some.inj hret] at hinfo
    simp at hinfo
  · split at hret
    · next hq =>
      exfalso
      omega
    · split at hret
      · next hmin =>
        -- the global minimum of the row scales is zero: no process returns `info = 0`
        exfalso
        obtain ⟨q, hq, hatt⟩ := MPI_Allreduce_MIN_attain (grid.nprow * grid.npcol)
          (fun q => (localMaxMin (1 / smlnum) (Astore q).fst_row
            ((Astore q).fst_row + (Astore q).m_loc)
            (rowScales A.nrow.toNat radix (Astore q) (init q).r)).2) hprocs
        rw [hmin] at hatt
        have hzero : ∃ i, i < A.nrow.toNat ∧
            rowScales A.nrow.toNat radix (Astore q) (init q).r i = 0 := by
          rcases localMaxMin_min_attain (1 / smlnum) (Astore q).fst_row
            ((Astore q).fst_row + (Astore q).m_loc)
            (rowScales A.nrow.toNat radix (Astore q) (init q).r) with h | ⟨i, _, hi, h⟩
          · rw [← hatt] at h
            exact absurd h.symm hbig
          · rw [← hatt] at h
            exact ⟨i, by have := hrows' q hq; omega, h.symm⟩
        obtain ⟨i, hi, hz⟩ := hzero
        split at hret
        · next i1 _ =>
          rw [← Option.some.inj hret] at hinfo
          simp only [] at hinfo
          omega
        · next hnone =>
          split at hret
          · exact absurd hret (by simp)
          · next hall =>
            apply hall
            refine ⟨q, hq, fun hn => ?_⟩
            exact firstZero_eq_none _ _ hn i hi hz
      · next hmin =>
        have ho := Option.some.inj hret
        rw [← ho] at hinfo ⊢
        exact psgsequbCols_safe A.nrow.toNat A.ncol.toNat (grid.nprow * grid.npcol) Astore smlnum
          radix e hr hs hs1 _ W iam hrows'
          (fun q i hi => by
            show InSafeRange radix smlnum
              (invertScales A.nrow.toNat smlnum (1 / smlnum)
                (rowScales A.nrow.toNat radix (Astore q) (init q).r) i)
            rw [invertScales_read, if_pos hi]
            exact clampInv_inSafeRange radix hr smlnum e hs hs1
              (rowScales_zeroOrPow _ _ _ _ hi))
          hinfo

/-- C10, amended, on the 2 × 2 matrix `exFullA` distributed over two processes, with
radix 2 and `smlnum = 2^(-10)`: rank 0 returns `info = 0` and its row scale factors
are powers of 2 in the safe range. -/
theorem C10_safe_range_amended_witness :
    ∃ o, psgsequb exFullA exFullStore exEquGrid (1 / 1024) 2 exEquInit exEquW 0 = some o ∧
      o.info = 0 ∧
      ∀ i : Nat, (i : Int) < exFullA.nrow →
        (∃ k : ℤ, o.r i = ((2 : ℕ) : ℚ) ^ k) ∧ 1 / 1024 ≤ o.r i ∧
          o.r i ≤ 1 / (1 / 1024) ∧ o.r i ≠ 0 := by
  have h : (psgsequb exFullA exFullStore exEquGrid (1 / 1024) 2 exEquInit exEquW 0).map
      (fun o => o.info) = some 0 := by
    norm_num [psgsequb, psgsequbCols, colScales, exFullA, exEquGrid, rowScales, exFullStore,
      forLoop, forRange, write, arrN, arrQ, exEquInit, powerOfRadix_two_one, localMaxMin,
      MPI_Allreduce_MAX, MPI_Allreduce_MIN, MPI_Allreduce_MAX_vec, invertScales, firstZero]
  obtain ⟨o, ho, hi⟩ := Option.map_eq_some'.mp h
  exact ⟨o, ho, hi,
    (C10_safe_range_amended exFullA exFullStore exEquGrid (1 / 1024) 2 exEquInit exEquW 0 o
      (-10) (by decide) (by norm_num) (by norm_num) (by decide) (by decide) (by decide)
      (by decide) ho hi).1⟩

/-! ## Claims on the tables and on the frame of the copies -/

theorem gatherTables_counts_zero_disp (nrhs npdep : Nat) (nc rc : Nat → Nat) (U : Tables) :
    (gatherTables nrhs npdep nc rc U).nnz_disp 0 = 0 ∧
    (gatherTables nrhs npdep nc rc U).row_disp 0 = 0 ∧
    (gatherTables nrhs npdep nc rc U).b_disp 0 = 0 := by
  obtain ⟨h1, h2, h3⟩ := (gatherTables_spec nrhs npdep nc rc U).1 0 (Nat.zero_le _)
  rw [h1, h2, h3]
  exact ⟨rfl, rfl, Nat.mul_zero _⟩

/-- The recurrences of the tables at one layer `k < npdep`. -/
theorem gatherTables_step (nrhs npdep : Nat) (nc rc : Nat → Nat) (U : Tables) {k : Nat}
    (hk : k < npdep) :
    (gatherTables nrhs npdep nc rc U).nnz_disp (k + 1) =
      (gatherTables nrhs npdep nc rc U).nnz_disp k + nc k ∧
    (gatherTables nrhs npdep nc rc U).row_disp (k + 1) =
      (gatherTables nrhs npdep nc rc U).row_disp k + rc k ∧
    (gatherTables nrhs npdep nc rc U).b_disp k =
      nrhs * (gatherTables nrhs npdep nc rc U).row_disp k ∧
    (gatherTables nrhs npdep nc rc U).b_counts_int k = nrhs * rc k ∧
    (gatherTables nrhs npdep nc rc U).b_disp (k + 1) =
      (gatherTables nrhs npdep nc rc U).b_disp k +
        (gatherTables nrhs npdep nc rc U).b_counts_int k := by
  obtain ⟨hd, hc⟩ := gatherTables_spec nrhs npdep nc rc U
  obtain ⟨a1, a2, a3⟩ := hd k (Nat.le_of_lt hk)
  obtain ⟨b1, b2, b3⟩ := hd (k + 1) (Nat.succ_le_of_lt hk)
  obtain ⟨_, _, c3⟩ := hc k hk
  rw [a1, a2, a3, b1, b2, b3, c3]
  refine ⟨rfl, rfl, rfl, rfl, ?_⟩
  show nrhs * (prefixSum rc k + rc k) = _
  rw [Nat.mul_add]

/-- C19. Displacement-table invariant.  For every depth `npdep ≥ 0`, every gathered counts
and every `nrhs`, whatever the tables held before, the tables of
`dGatherNRformat_loc` and of `dScatterB3d` satisfy `nnz_disp[0] = row_disp[0] =
b_disp[0] = 0` and, for `k < npdep`, `nnz_disp[k+1] = nnz_disp[k] + nnz_counts[k]`,
`row_disp[k+1] = row_disp[k] + row_counts[k]`, `b_disp[k] = nrhs*row_disp[k]`,
`b_counts[k] = nrhs*row_counts[k]` and `b_disp[k+1] = b_disp[k] + b_counts[k]`; a zero
count gives `disp[k+1] = disp[k]`; and the two routines compute the same entries
`0 .. npdep` of the displacements and `0 .. npdep-1` of the counts from the same
counts.  Integers are unbounded: there is no wrap-around. -/
theorem C19_displacement_tables (nrhs npdep : Nat) (nc rc : Nat → Nat) (U V : Tables) :
    ((gatherTables nrhs npdep nc rc U).nnz_disp 0 = 0 ∧
      (gatherTables nrhs npdep nc rc U).row_disp 0 = 0 ∧
      (gatherTables nrhs npdep nc rc U).b_disp 0 = 0 ∧
      (scatterTables nrhs npdep nc rc V).nnz_disp 0 = 0 ∧
      (scatterTables nrhs npdep nc rc V).row_disp 0 = 0 ∧
      (scatterTables nrhs npdep nc rc V).b_disp 0 = 0) ∧
    (∀ k, k < npdep →
      ((gatherTables nrhs npdep nc rc U).nnz_disp (k + 1) =
          (gatherTables nrhs npdep nc rc U).nnz_disp k + nc k ∧
        (gatherTables nrhs npdep nc rc U).row_disp (k + 1) =
          (gatherTables nrhs npdep nc rc U).row_disp k + rc k ∧
        (gatherTables nrhs npdep nc rc U).b_disp k =
          nrhs * (gatherTables nrhs npdep nc rc U).row_disp k ∧
        (gatherTables nrhs npdep nc rc U).b_counts_int k = nrhs * rc k ∧
        (gatherTables nrhs npdep nc rc U).b_disp (k + 1) =
          (gatherTables nrhs npdep nc rc U).b_disp k +
            (gatherTables nrhs npdep nc rc U).b_counts_int k) ∧
      ((scatterTables nrhs npdep nc rc V).nnz_disp (k + 1) =
          (scatterTables nrhs npdep nc rc V).nnz_disp k + nc k ∧
        (scatterTables nrhs npdep nc rc V).row_disp (k + 1) =
          (scatterTables nrhs npdep nc rc V).row_disp k + rc k ∧
        (scatterTables nrhs npdep nc rc V).b_disp k =
          nrhs * (scatterTables nrhs npdep nc rc V).row_disp k ∧
        (scatterTables nrhs npdep nc rc V).b_counts_int k = nrhs * rc k ∧
        (scatterTables nrhs npdep nc rc V).b_disp (k + 1) =
          (scatterTables nrhs npdep nc rc V).b_disp k +
            (scatterTables nrhs npdep nc rc V).b_counts_int k) ∧
      (nc k = 0 → (gatherTables nrhs npdep nc rc U).nnz_disp (k + 1) =
        (gatherTables nrhs npdep nc rc U).nnz_disp k) ∧
      (rc k = 0 → (gatherTables nrhs npdep nc rc U).row_disp (k + 1) =
          (gatherTables nrhs npdep nc rc U).row_disp k ∧
        (gatherTables nrhs npdep nc rc U).b_disp (k + 1) =
          (gatherTables nrhs npdep nc rc U).b_disp k)) ∧
    (∀ k, k ≤ npdep →
      (gatherTables nrhs npdep nc rc U).nnz_disp k = (scatterTables nrhs npdep nc rc V).nnz_disp k ∧
      (gatherTables nrhs npdep nc rc U).row_disp k = (scatterTables nrhs npdep nc rc V).row_disp k ∧
      (gatherTables nrhs npdep nc rc U).b_disp k = (scatterTables nrhs npdep nc rc V).b_disp k) ∧
    (∀ k, k < npdep →
      (gatherTables nrhs npdep nc rc U).nnz_counts_int k =
        (scatterTables nrhs npdep nc rc V).nnz_counts_int k ∧
      (gatherTables nrhs npdep nc rc U).row_counts_int k =
        (scatterTables nrhs npdep nc rc V).row_counts_int k ∧
      (gatherTables nrhs npdep nc rc U).b_counts_int k =
        (scatterTables nrhs npdep nc rc V).b_counts_int k) := by
  rw [scatterTables_eq_gatherTables]
  have g0 := gatherTables_counts_zero_disp nrhs npdep nc rc U
  have s0 := gatherTables_counts_zero_disp nrhs npdep nc rc V
  refine ⟨⟨g0.1, g0.2.1, g0.2.2, s0.1, s0.2.1, s0.2.2⟩, ?_, ?_, ?_⟩
  · intro k hk
    have hg := gatherTables_step nrhs npdep nc rc U hk
    refine ⟨hg, gatherTables_step nrhs npdep nc rc V hk, ?_, ?_⟩
    · intro h0
      rw [hg.1, h0, Nat.add_zero]
    · intro h0
      refine ⟨by rw [hg.2.1, h0, Nat.add_zero], ?_⟩
      rw [hg.2.2.2.2, hg.2.2.2.1, h0, Nat.mul_zero, Nat.add_zero]
  · intro k hk
    obtain ⟨a1, a2, a3⟩ := (gatherTables_spec nrhs npdep nc rc U).1 k hk
    obtain ⟨b1, b2, b3⟩ := (gatherTables_spec nrhs npdep nc rc V).1 k hk
    rw [a1, a2, a3, b1, b2, b3]
    exact ⟨rfl, rfl, rfl⟩
  · intro k hk
    obtain ⟨a1, a2, a3⟩ := (gatherTables_spec nrhs npdep nc rc U).2 k hk
    obtain ⟨b1, b2, b3⟩ := (gatherTables_spec nrhs npdep nc rc V).2 k hk
    rw [a1, a2, a3, b1, b2, b3]
    exact ⟨rfl, rfl, rfl⟩

/-- C19 at the counts of the example of the specification (2 and 3 rows, 3 and 5
non-zeros, `nrhs = 2`): the recurrences at layer 1. -/
theorem C19_displacement_tables_witness :
    (gatherTables 2 2 (arrN [3, 5]) (arrN [2, 3]) (exU 0).tables).nnz_disp (1 + 1) =
        (gatherTables 2 2 (arrN [3, 5]) (arrN [2, 3]) (exU 0).tables).nnz_disp 1 +
          arrN [3, 5] 1 ∧
      (gatherTables 2 2 (arrN [3, 5]) (arrN [2, 3]) (exU 0).tables).row_disp (1 + 1) =
        (gatherTables 2 2 (arrN [3, 5]) (arrN [2, 3]) (exU 0).tables).row_disp 1 +
          arrN [2, 3] 1 ∧
      (gatherTables 2 2 (arrN [3, 5]) (arrN [2, 3]) (exU 0).tables).b_disp 1 =
        2 * (gatherTables 2 2 (arrN [3, 5]) (arrN [2, 3]) (exU 0).tables).row_disp 1 ∧
      (gatherTables 2 2 (arrN [3, 5]) (arrN [2, 3]) (exU 0).tables).b_counts_int 1 =
        2 * arrN [2, 3] 1 ∧
      (gatherTables 2 2 (arrN [3, 5]) (arrN [2, 3]) (exU 0).tables).b_disp (1 + 1) =
        (gatherTables 2 2 (arrN [3, 5]) (arrN [2, 3]) (exU 0).tables).b_disp 1 +
          (gatherTables 2 2 (arrN [3, 5]) (arrN [2, 3]) (exU 0).tables).b_counts_int 1 :=
  ((C19_displacement_tables 2 2 (arrN [3, 5]) (arrN [2, 3]) (exU 0).tables
    (exU 0).tables).2.1 1 (by decide)).1

theorem matCopy_frame {α : Type} (n m : Nat) (dst : Nat → α) (dOff lddst : Nat) (Src : Nat → α)
    (ldsrc : Nat) (a : Nat) (ha : ∀ j, j < m → ∀ i, i < n → a ≠ dOff + (i + lddst * j)) :
    matCopy n m dst dOff lddst Src ldsrc a = dst a := by
  unfold matCopy
  have key : ∀ mm, mm ≤ m → forLoop mm (fun j D =>
      forLoop n (fun i D => write D (dOff + (i + lddst * j)) (Src (i + ldsrc * j))) D) dst a =
      dst a := by
    intro mm
    induction mm with
    | zero => exact fun _ => rfl
    | succ mm ih =>
      intro hmm
      rw [forLoop_succ]
      have inner : ∀ nn, nn ≤ n → ∀ D : Nat → α, forLoop nn (fun i D =>
          write D (dOff + (i + lddst * mm)) (Src (i + ldsrc * mm))) D a = D a := by
        intro nn
        induction nn with
        | zero => exact fun _ _ => rfl
        | succ nn ihn =>
          intro hnn D
          rw [forLoop_succ, write_ne _ _ _ _ (ha mm (by omega) nn (by omega))]
          exact ihn (by omega) D
      rw [inner n (Nat.le_refl _)]
      exact ih (by omega)
  exact key m (Nat.le_refl _)

/-- C20. Frame of the right-hand-side copies.  `dScatterB3d` changes on layer `i` no entry
of `B` other than the `B[k + j*ldb]` with `k < m_loc` and `j < nrhs`; when
`ldb ≥ m_loc` that leaves alone the padding rows `m_loc ≤ k < ldb` of every column and
everything from position `nrhs*ldb` on.  `dGatherNRformat_loc` leaves the
arguments `A`, `B` and `ldb` of every layer as they were. -/
theorem C20_frame_of_copies {α : Type} (grid3d : gridinfo3d_t) (A2d : NRformat_loc α)
    (X : Nat → Local3d α) (nrhs : Nat) (B2d : Nat → α) (U : Uninit α) (i : Nat) :
    (∀ a, (∀ k j, k < (X i).A.m_loc → j < nrhs → a ≠ k + j * (X i).ldb) →
      dScatterB3d grid3d A2d X nrhs B2d U i a = (X i).B a) ∧
    ((X i).A.m_loc ≤ (X i).ldb →
      (∀ k j, (X i).A.m_loc ≤ k → k < (X i).ldb →
        dScatterB3d grid3d A2d X nrhs B2d U i (k + j * (X i).ldb) =
          (X i).B (k + j * (X i).ldb)) ∧
      (∀ a, nrhs * (X i).ldb ≤ a → dScatterB3d grid3d A2d X nrhs B2d U i a = (X i).B a)) ∧
    (∀ Btmp : Nat → α, (gatherArgsAfter nrhs (X i) Btmp).1 = X i) := by
  have hframe : ∀ a, (∀ k j, k < (X i).A.m_loc → j < nrhs → a ≠ k + j * (X i).ldb) →
      dScatterB3d grid3d A2d X nrhs B2d U i a = (X i).B a := by
    intro a ha
    apply matCopy_frame
    intro j hj k hk
    rw [Nat.zero_add, Nat.mul_comm]
    exact ha k j hk hj
  refine ⟨hframe, fun hld => ⟨?_, ?_⟩, fun _ => rfl⟩
  · intro k j hk1 hk2
    apply hframe
    intro k1 j1 hk1' _ h
    rw [Nat.mul_comm j, Nat.mul_comm j1] at h
    have := (colMajor_inj hk2 (Nat.lt_of_lt_of_le hk1' hld) h).1
    omega
  · intro a ha
    apply hframe
    intro k j hk hj h
    have h1 : j * (X i).ldb + (X i).ldb ≤ nrhs * (X i).ldb := by
      have := Nat.mul_le_mul_right (X i).ldb (Nat.succ_le_of_lt hj)
      rw [Nat.succ_mul] at this
      exact this
    omega

/-- C20 at the example of the specification: the padding row 3 of column 1 of layer 1
keeps its value. -/
theorem C20_frame_of_copies_witness :
    dScatterB3d exGrid (dGatherNRformat_loc exGrid 2 exX exU 0).A2d (exX 0) 2
        (dGatherNRformat_loc exGrid 2 exX exU 0).B2d (exU 0) 1 (3 + 1 * (exX 0 1).ldb) =
      (exX 0 1).B (3 + 1 * (exX 0 1).ldb) :=
  ((C20_frame_of_copies exGrid (dGatherNRformat_loc exGrid 2 exX exU 0).A2d (exX 0) 2
    (dGatherNRformat_loc exGrid 2 exX exU 0).B2d (exU 0) 1).2.1 (by decide)).1 3 1
      (by decide) (by decide)

/-! ## Depth 1 -/

theorem psgsequb_illegal (A : SuperMatrix) (Astore : Nat → NRformat_loc ℚ) (grid : gridinfo_t)
    (smlnum : ℚ) (radix : Nat) (init : Nat → EquOut) (W : Nat → EquUninit) (iam : Nat)
    (h : illegalArg A) :
    psgsequb A Astore grid smlnum radix init W iam = some { init iam with info := -1 } := by
  unfold psgsequb
  exact if_pos h

theorem psgsequb_quick (A : SuperMatrix) (Astore : Nat → NRformat_loc ℚ) (grid : gridinfo_t)
    (smlnum : ℚ) (radix : Nat) (init : Nat → EquOut) (W : Nat → EquUninit) (iam : Nat)
    (h : ¬ illegalArg A) (hq : A.nrow = 0 ∨ A.ncol = 0) :
    psgsequb A Astore grid smlnum radix init W iam =
      some { init iam with info := 0, rowcnd := 1, colcnd := 1, amax := 0 } := by
  unfold illegalArg at h
  unfold psgsequb
  rw [if_neg h, if_pos hq]

/-- The routine `psgsequb` past the quick return, in terms of the quantities of the row pass. -/
theorem psgsequb_main (A : SuperMatrix) (Astore : Nat → NRformat_loc ℚ) (grid : gridinfo_t)
    (smlnum : ℚ) (radix : Nat) (init : Nat → EquOut) (W : Nat → EquUninit) (iam : Nat)
    (h : ¬ illegalArg A) (hq : ¬ (A.nrow = 0 ∨ A.ncol = 0)) :
    psgsequb A Astore grid smlnum radix init W iam =
      if rowRcmin A Astore grid smlnum radix init = 0 then
        match firstZero (rowR A Astore radix init iam) A.nrow.toNat with
        | some i => some { rowOut1 A Astore grid smlnum radix init iam with info := (i : Int) + 1 }
        | none =>
          if ∃ q, q < grid.nprow * grid.npcol ∧
              firstZero (rowR A Astore radix init q) A.nrow.toNat ≠ none then none
          else some (psgsequbCols A.nrow.toNat A.ncol.toNat (grid.nprow * grid.npcol) Astore
            smlnum (1 / smlnum) radix (rowOut1 A Astore grid smlnum radix init) W iam)
      else some (psgsequbCols A.nrow.toNat A.ncol.toNat (grid.nprow * grid.npcol) Astore
        smlnum (1 / smlnum) radix (rowOut2 A Astore grid smlnum radix init) W iam) := by
  unfold illegalArg at h
  unfold psgsequb
  rw [if_neg h, if_neg hq]
  rfl

theorem psgsequbCols_eq (nrow ncol procs : Nat) (Astore : Nat → NRformat_loc ℚ)
    (smlnum bignum : ℚ) (radix : Nat) (o : Nat → EquOut) (W : Nat → EquUninit) (iam : Nat) :
    psgsequbCols nrow ncol procs Astore smlnum bignum radix o W iam =
      if (localMaxMin bignum 0 ncol (colC ncol procs Astore radix o W iam)).2 = 0 then
        match firstZero (colC ncol procs Astore radix o W iam) ncol with
        | some j => { o iam with
            c := colC ncol procs Astore radix o W iam, info := (nrow : Int) + j + 1 }
        | none => { o iam with
            c := colC ncol procs Astore radix o W iam
            r := gatherR procs Astore (fun q => (o q).r) W iam }
      else
        { o iam with
          c := invertScales ncol smlnum bignum (colC ncol procs Astore radix o W iam)
          colcnd := max (localMaxMin bignum 0 ncol (colC ncol procs Astore radix o W iam)).2
              smlnum /
            min (localMaxMin bignum 0 ncol (colC ncol procs Astore radix o W iam)).1 bignum
          r := gatherR procs Astore (fun q => (o q).r) W iam } := rfl

theorem firstZero_eq_some (x : Nat → ℚ) (n i : Nat) :
    firstZero x n = some i ↔ i < n ∧ x i = 0 ∧ ∀ k, k < i → x k ≠ 0 := by
  induction n generalizing i with
  | zero =>
    constructor
    · intro h
      exact absurd h (by simp [firstZero])
    · rintro ⟨h, _⟩
      exact absurd h (Nat.not_lt_zero i)
  | succ n ih =>
    unfold firstZero
    cases hf : firstZero x n with
    | some i1 =>
      simp only []
      have h1 := (ih i1).mp hf
      constructor
      · intro h
        have e : i1 = i := Option.some.inj h
        subst e
        exact ⟨Nat.lt_succ_of_lt h1.1, h1.2⟩
      · rintro ⟨_, h2, h3⟩
        rcases Nat.lt_trichotomy i1 i with hlt | heq | hgt
        · exact absurd h1.2.1 (h3 i1 hlt)
        · rw [heq]
        · exact absurd h2 (h1.2.2 i hgt)
    | none =>
      simp only []
      have hnone := firstZero_eq_none x n hf
      by_cases hx : x n = 0
      · rw [if_pos hx]
        constructor
        · intro h
          have e : n = i := Option.some.inj h
          subst e
          exact ⟨Nat.lt_succ_self _, hx, hnone⟩
        · rintro ⟨h1, h2, h3⟩
          rcases Nat.lt_succ_iff_lt_or_eq.mp h1 with hlt | heq
          · exact absurd h2 (hnone i hlt)
          · rw [heq]
      · rw [if_neg hx]
        constructor
        · intro h
          exact absurd h (by simp)
        · rintro ⟨h1, h2, _⟩
          rcases Nat.lt_succ_iff_lt_or_eq.mp h1 with hlt | heq
          · exact absurd h2 (hnone i hlt)
          · rw [heq] at h2
            exact absurd h2 hx

/-- The value of `info` after lines 191-273: unchanged, or `nrow + j + 1` for a column `j`. -/
theorem psgsequbCols_info (nrow ncol procs : Nat) (Astore : Nat → NRformat_loc ℚ)
    (smlnum bignum : ℚ) (radix : Nat) (o : Nat → EquOut) (W : Nat → EquUninit) (iam : Nat) :
    (psgsequbCols nrow ncol procs Astore smlnum bignum radix o W iam).info = (o iam).info ∨
    ∃ j : Nat, j < ncol ∧
      (psgsequbCols nrow ncol procs Astore smlnum bignum radix o W iam).info =
        (nrow : Int) + j + 1 := by
  rw [psgsequbCols_eq]
  split
  · cases hf : firstZero (colC ncol procs Astore radix o W iam) ncol with
    | some j => exact Or.inr ⟨j, ((firstZero_eq_some _ _ _).mp hf).1, rfl⟩
    | none => exact Or.inl rfl
  · exact Or.inl rfl

/-- With legal arguments `info` is 0, a row index in `1 .. nrow`, or `nrow` plus a column
index in `1 .. ncol`. -/
theorem psgsequb_info_range (A : SuperMatrix) (Astore : Nat → NRformat_loc ℚ) (grid : gridinfo_t)
    (smlnum : ℚ) (radix : Nat) (init : Nat → EquOut) (W : Nat → EquUninit) (iam : Nat)
    (o : EquOut) (h : ¬ illegalArg A)
    (hret : psgsequb A Astore grid smlnum radix init W iam = some o) :
    o.info = 0 ∨ (1 ≤ o.info ∧ o.info ≤ A.nrow) ∨
      (A.nrow + 1 ≤ o.info ∧ o.info ≤ A.nrow + A.ncol) := by
  have hn : 0 ≤ A.nrow := by
    by_contra hc
    exact h (Or.inl (by omega))
  have hm : 0 ≤ A.ncol := by
    by_contra hc
    exact h (Or.inr (Or.inl (by omega)))
  by_cases hq : A.nrow = 0 ∨ A.ncol = 0
  · rw [psgsequb_quick A Astore grid smlnum radix init W iam h hq] at hret
    rw [← Option.some.inj hret]
    exact Or.inl rfl
  · rw [psgsequb_main A Astore grid smlnum radix init W iam h hq] at hret
    have hcols : ∀ o1 : Nat → EquOut, (o1 iam).info = 0 →
        o = psgsequbCols A.nrow.toNat A.ncol.toNat (grid.nprow * grid.npcol) Astore
          smlnum (1 / smlnum) radix o1 W iam →
        o.info = 0 ∨ (1 ≤ o.info ∧ o.info ≤ A.nrow) ∨
          (A.nrow + 1 ≤ o.info ∧ o.info ≤ A.nrow + A.ncol) := by
      intro o1 h1 ho
      rcases psgsequbCols_info A.nrow.toNat A.ncol.toNat (grid.nprow * grid.npcol) Astore
        smlnum (1 / smlnum) radix o1 W iam with e | ⟨j, hj, e⟩
      · rw [ho, e, h1]
        exact Or.inl rfl
      · rw [ho, e]
        refine Or.inr (Or.inr ⟨?_, ?_⟩) <;> omega
    split at hret
    · cases hf : firstZero (rowR A Astore radix init iam) A.nrow.toNat with
      | some i =>
        rw [hf] at hret
        have hi := ((firstZero_eq_some _ _ _).mp hf).1
        rw [← Option.some.inj hret]
        refine Or.inr (Or.inl ⟨?_, ?_⟩)
        · show (1 : Int) ≤ (i : Int) + 1
          omega
        · show (i : Int) + 1 ≤ A.nrow
          omega
      | none =>
        rw [hf] at hret
        simp only [] at hret
        split at hret
        · exact absurd hret (by simp)
        · exact hcols _ rfl (Option.some.inj hret).symm
    · exact hcols _ rfl (Option.some.inj hret).symm

/-- C16.  `psgsequb` sets `info = -1` and returns without entering a collective and with `r`,
`c`, `rowcnd`, `colcnd` and `amax` as they were before the call if and only if
`A->nrow < 0`, `A->ncol < 0` or one of `Stype`, `Dtype`, `Mtype` is not `SLU_NR_loc`, `SLU_S`,
`SLU_GE`: the test reads neither the local matrix nor the grid.  For every other input
`info` is not negative on return. -/
theorem C16_illegal_argument (A : SuperMatrix) (Astore : Nat → NRformat_loc ℚ)
    (grid : gridinfo_t) (smlnum : ℚ) (radix : Nat) (init : Nat → EquOut)
    (W : Nat → EquUninit) (iam : Nat) :
    ((∃ o, psgsequb A Astore grid smlnum radix init W iam = some o ∧ o.info = -1 ∧
        psgsequbCollectives A Astore grid smlnum radix init W iam = 0 ∧
        o.r = (init iam).r ∧ o.c = (init iam).c ∧ o.rowcnd = (init iam).rowcnd ∧
        o.colcnd = (init iam).colcnd ∧ o.amax = (init iam).amax) ↔
      (A.nrow < 0 ∨ A.ncol < 0 ∨ A.Stype ≠ Stype_t.SLU_NR_loc ∨ A.Dtype ≠ Dtype_t.SLU_S ∨
        A.Mtype ≠ Mtype_t.SLU_GE)) ∧
    (¬ (A.nrow < 0 ∨ A.ncol < 0 ∨ A.Stype ≠ Stype_t.SLU_NR_loc ∨ A.Dtype ≠ Dtype_t.SLU_S ∨
        A.Mtype ≠ Mtype_t.SLU_GE) →
      ∀ o, psgsequb A Astore grid smlnum radix init W iam = some o → 0 ≤ o.info) := by
  have hpos : ¬ illegalArg A →
      ∀ o, psgsequb A Astore grid smlnum radix init W iam = some o → 0 ≤ o.info := by
    intro h o hret
    have hn : 0 ≤ A.nrow := by
      by_contra hc
      exact h (Or.inl (by omega))
    rcases psgsequb_info_range A Astore grid smlnum radix init W iam o h hret with
      e | ⟨e, _⟩ | ⟨e, _⟩ <;> omega
  refine ⟨⟨?_, ?_⟩, hpos⟩
  · rintro ⟨o, hret, hinfo, _⟩
    by_contra h
    have := hpos h o hret
    omega
  · intro h
    refine ⟨_, psgsequb_illegal A Astore grid smlnum radix init W iam h, rfl, ?_,
      rfl, rfl, rfl, rfl, rfl⟩
    unfold psgsequbCollectives
    exact if_pos h

/-! ## Claims on what `psgsequb` returns besides the scale factors -/

theorem floor_seven_quarters : ⌊(7 : ℚ) / 4⌋₊ = 1 := by
  rw [Nat.floor_eq_iff (by norm_num)]
  norm_num

theorem powerOfRadix_two_seven_quarters : powerOfRadix 2 (7 / 4) = 1 := by
  have h : (1 : ℚ) ≤ 7 / 4 := by norm_num
  simp [powerOfRadix, iexpOf, truncLog2, h, floor_seven_quarters]

/-- C13 fails on two processes.  In the 2 × 2 matrix of `exZeroColStore` both rows are `(0: 1)`
and column 1 is empty, so `psgsequb` returns `info = 4 > nrow` at line 238, before the
gather of lines 250-268.  The row scale of row 1, owned by rank 1, is 1 and its
inverse is 1, but on rank 0 `R[1]` is `1/smlnum = 1024`: rank 0 inverted the 0 that
its own array `r` holds for a row it does not own. -/
theorem C13_rows_not_gathered_at_zero_column :
    ∃ o, psgsequb exFullA exZeroColStore exEquGrid (1 / 1024) 2 exEquInit exEquW 0 = some o ∧
      o.info = 4 ∧ exFullA.nrow < o.info ∧ o.r 1 = 1024 ∧
      (exZeroColStore 1).fst_row = 1 ∧
      1 / min (max (rowR exFullA exZeroColStore 2 exEquInit 1 1) (1 / 1024)) (1 / (1 / 1024)) =
        (1 : ℚ) ∧
      o.r 1 ≠
        1 / min (max (rowR exFullA exZeroColStore 2 exEquInit 1 1) (1 / 1024)) (1 / (1 / 1024)) := by
  have h : (psgsequb exFullA exZeroColStore exEquGrid (1 / 1024) 2 exEquInit exEquW 0).map
      (fun o => (o.info, o.r 1)) = some (4, 1024) := by
    norm_num [psgsequb, psgsequbCols, colScales, exFullA, exEquGrid, rowScales, exZeroColStore,
      forLoop, forRange, write, arrN, arrQ, exEquInit, powerOfRadix_two_one, localMaxMin,
      MPI_Allreduce_MAX, MPI_Allreduce_MIN, MPI_Allreduce_MAX_vec, invertScales, firstZero]
  obtain ⟨o, ho, hi⟩ := Option.map_eq_some'.mp h
  have h1 : o.info = 4 := congrArg Prod.fst hi
  have h2 : o.r 1 = 1024 := congrArg Prod.snd hi
  have h3 : 1 / min (max (rowR exFullA exZeroColStore 2 exEquInit 1 1) (1 / 1024))
      (1 / (1 / 1024)) = (1 : ℚ) := by
    norm_num [rowR, exFullA, rowScales, exZeroColStore, forLoop, forRange, write, arrN, arrQ,
      exEquInit, powerOfRadix_two_one]
  refine ⟨o, ho, h1, ?_, h2, rfl, h3, ?_⟩
  · rw [h1]
    decide
  · rw [h2, h3]
    norm_num

/-- C15 fails on one process.  For the 1 × 1 matrix with the entry 3/4 and radix 2,
`psgsequb` returns `info = 0` and `amax = 1`: line 168 stores `rcmax`, the largest row
scale after rounding to a power of the radix, not the largest `|A(i,j)|`, which is 3/4. -/
theorem C15_amax_is_rounded_scale :
    ∃ o, psgsequb exOneA (fun _ => exRowA) exOneGrid (1 / 1024) 2 exEquInit exEquW 0 = some o ∧
      o.info = 0 ∧ o.amax = 1 ∧ rowMax exRowA 0 = 3 / 4 ∧ |exRowA.nzval 0| = 3 / 4 ∧
      o.amax ≠ |exRowA.nzval 0| := by
  have h : (psgsequb exOneA (fun _ => exRowA) exOneGrid (1 / 1024) 2 exEquInit exEquW 0).map
      (fun o => (o.info, o.amax)) = some (0, 1) := by
    norm_num [psgsequb, psgsequbCols, colScales, exOneA, exOneGrid, rowScales, exRowA,
      forLoop, forRange, write, arrN, arrQ, exEquInit, powerOfRadix_two_three_quarters,
      powerOfRadix_two_one, localMaxMin,
      MPI_Allreduce_MAX, MPI_Allreduce_MIN, MPI_Allreduce_MAX_vec, invertScales, firstZero,
      abs_of_nonneg]
  obtain ⟨o, ho, hi⟩ := Option.map_eq_some'.mp h
  have h1 : o.info = 0 := congrArg Prod.fst hi
  have h2 : o.amax = 1 := congrArg Prod.snd hi
  have h3 : |exRowA.nzval 0| = 3 / 4 := by
    norm_num [exRowA, arrQ, abs_of_nonneg]
  refine ⟨o, ho, h1, h2, rowMax_exRowA, h3, ?_⟩
  rw [h2, h3]
  norm_num

/-- C18 fails on one process.  For the 1 × 1 matrix with the entry 7/4, radix 2 and
`smlnum = 2^(-10)`, `psgsequb` returns `info = 0` and `R(0) = 1`: the row scale 1 lies
strictly between `smlnum` and `bignum`, so nothing is clamped, and the scaled magnitude
`R(0) * |A(0,0)| = 7/4` has a square above the radix, so it exceeds `sqrt(radix)`. -/
theorem C18_scaled_magnitude_above_sqrt_radix :
    ∃ o, psgsequb exOneA (fun _ => exRowC) exOneGrid (1 / 1024) 2 exEquInit exEquW 0 = some o ∧
      o.info = 0 ∧ rowMax exRowC 0 = 7 / 4 ∧
      rowR exOneA (fun _ => exRowC) 2 exEquInit 0 0 = 1 ∧
      (1 : ℚ) / 1024 < 1 ∧ (1 : ℚ) < 1 / (1 / 1024) ∧
      o.r 0 = 1 ∧ o.r 0 * rowMax exRowC 0 = 7 / 4 ∧
      ¬ (o.r 0 * rowMax exRowC 0) ^ 2 ≤ ((2 : ℕ) : ℚ) := by
  have h : (psgsequb exOneA (fun _ => exRowC) exOneGrid (1 / 1024) 2 exEquInit exEquW 0).map
      (fun o => (o.info, o.r 0)) = some (0, 1) := by
    norm_num [psgsequb, psgsequbCols, colScales, exOneA, exOneGrid, rowScales, exRowC,
      forLoop, forRange, write, arrN, arrQ, exEquInit, powerOfRadix_two_seven_quarters,
      powerOfRadix_two_one, localMaxMin, gatherR, MPI_Allgatherv, MPI_Allgather,
      MPI_Allreduce_MAX, MPI_Allreduce_MIN, MPI_Allreduce_MAX_vec, invertScales, firstZero,
      abs_of_nonneg]
  obtain ⟨o, ho, hi⟩ := Option.map_eq_some'.mp h
  have h1 : o.info = 0 := congrArg Prod.fst hi
  have h2 : o.r 0 = 1 := congrArg Prod.snd hi
  have h3 : rowMax exRowC 0 = 7 / 4 := by
    norm_num [rowMax, rowMaxFrom, exRowC, arrN, arrQ, forRange, forLoop, abs_of_nonneg]
  have h4 : rowR exOneA (fun _ => exRowC) 2 exEquInit 0 0 = 1 := by
    norm_num [rowR, exOneA, rowScales, exRowC, forLoop, forRange, write, arrN, arrQ,
      exEquInit, powerOfRadix_two_seven_quarters, abs_of_nonneg]
  refine ⟨o, ho, h1, h3, h4, by norm_num, by norm_num, h2, ?_, ?_⟩
  · rw [h2, h3]
    norm_num
  · rw [h2, h3]
    norm_num

/-! ## The gather of the row scale factors -/

theorem MPI_Allgatherv_eq_Gatherv {β : Type} (size : Nat) (sendbuf : Nat → Nat → β)
    (sendcount : Nat → Nat) (recv : Nat → β) (recvcounts displs : Nat → Nat) :
    MPI_Allgatherv size sendbuf sendcount recv recvcounts displs =
      MPI_Gatherv size sendbuf sendcount recv 0 recvcounts displs := by
  unfold MPI_Allgatherv MPI_Gatherv
  simp only [Nat.zero_add]

/-- The loop of lines 262-265: `displs` holds the prefix sums of `r_sizes`. -/
theorem displsLoop_spec (rs d0 : Nat → Nat) (n : Nat) :
    ∀ i, i ≤ n →
      forLoop n (fun t d => write d (1 + t) (d (1 + t - 1) + rs (1 + t - 1))) (write d0 0 0) i =
        prefixSum rs i := by
  induction n with
  | zero =>
    intro i hi
    have : i = 0 := Nat.le_zero.mp hi
    subst this
    rfl
  | succ n ih =>
    intro i hi
    rw [forLoop_succ]
    by_cases h : i = 1 + n
    · subst h
      rw [write_same, Nat.add_sub_cancel_left, ih n (Nat.le_refl n), Nat.add_comm 1 n]
      rfl
    · rw [write_ne _ _ _ _ h]
      exact ih i (by omega)

/-- After the gather of lines 250-268 the rows of rank `q` sit from position
`m_loc(0) + ... + m_loc(q-1)` of `r`, on every process. -/
theorem gatherR_read (procs : Nat) (Astore : Nat → NRformat_loc ℚ) (r : Nat → Nat → ℚ)
    (W : Nat → EquUninit) (iam : Nat) {q t : Nat} (hq : q < procs)
    (ht : t < (Astore q).m_loc) :
    gatherR procs Astore r W iam (prefixSum (mLocs Astore) q + t) =
      r q ((Astore q).fst_row + t) := by
  unfold gatherR
  rw [MPI_Allgatherv_eq_Gatherv]
  have hcnt : ∀ i, i < procs →
      min ((fun q => (Astore q).m_loc) i)
        (MPI_Allgather procs (fun q => (Astore q).m_loc) (W iam).r_sizes i) = mLocs Astore i := by
    intro i hi
    rw [MPI_Allgather_read procs _ _ hi]
    exact Nat.min_self _
  have hdis : ∀ i, i < procs →
      forRange 1 procs (fun i d => write d i (d (i - 1) +
        MPI_Allgather procs (fun q => (Astore q).m_loc) (W iam).r_sizes (i - 1)))
        (write (W iam).displs 0 0) i = prefixSum (mLocs Astore) i := by
    intro i hi
    unfold forRange
    rw [displsLoop_spec _ _ _ i (by omega)]
    apply prefixSum_congr
    intro k hk
    exact MPI_Allgather_read procs _ _ (by omega)
  have h := MPI_Gatherv_read procs
    (fun q => (forLoop (Astore q).m_loc (fun i (s : (Nat → ℚ) × Nat) =>
      (write s.1 i (r q s.2), s.2 + 1)) ((W q).loc_r, (Astore q).fst_row)).1)
    (fun q => (Astore q).m_loc) (r iam) 0
    (MPI_Allgather procs (fun q => (Astore q).m_loc) (W iam).r_sizes)
    (forRange 1 procs (fun i d => write d i (d (i - 1) +
        MPI_Allgather procs (fun q => (Astore q).m_loc) (W iam).r_sizes (i - 1)))
        (write (W iam).displs 0 0))
    (mLocs Astore) hcnt hdis hq (t := t) ht
  rw [Nat.zero_add] at h
  rw [h]
  exact (locR_spec (r q) (W q).loc_r (Astore q).fst_row (Astore q).m_loc).2 t ht

theorem localMaxMin_congr (bignum : ℚ) (lo hi : Nat) (x y : Nat → ℚ)
    (h : ∀ i, lo ≤ i → i < hi → x i = y i) :
    localMaxMin bignum lo hi x = localMaxMin bignum lo hi y := by
  unfold localMaxMin forRange
  apply forLoop_congr
  intro t ht s
  beta_reduce
  rw [h (lo + t) (Nat.le_add_right _ _) (by omega)]

theorem firstZero_congr (x y : Nat → ℚ) (n : Nat) (h : ∀ i, i < n → x i = y i) :
    firstZero x n = firstZero y n := by
  induction n with
  | zero => rfl
  | succ n ih =>
    unfold firstZero
    rw [ih (fun i hi => h i (Nat.lt_succ_of_lt hi)), h n (Nat.lt_succ_self n)]

/-- After the reduction of line 215 the entries `c[0 .. ncol-1]` are the same on all ranks. -/
theorem colC_indep (ncol procs : Nat) (Astore : Nat → NRformat_loc ℚ) (radix : Nat)
    (o : Nat → EquOut) (W : Nat → EquUninit) (iam iam1 : Nat) {j : Nat} (hj : j < ncol) :
    colC ncol procs Astore radix o W iam j = colC ncol procs Astore radix o W iam1 j := by
  unfold colC
  rw [MPI_Allreduce_MAX_vec_read, MPI_Allreduce_MAX_vec_read, if_pos hj, if_pos hj]

/-- Lines 191-273 leave with `info` unchanged exactly when no reduced column maximum is zero. -/
theorem psgsequbCols_of_min_ne (nrow ncol procs : Nat) (Astore : Nat → NRformat_loc ℚ)
    (smlnum bignum : ℚ) (radix : Nat) (o : Nat → EquOut) (W : Nat → EquUninit) (iam : Nat)
    (h : (localMaxMin bignum 0 ncol (colC ncol procs Astore radix o W iam)).2 ≠ 0) :
    psgsequbCols nrow ncol procs Astore smlnum bignum radix o W iam =
      { o iam with
        c := invertScales ncol smlnum bignum (colC ncol procs Astore radix o W iam)
        colcnd := max (localMaxMin bignum 0 ncol (colC ncol procs Astore radix o W iam)).2
            smlnum /
          min (localMaxMin bignum 0 ncol (colC ncol procs Astore radix o W iam)).1 bignum
        r := gatherR procs Astore (fun q => (o q).r) W iam } := by
  rw [psgsequbCols_eq, if_neg h]

/-- A call of `psgsequb` on a matrix with rows and columns that returns `info = 0` took the
path through lines 185-188, 242-246 and 250-268. -/
theorem psgsequb_success (A : SuperMatrix) (Astore : Nat → NRformat_loc ℚ) (grid : gridinfo_t)
    (smlnum : ℚ) (radix : Nat) (init : Nat → EquOut) (W : Nat → EquUninit) (iam : Nat)
    (o : EquOut) (hnrow : 0 < A.nrow) (hncol : 0 < A.ncol) (hsml : 0 < smlnum)
    (hprocs : 0 < grid.nprow * grid.npcol)
    (hrows : ∀ q, q < grid.nprow * grid.npcol →
      (Astore q).fst_row + (Astore q).m_loc ≤ A.nrow.toNat)
    (hret : psgsequb A Astore grid smlnum radix init W iam = some o) (hinfo : o.info = 0) :
    ¬ illegalArg A ∧ rowRcmin A Astore grid smlnum radix init ≠ 0 ∧
    (localMaxMin (1 / smlnum) 0 A.ncol.toNat (colC A.ncol.toNat (grid.nprow * grid.npcol) Astore
      radix (rowOut2 A Astore grid smlnum radix init) W iam)).2 ≠ 0 ∧
    o = psgsequbCols A.nrow.toNat A.ncol.toNat (grid.nprow * grid.npcol) Astore
      smlnum (1 / smlnum) radix (rowOut2 A Astore grid smlnum radix init) W iam := by
  have hbig : (1 : ℚ) / smlnum ≠ 0 := ne_of_gt (one_div_pos.mpr hsml)
  have hlegal : ¬ illegalArg A := by
    intro h
    rw [psgsequb_illegal A Astore grid smlnum radix init W iam h] at hret
    rw [← Option.some.inj hret] at hinfo
    simp at hinfo
  have hq : ¬ (A.nrow = 0 ∨ A.ncol = 0) := by omega
  rw [psgsequb_main A Astore grid smlnum radix init W iam hlegal hq] at hret
  have hmin : rowRcmin A Astore grid smlnum radix init ≠ 0 := by
    intro hmin
    rw [if_pos hmin] at hret
    obtain ⟨q, hq1, hatt⟩ := MPI_Allreduce_MIN_attain (grid.nprow * grid.npcol)
      (fun q => (localMaxMin (1 / smlnum) (Astore q).fst_row
        ((Astore q).fst_row + (Astore q).m_loc) (rowR A Astore radix init q)).2) hprocs
    have hatt1 : (localMaxMin (1 / smlnum) (Astore q).fst_row
        ((Astore q).fst_row + (Astore q).m_loc) (rowR A Astore radix init q)).2 = 0 :=
      hatt.symm.trans hmin
    have hzero : ∃ i, i < A.nrow.toNat ∧ rowR A Astore radix init q i = 0 := by
      rcases localMaxMin_min_attain (1 / smlnum) (Astore q).fst_row
        ((Astore q).fst_row + (Astore q).m_loc) (rowR A Astore radix init q) with h | ⟨i, _, hi, h⟩
      · rw [hatt1] at h
        exact absurd h.symm hbig
      · rw [hatt1] at h
        exact ⟨i, by have := hrows q hq1; omega, h.symm⟩
    obtain ⟨i, hi, hz⟩ := hzero
    cases hf : firstZero (rowR A Astore radix init iam) A.nrow.toNat with
    | some i1 =>
      rw [hf] at hret
      rw [← Option.some.inj hret] at hinfo
      have h2 : ((i1 : Int) + 1 = 0) := hinfo
      omega
    | none =>
      rw [hf] at hret
      simp only [] at hret
      split at hret
      · exact absurd hret (by simp)
      · next hall =>
        apply hall
        exact ⟨q, hq1, fun hn => firstZero_eq_none _ _ hn i hi hz⟩
  rw [if_neg hmin] at hret
  have ho := (Option.some.inj hret).symm
  have hcmin : (localMaxMin (1 / smlnum) 0 A.ncol.toNat (colC A.ncol.toNat
      (grid.nprow * grid.npcol) Astore radix (rowOut2 A Astore grid smlnum radix init) W iam)).2
      ≠ 0 := by
    intro hc
    rw [ho, psgsequbCols_eq, if_pos hc] at hinfo
    cases hf : firstZero (colC A.ncol.toNat (grid.nprow * grid.npcol) Astore radix
        (rowOut2 A Astore grid smlnum radix init) W iam) A.ncol.toNat with
    | some j =>
      rw [hf] at hinfo
      have h2 : ((A.nrow.toNat : Int) + (j : Int) + 1 = 0) := hinfo
      omega
    | none =>
      rcases localMaxMin_min_attain (1 / smlnum) 0 A.ncol.toNat (colC A.ncol.toNat
        (grid.nprow * grid.npcol) Astore radix (rowOut2 A Astore grid smlnum radix init) W iam)
        with h | ⟨j, _, hj, h⟩
      · rw [hc] at h
        exact hbig h.symm
      · rw [hc] at h
        exact firstZero_eq_none _ _ hf j hj h.symm
  exact ⟨hlegal, hmin, hcmin, ho⟩

/-- C12, as stated, fails at the quick return of lines 120-125.  For the matrix `exNoColA`
with two rows and no column, distributed with `fst_row` equal to the prefix sums of
`m_loc`, both processes return `info = 0` with `r` as it was before the call: `R[0]` is
2000 on rank 0 and 2001 on rank 1, and 2000 is not `1 / min(max(s, smlnum), bignum)` for
any `s`, since that is at most `1/smlnum = 1024`. -/
theorem C12_quick_return_counterexample :
    ∃ o0 o1, psgsequb exNoColA exNoColStore exEquGrid (1 / 1024) 2 exNoColInit exEquW 0 = some o0 ∧
      psgsequb exNoColA exNoColStore exEquGrid (1 / 1024) 2 exNoColInit exEquW 1 = some o1 ∧
      o0.info = 0 ∧ o1.info = 0 ∧
      (∀ q, q < exEquGrid.nprow * exEquGrid.npcol →
        (exNoColStore q).fst_row = prefixSum (mLocs exNoColStore) q) ∧
      o0.r 0 = 2000 ∧ o1.r 0 = 2001 ∧ o0.r 0 ≠ o1.r 0 ∧
      ∀ s : ℚ, o0.r 0 ≠ 1 / min (max s (1 / 1024)) (1 / (1 / 1024)) := by
  have hl : ¬ illegalArg exNoColA := by decide
  have hq : exNoColA.nrow = 0 ∨ exNoColA.ncol = 0 := Or.inr rfl
  have h0 : (exNoColInit 0).r 0 = 2000 := by norm_num [exNoColInit]
  have h1 : (exNoColInit 1).r 0 = 2001 := by norm_num [exNoColInit]
  refine ⟨_, _, psgsequb_quick exNoColA exNoColStore exEquGrid (1 / 1024) 2 exNoColInit exEquW 0
    hl hq, psgsequb_quick exNoColA exNoColStore exEquGrid (1 / 1024) 2 exNoColInit exEquW 1
    hl hq, rfl, rfl, by decide, h0, h1, ?_, ?_⟩
  · show (exNoColInit 0).r 0 ≠ (exNoColInit 1).r 0
    rw [h0, h1]
    norm_num
  · intro s
    show (exNoColInit 0).r 0 ≠ _
    rw [h0]
    have hge : (1 : ℚ) / 1024 ≤ min (max s (1 / 1024)) (1 / (1 / 1024)) :=
      le_min (le_max_right _ _) (by norm_num)
    have hle : 1 / min (max s (1 / 1024)) (1 / (1 / 1024)) ≤ 1 / ((1 : ℚ) / 1024) :=
      one_div_le_one_div_of_le (by norm_num) hge
    intro h
    rw [← h] at hle
    norm_num at hle

/-- C12, amended.  For a matrix with `ncol > 0`, `smlnum > 0`, at least one process, each
process's `fst_row` equal to the sum of the `m_loc` of the lower ranks and the `m_loc`
summing to `nrow`: when `psgsequb` returns `info = 0` on one process, it returns
`info = 0` on every process, every process ends with the same `R[0 .. nrow-1]`, and every
global row `g` has an owner `q` with `R[g] = 1 / min(max(s_g, smlnum), 1/smlnum)`, where `s_g` is
the entry `g` of the array `r` of rank `q` after its row pass. -/
theorem C12_gathered_row_scales_amended (A : SuperMatrix) (Astore : Nat → NRformat_loc ℚ)
    (grid : gridinfo_t) (smlnum : ℚ) (radix : Nat) (init : Nat → EquOut)
    (W : Nat → EquUninit) (iam : Nat) (o : EquOut)
    (hncol : 0 < A.ncol) (hsml : 0 < smlnum) (hprocs : 0 < grid.nprow * grid.npcol)
    (hfst : ∀ q, q < grid.nprow * grid.npcol →
      (Astore q).fst_row = prefixSum (mLocs Astore) q)
    (hcover : (prefixSum (mLocs Astore) (grid.nprow * grid.npcol) : Int) = A.nrow)
    (hret : psgsequb A Astore grid smlnum radix init W iam = some o) (hinfo : o.info = 0) :
    ∀ iam1, ∃ o1, psgsequb A Astore grid smlnum radix init W iam1 = some o1 ∧ o1.info = 0 ∧
      ∀ g : Nat, (g : Int) < A.nrow →
        o1.r g = o.r g ∧
        ∃ q, q < grid.nprow * grid.npcol ∧ (Astore q).fst_row ≤ g ∧
          g < (Astore q).fst_row + (Astore q).m_loc ∧
          o.r g = 1 / min (max (rowR A Astore radix init q g) smlnum) (1 / smlnum) := by
  have hlegal : ¬ illegalArg A := by
    intro h
    rw [psgsequb_illegal A Astore grid smlnum radix init W iam h] at hret
    rw [← Option.some.inj hret] at hinfo
    simp at hinfo
  have hn0 : 0 ≤ A.nrow := by
    by_contra hc
    exact hlegal (Or.inl (by omega))
  intro iam1
  by_cases hnrow : A.nrow = 0
  · refine ⟨_, psgsequb_quick A Astore grid smlnum radix init W iam1 hlegal (Or.inl hnrow),
      rfl, fun g hg => ?_⟩
    omega
  have hnpos : 0 < A.nrow := by omega
  have hrows : ∀ q, q < grid.nprow * grid.npcol →
      (Astore q).fst_row + (Astore q).m_loc ≤ A.nrow.toNat := by
    intro q hq
    have h1 : prefixSum (mLocs Astore) (q + 1) ≤
        prefixSum (mLocs Astore) (grid.nprow * grid.npcol) :=
      prefixSum_mono (mLocs Astore) (Nat.succ_le_of_lt hq)
    have h2 : prefixSum (mLocs Astore) (q + 1) =
        prefixSum (mLocs Astore) q + (Astore q).m_loc := rfl
    have h3 := hfst q hq
    omega
  obtain ⟨_, hmin, hcmin, ho⟩ := psgsequb_success A Astore grid smlnum radix init W iam o
    hnpos hncol hsml hprocs hrows hret hinfo
  have hcmin1 : (localMaxMin (1 / smlnum) 0 A.ncol.toNat (colC A.ncol.toNat
      (grid.nprow * grid.npcol) Astore radix (rowOut2 A Astore grid smlnum radix init) W iam1)).2
      ≠ 0 := by
    rw [localMaxMin_congr (1 / smlnum) 0 A.ncol.toNat _ (colC A.ncol.toNat
      (grid.nprow * grid.npcol) Astore radix (rowOut2 A Astore grid smlnum radix init) W iam)
      (fun j _ hj => colC_indep _ _ _ _ _ _ iam1 iam hj)]
    exact hcmin
  have hread : ∀ k (g : Nat), (g : Int) < A.nrow →
      ∃ q, q < grid.nprow * grid.npcol ∧ (Astore q).fst_row ≤ g ∧
        g < (Astore q).fst_row + (Astore q).m_loc ∧
        (psgsequbCols A.nrow.toNat A.ncol.toNat (grid.nprow * grid.npcol) Astore
          smlnum (1 / smlnum) radix (rowOut2 A Astore grid smlnum radix init) W k).r g =
          1 / min (max (rowR A Astore radix init q g) smlnum) (1 / smlnum) ∧
        ∀ k1, (psgsequbCols A.nrow.toNat A.ncol.toNat (grid.nprow * grid.npcol) Astore
          smlnum (1 / smlnum) radix (rowOut2 A Astore grid smlnum radix init) W k1).r g =
          (psgsequbCols A.nrow.toNat A.ncol.toNat (grid.nprow * grid.npcol) Astore
          smlnum (1 / smlnum) radix (rowOut2 A Astore grid smlnum radix init) W k).r g := by
    intro k g hg
    have hg1 : g < prefixSum (mLocs Astore) (grid.nprow * grid.npcol) := by omega
    obtain ⟨q, hq, t, ht, hgt⟩ := prefixSum_find (mLocs Astore) _ g hg1
    have hf := hfst q hq
    have hgn : (Astore q).fst_row + t < A.nrow.toNat := by omega
    have hval : ∀ k2, gatherR (grid.nprow * grid.npcol) Astore
        (fun q => (rowOut2 A Astore grid smlnum radix init q).r) W k2 g =
        1 / min (max (rowR A Astore radix init q g) smlnum) (1 / smlnum) := by
      intro k2
      rw [hgt, gatherR_read (grid.nprow * grid.npcol) Astore _ W k2 hq ht]
      show invertScales A.nrow.toNat smlnum (1 / smlnum) (rowR A Astore radix init q)
        ((Astore q).fst_row + t) = _
      rw [invertScales_read, if_pos hgn, hf]
    have hcols : ∀ k2, (psgsequbCols A.nrow.toNat A.ncol.toNat (grid.nprow * grid.npcol) Astore
          smlnum (1 / smlnum) radix (rowOut2 A Astore grid smlnum radix init) W k2).r g =
        gatherR (grid.nprow * grid.npcol) Astore
        (fun q => (rowOut2 A Astore grid smlnum radix init q).r) W k2 g := by
      intro k2
      rw [psgsequbCols_eq]
      split
      · split
        · next j hj =>
          exfalso
          have hz := (firstZero_eq_some _ _ _).mp hj
          have hz1 : colC A.ncol.toNat (grid.nprow * grid.npcol) Astore radix
              (rowOut2 A Astore grid smlnum radix init) W iam j = 0 := by
            rw [colC_indep _ _ _ _ _ _ iam k2 hz.1]
            exact hz.2.1
          rcases localMaxMin_min_attain (1 / smlnum) 0 A.ncol.toNat (colC A.ncol.toNat
            (grid.nprow * grid.npcol) Astore radix (rowOut2 A Astore grid smlnum radix init) W
            iam) with h | ⟨j1, _, hj1, h⟩
          · exact hcmin1 (by
              rw [localMaxMin_congr (1 / smlnum) 0 A.ncol.toNat _ (colC A.ncol.toNat
                (grid.nprow * grid.npcol) Astore radix
                (rowOut2 A Astore grid smlnum radix init) W k2)
                (fun j _ hj => colC_indep _ _ _ _ _ _ iam1 k2 hj)]
              assumption)
          · exact hcmin1 (by
              rw [localMaxMin_congr (1 / smlnum) 0 A.ncol.toNat _ (colC A.ncol.toNat
                (grid.nprow * grid.npcol) Astore radix
                (rowOut2 A Astore grid smlnum radix init) W k2)
                (fun j _ hj => colC_indep _ _ _ _ _ _ iam1 k2 hj)]
              assumption)
        · rfl
      · rfl
    refine ⟨q, hq, by omega, by have := ht; unfold mLocs at this; omega, ?_, fun k1 => ?_⟩
    · rw [hcols k, hval k]
    · rw [hcols k1, hval k1, hcols k, hval k]
  refine ⟨psgsequbCols A.nrow.toNat A.ncol.toNat (grid.nprow * grid.npcol) Astore
      smlnum (1 / smlnum) radix (rowOut2 A Astore grid smlnum radix init) W iam1, ?_, ?_, ?_⟩
  · rw [psgsequb_main A Astore grid smlnum radix init W iam1 hlegal (by omega), if_neg hmin]
  · rw [psgsequbCols_of_min_ne _ _ _ _ _ _ _ _ _ _ hcmin1]
    rfl
  · intro g hg
    obtain ⟨q, hq, h1, h2, h3, h4⟩ := hread iam g hg
    rw [ho]
    exact ⟨h4 iam1, q, hq, h1, h2, h3⟩

/-- C12, amended, on the 2 × 2 matrix `exFullA` distributed over two processes, with radix
2 and `smlnum = 2^(-10)`: rank 0 returns `info = 0`, and so does every rank, with the same
row scale factors. -/
theorem C12_gathered_row_scales_amended_witness :
    ∃ o, psgsequb exFullA exFullStore exEquGrid (1 / 1024) 2 exEquInit exEquW 0 = some o ∧
      o.info = 0 ∧
      ∀ iam1, ∃ o1, psgsequb exFullA exFullStore exEquGrid (1 / 1024) 2 exEquInit exEquW iam1 =
          some o1 ∧ o1.info = 0 ∧
        ∀ g : Nat, (g : Int) < exFullA.nrow →
          o1.r g = o.r g ∧
          ∃ q, q < exEquGrid.nprow * exEquGrid.npcol ∧ (exFullStore q).fst_row ≤ g ∧
            g < (exFullStore q).fst_row + (exFullStore q).m_loc ∧
            o.r g = 1 / min (max (rowR exFullA exFullStore 2 exEquInit q g) (1 / 1024))
              (1 / (1 / 1024)) := by
  have h : (psgsequb exFullA exFullStore exEquGrid (1 / 1024) 2 exEquInit exEquW 0).map
      (fun o => o.info) = some 0 := by
    norm_num [psgsequb, psgsequbCols, colScales, exFullA, exEquGrid, rowScales, exFullStore,
      forLoop, forRange, write, arrN, arrQ, exEquInit, powerOfRadix_two_one, localMaxMin,
      MPI_Allreduce_MAX, MPI_Allreduce_MIN, MPI_Allreduce_MAX_vec, invertScales, firstZero]
  obtain ⟨o, ho, hi⟩ := Option.map_eq_some'.mp h
  exact ⟨o, ho, hi,
    C12_gathered_row_scales_amended exFullA exFullStore exEquGrid (1 / 1024) 2 exEquInit exEquW
      0 o (by decide) (by norm_num) (by decide) (by decide) (by decide) ho hi⟩

/-! ## Reductions and the accumulation of the column maxima -/

theorem MPI_Allreduce_MAX_ge (size : Nat) (send : Nat → ℚ) {q : Nat} (hq : q < size) :
    send q ≤ MPI_Allreduce_MAX size send := by
  unfold MPI_Allreduce_MAX
  have key : ∀ n q, q ≤ n →
      send q ≤ forLoop n (fun q acc => max acc (send (q + 1))) (send 0) := by
    intro n
    induction n with
    | zero =>
      intro q hq
      have : q = 0 := Nat.le_zero.mp hq
      subst this
      exact le_refl _
    | succ n ih =>
      intro q hq
      rw [forLoop_succ]
      rcases Nat.lt_or_ge q (n + 1) with h | h
      · exact le_trans (ih q (Nat.lt_succ_iff.mp h)) (le_max_left _ _)
      · have : q = n + 1 := Nat.le_antisymm hq h
        subst this
        exact le_max_right _ _
  exact key (size - 1) q (by omega)

theorem MPI_Allreduce_MIN_le (size : Nat) (send : Nat → ℚ) {q : Nat} (hq : q < size) :
    MPI_Allreduce_MIN size send ≤ send q := by
  unfold MPI_Allreduce_MIN
  have key : ∀ n q, q ≤ n →
      forLoop n (fun q acc => min acc (send (q + 1))) (send 0) ≤ send q := by
    intro n
    induction n with
    | zero =>
      intro q hq
      have : q = 0 := Nat.le_zero.mp hq
      subst this
      exact le_refl _
    | succ n ih =>
      intro q hq
      rw [forLoop_succ]
      rcases Nat.lt_or_ge q (n + 1) with h | h
      · exact le_trans (min_le_left _ _) (ih q (Nat.lt_succ_iff.mp h))
      · have : q = n + 1 := Nat.le_antisymm hq h
        subst this
        exact min_le_right _ _
  exact key (size - 1) q (by omega)

theorem MPI_Allreduce_MAX_attain (size : Nat) (send : Nat → ℚ) (hsize : 0 < size) :
    ∃ q, q < size ∧ MPI_Allreduce_MAX size send = send q := by
  unfold MPI_Allreduce_MAX
  have key : ∀ n, ∃ q, q < n + 1 ∧
      forLoop n (fun q acc => max acc (send (q + 1))) (send 0) = send q := by
    intro n
    induction n with
    | zero => exact ⟨0, Nat.zero_lt_one, rfl⟩
    | succ n ih =>
      obtain ⟨q, hq, he⟩ := ih
      rw [forLoop_succ]
      rcases max_choice (forLoop n (fun q acc => max acc (send (q + 1))) (send 0))
        (send (n + 1)) with h | h
      · exact ⟨q, Nat.lt_succ_of_lt hq, h.trans he⟩
      · exact ⟨n + 1, Nat.lt_succ_self _, h⟩
  obtain ⟨q, hq, he⟩ := key (size - 1)
  exact ⟨q, by omega, he⟩

/-- The pair `(rcmax, rcmin)` of lines 153-158 and 219-224: `rcmin` is below `bignum` and every
entry, `rcmax` is above 0 and every entry, and `rcmax` is 0 or one of the entries. -/
theorem localMaxMin_spec (bignum : ℚ) (lo hi : Nat) (x : Nat → ℚ) :
    (localMaxMin bignum lo hi x).2 ≤ bignum ∧
    (∀ i, lo ≤ i → i < hi → (localMaxMin bignum lo hi x).2 ≤ x i) ∧
    0 ≤ (localMaxMin bignum lo hi x).1 ∧
    (∀ i, lo ≤ i → i < hi → x i ≤ (localMaxMin bignum lo hi x).1) ∧
    ((localMaxMin bignum lo hi x).1 = 0 ∨
      ∃ i, lo ≤ i ∧ i < hi ∧ (localMaxMin bignum lo hi x).1 = x i) := by
  unfold localMaxMin forRange
  have key : ∀ n,
      (forLoop n (fun t (s : ℚ × ℚ) => (max s.1 (x (lo + t)), min s.2 (x (lo + t))))
        (0, bignum)).2 ≤ bignum ∧
      (∀ t, t < n → (forLoop n (fun t (s : ℚ × ℚ) =>
        (max s.1 (x (lo + t)), min s.2 (x (lo + t)))) (0, bignum)).2 ≤ x (lo + t)) ∧
      0 ≤ (forLoop n (fun t (s : ℚ × ℚ) => (max s.1 (x (lo + t)), min s.2 (x (lo + t))))
        (0, bignum)).1 ∧
      (∀ t, t < n → x (lo + t) ≤ (forLoop n (fun t (s : ℚ × ℚ) =>
        (max s.1 (x (lo + t)), min s.2 (x (lo + t)))) (0, bignum)).1) ∧
      ((forLoop n (fun t (s : ℚ × ℚ) => (max s.1 (x (lo + t)), min s.2 (x (lo + t))))
        (0, bignum)).1 = 0 ∨
        ∃ t, t < n ∧ (forLoop n (fun t (s : ℚ × ℚ) =>
          (max s.1 (x (lo + t)), min s.2 (x (lo + t)))) (0, bignum)).1 = x (lo + t)) := by
    intro n
    induction n with
    | zero =>
      exact ⟨le_refl _, fun t ht => absurd ht (Nat.not_lt_zero t), le_refl _,
        fun t ht => absurd ht (Nat.not_lt_zero t), Or.inl rfl⟩
    | succ n ih =>
      obtain ⟨h1, h2, h3, h4, h5⟩ := ih
      rw [forLoop_succ]
      refine ⟨le_trans (min_le_left _ _) h1, fun t ht => ?_, le_trans h3 (le_max_left _ _),
        fun t ht => ?_, ?_⟩
      · rcases Nat.lt_succ_iff_lt_or_eq.mp ht with h | h
        · exact le_trans (min_le_left _ _) (h2 t h)
        · subst h
          exact min_le_right _ _
      · rcases Nat.lt_succ_iff_lt_or_eq.mp ht with h | h
        · exact le_trans (h4 t h) (le_max_left _ _)
        · subst h
          exact le_max_right _ _
      · show max _ (x (lo + n)) = 0 ∨ ∃ t, t < n + 1 ∧ max _ (x (lo + n)) = x (lo + t)
        rcases max_choice (forLoop n (fun t (s : ℚ × ℚ) =>
          (max s.1 (x (lo + t)), min s.2 (x (lo + t)))) (0, bignum)).1 (x (lo + n)) with h | h
        · rw [h]
          rcases h5 with h6 | ⟨t, ht, h6⟩
          · exact Or.inl h6
          · exact Or.inr ⟨t, Nat.lt_succ_of_lt ht, h6⟩
        · exact Or.inr ⟨n, Nat.lt_succ_self n, h⟩
  obtain ⟨h1, h2, h3, h4, h5⟩ := key (hi - lo)
  refine ⟨h1, fun i hlo hhi => ?_, h3, fun i hlo hhi => ?_, ?_⟩
  · have := h2 (i - lo) (by omega)
    rwa [Nat.add_sub_cancel' hlo] at this
  · have := h4 (i - lo) (by omega)
    rwa [Nat.add_sub_cancel' hlo] at this
  · rcases h5 with h | ⟨t, ht, h⟩
    · exact Or.inl h
    · exact Or.inr ⟨lo + t, Nat.le_add_right _ _, by omega, h⟩

theorem powerOfRadix_pos (radix : Nat) (hr : 1 ≤ radix) (x : ℚ) : 0 < powerOfRadix radix x := by
  unfold powerOfRadix
  exact zpow_pos (by exact_mod_cast hr) _

/-! ## The store of line 200 and the accumulation of the column maxima -/

theorem floatStore_id : FloatStore (fun x => x) :=
  ⟨rfl, fun _ _ h => h, fun _ => rfl⟩

theorem floatStore_flushToZero : FloatStore flushToZero := by
  have he : (0 : ℚ) < 1 / 2 ^ 150 := by positivity
  refine ⟨?_, ?_, ?_⟩
  · unfold flushToZero
    rw [if_pos (by rw [abs_zero]; exact le_of_lt he)]
  · intro x y hxy
    unfold flushToZero
    by_cases hx : |x| ≤ 1 / 2 ^ 150
    · rw [if_pos hx]
      by_cases hy : |y| ≤ 1 / 2 ^ 150
      · rw [if_pos hy]
      · rw [if_neg hy]
        by_contra hneg
        have hy0 : y < 0 := not_le.mp hneg
        have h1 : |y| = -y := abs_of_neg hy0
        have h2 : -x ≤ |x| := neg_le_abs x
        rw [h1] at hy
        exact hy (by linarith)
    · rw [if_neg hx]
      by_cases hy : |y| ≤ 1 / 2 ^ 150
      · rw [if_pos hy]
        by_contra hneg
        have hx0 : 0 < x := not_le.mp hneg
        have h1 : |x| = x := abs_of_pos hx0
        have h2 : y ≤ |y| := le_abs_self y
        rw [h1] at hx
        exact hx (by linarith)
      · rw [if_neg hy]
        exact hxy
  · intro x
    unfold flushToZero
    by_cases hx : |x| ≤ 1 / 2 ^ 150
    · rw [if_pos hx, if_pos (by rw [abs_zero]; exact le_of_lt he)]
    · rw [if_neg hx, if_neg hx]

/-- One store of line 200 keeps a lower bound of `c[j]` that is a `float`. -/
theorem colStepFl_keeps (fl : ℚ → ℚ) (hfl : FloatStore fl) (j : Nat) (b : ℚ) (hb : fl b = b)
    (c : Nat → ℚ) (jcol : Nat) (p : ℚ) (h : b ≤ c j) :
    b ≤ write c jcol (fl (max (c jcol) p)) j := by
  by_cases hj : j = jcol
  · subst hj
    rw [write_same, ← hb]
    exact hfl.2.1 _ _ (le_trans h (le_max_left _ _))
  · rw [write_ne _ _ _ _ hj]
    exact h

/-- The loop of lines 196-203 keeps a lower bound of `c[j]` that is a `float`. -/
theorem colAccumFl_keeps (fl : ℚ → ℚ) (hfl : FloatStore fl) (A : NRformat_loc ℚ)
    (r c0 : Nat → ℚ) (f : Nat) (j : Nat) (b : ℚ) (hb : fl b = b) (h0 : b ≤ c0 j) (n : Nat) :
    b ≤ (forLoop n (fun i (s : (Nat → ℚ) × Nat) =>
      (forRange (A.rowptr i) (A.rowptr (i + 1))
        (fun t c => write c (A.colind t) (fl (max (c (A.colind t)) (|A.nzval t| * r s.2)))) s.1,
       s.2 + 1)) (c0, f)).1 j := by
  apply forLoop_inv (fun s : (Nat → ℚ) × Nat => b ≤ s.1 j)
  · exact h0
  · intro i _ s hs
    apply forRange_inv (fun c : Nat → ℚ => b ≤ c j)
    · exact hs
    · intro t c hc
      exact colStepFl_keeps fl hfl j b hb c _ _ hc

/-- The inner loop of lines 198-202 for one column `j`: `c[j]` ends at least the converted
value of every product met in column `j`, and stays 0 when it was 0 and every product
met in column `j` is stored as 0. -/
theorem colInnerFl_spec (fl : ℚ → ℚ) (hfl : FloatStore fl) (lo : Nat) (col : Nat → Nat)
    (v : Nat → ℚ) (F : Nat → (Nat → ℚ) → (Nat → ℚ))
    (hF : ∀ t c, F t c = write c (col (lo + t)) (fl (max (c (col (lo + t))) (v (lo + t)))))
    (c0 : Nat → ℚ) (j : Nat) (cnt : Nat) :
    (∀ t, t < cnt → col (lo + t) = j → fl (v (lo + t)) ≤ forLoop cnt F c0 j) ∧
    (c0 j = 0 → (∀ t, t < cnt → col (lo + t) = j → fl (max 0 (v (lo + t))) = 0) →
      forLoop cnt F c0 j = 0) := by
  induction cnt with
  | zero =>
    exact ⟨fun t ht => absurd ht (Nat.not_lt_zero t), fun h _ => h⟩
  | succ n ih =>
    obtain ⟨h1, h2⟩ := ih
    rw [forLoop_succ, hF]
    refine ⟨fun t ht hc => ?_, fun hz hv => ?_⟩
    · rcases Nat.lt_succ_iff_lt_or_eq.mp ht with h | h
      · exact colStepFl_keeps fl hfl j _ (hfl.2.2 _) _ _ _ (h1 t h hc)
      · subst h
        rw [hc, write_same]
        exact hfl.2.1 _ _ (le_max_right _ _)
    · have hprev := h2 hz (fun t ht => hv t (Nat.lt_succ_of_lt ht))
      by_cases hk : j = col (lo + n)
      · rw [← hk, write_same, hprev]
        exact hv n (Nat.lt_succ_self n) hk.symm
      · rw [write_ne _ _ _ _ hk]
        exact hprev

/-- The loop of lines 196-203 over the local rows, for one column `j`: `c[j]` ends at least
the converted product `fl(|nzval[t]| * r[irow])` of every entry `t` of column `j`, and
stays 0 when it was 0 and every entry of column `j` is stored as 0. -/
theorem colAccumFl_spec (fl : ℚ → ℚ) (hfl : FloatStore fl) (A : NRformat_loc ℚ)
    (r c0 : Nat → ℚ) (f : Nat) (j : Nat)
    (G : Nat → (Nat → ℚ) × Nat → (Nat → ℚ) × Nat)
    (hG : ∀ i s, G i s =
      (forRange (A.rowptr i) (A.rowptr (i + 1))
        (fun t c => write c (A.colind t) (fl (max (c (A.colind t)) (|A.nzval t| * r s.2)))) s.1,
       s.2 + 1))
    (n : Nat) :
    (forLoop n G (c0, f)).2 = f + n ∧
    (∀ i, i < n → ∀ t, A.rowptr i ≤ t → t < A.rowptr (i + 1) → A.colind t = j →
      fl (|A.nzval t| * r (f + i)) ≤ (forLoop n G (c0, f)).1 j) ∧
    (c0 j = 0 →
      (∀ i, i < n → ∀ t, A.rowptr i ≤ t → t < A.rowptr (i + 1) → A.colind t = j →
        fl (max 0 (|A.nzval t| * r (f + i))) = 0) →
      (forLoop n G (c0, f)).1 j = 0) := by
  induction n with
  | zero =>
    exact ⟨rfl, fun i hi => absurd hi (Nat.not_lt_zero i), fun h _ => h⟩
  | succ n ih =>
    obtain ⟨h1, h2, h3⟩ := ih
    rw [forLoop_succ, hG]
    have hin := colInnerFl_spec fl hfl (A.rowptr n) A.colind (fun t => |A.nzval t| * r (f + n))
      (fun t c => write c (A.colind (A.rowptr n + t))
        (fl (max (c (A.colind (A.rowptr n + t))) (|A.nzval (A.rowptr n + t)| * r (f + n)))))
      (fun _ _ => rfl) (forLoop n G (c0, f)).1 j (A.rowptr (n + 1) - A.rowptr n)
    have hrw : forRange (A.rowptr n) (A.rowptr (n + 1))
        (fun t c => write c (A.colind t)
          (fl (max (c (A.colind t)) (|A.nzval t| * r (forLoop n G (c0, f)).2))))
        (forLoop n G (c0, f)).1 =
        forLoop (A.rowptr (n + 1) - A.rowptr n)
          (fun t c => write c (A.colind (A.rowptr n + t))
            (fl (max (c (A.colind (A.rowptr n + t)))
              (|A.nzval (A.rowptr n + t)| * r (f + n)))))
          (forLoop n G (c0, f)).1 := by
      rw [h1]
      rfl
    obtain ⟨g1, g2⟩ := hin
    refine ⟨by show _ + 1 = _; rw [h1]; rfl, fun i hi t ht1 ht2 hc => ?_, fun hz hv => ?_⟩
    · dsimp only
      rcases Nat.lt_succ_iff_lt_or_eq.mp hi with h | h
      · exact forRange_inv (fun c : Nat → ℚ => fl (|A.nzval t| * r (f + i)) ≤ c j) _ _ _ _
          (h2 i h t ht1 ht2 hc)
          (fun t1 c hcc => colStepFl_keeps fl hfl j _ (hfl.2.2 _) c _ _ hcc)
      · subst h
        rw [hrw]
        have := g1 (t - A.rowptr i) (by omega) (by rw [Nat.add_sub_cancel' ht1]; exact hc)
        rwa [Nat.add_sub_cancel' ht1] at this
    · dsimp only
      rw [hrw]
      have hprev := h3 hz (fun i hi => hv i (Nat.lt_succ_of_lt hi))
      exact g2 hprev (fun t ht hc =>
        hv n (Nat.lt_succ_self n) (A.rowptr n + t) (Nat.le_add_right _ _) (by omega) hc)

/-- The entry `j < ncol` of `loc_max` after lines 192-214 is the running maximum `c1` of column
`j`, rounded to a power of the radix when it is positive: `c1` is not negative, it is
at least the converted product of every entry of column `j`, and it is 0 when every
entry of column `j` is stored as 0. -/
theorem colScalesFl_locmax_eq (fl : ℚ → ℚ) (hfl : FloatStore fl) (ncol radix : Nat)
    (A : NRformat_loc ℚ) (r c lm : Nat → ℚ) {j : Nat} (hj : j < ncol) :
    ∃ c1 : ℚ, (colScalesFl fl ncol radix A r c lm).2 j =
        (if c1 > 0 then powerOfRadix radix c1 else c1) ∧
      0 ≤ c1 ∧
      (∀ i, i < A.m_loc → ∀ t, A.rowptr i ≤ t → t < A.rowptr (i + 1) → A.colind t = j →
        fl (|A.nzval t| * r (A.fst_row + i)) ≤ c1) ∧
      ((∀ i, i < A.m_loc → ∀ t, A.rowptr i ≤ t → t < A.rowptr (i + 1) → A.colind t = j →
        fl (max 0 (|A.nzval t| * r (A.fst_row + i))) = 0) → c1 = 0) := by
  have hacc := colAccumFl_spec fl hfl A r (forLoop ncol (fun j c => write c j 0) c) A.fst_row j
    (fun i s => (forRange (A.rowptr i) (A.rowptr (i + 1))
        (fun t c => write c (A.colind t) (fl (max (c (A.colind t)) (|A.nzval t| * r s.2)))) s.1,
       s.2 + 1)) (fun _ _ => rfl) A.m_loc
  have hz : forLoop ncol (fun j c => write c j 0) c j = 0 := by
    rw [zeroLoop_read, if_pos hj]
  have hnn := colAccumFl_keeps fl hfl A r (forLoop ncol (fun j c => write c j 0) c) A.fst_row j
    0 hfl.1 (le_of_eq hz.symm) A.m_loc
  exact ⟨_, (colFinal_spec radix _ lm ncol).2 j hj, hnn, hacc.2.1, hacc.2.2 hz⟩

theorem colScalesFl_locmax_nonneg (fl : ℚ → ℚ) (hfl : FloatStore fl) (ncol radix : Nat)
    (hr : 1 ≤ radix) (A : NRformat_loc ℚ) (r c lm : Nat → ℚ) {j : Nat} (hj : j < ncol) :
    0 ≤ (colScalesFl fl ncol radix A r c lm).2 j := by
  obtain ⟨c1, h1, h2, _⟩ := colScalesFl_locmax_eq fl hfl ncol radix A r c lm hj
  rw [h1]
  split
  · exact le_of_lt (powerOfRadix_pos radix hr c1)
  · exact h2

theorem colScalesFl_locmax_zero (fl : ℚ → ℚ) (hfl : FloatStore fl) (ncol radix : Nat)
    (A : NRformat_loc ℚ) (r c lm : Nat → ℚ) {j : Nat} (hj : j < ncol)
    (h : ∀ i, i < A.m_loc → ∀ t, A.rowptr i ≤ t → t < A.rowptr (i + 1) → A.colind t = j →
      fl (max 0 (|A.nzval t| * r (A.fst_row + i))) = 0) :
    (colScalesFl fl ncol radix A r c lm).2 j = 0 := by
  obtain ⟨c1, h1, _, _, h3⟩ := colScalesFl_locmax_eq fl hfl ncol radix A r c lm hj
  rw [h1, h3 h]
  simp

theorem colScalesFl_locmax_pos (fl : ℚ → ℚ) (hfl : FloatStore fl) (ncol radix : Nat)
    (hr : 1 ≤ radix) (A : NRformat_loc ℚ) (r c lm : Nat → ℚ) {j : Nat} (hj : j < ncol)
    {i t : Nat} (hi : i < A.m_loc) (h1 : A.rowptr i ≤ t) (h2 : t < A.rowptr (i + 1))
    (h3 : A.colind t = j) (h4 : 0 < fl (|A.nzval t| * r (A.fst_row + i))) :
    0 < (colScalesFl fl ncol radix A r c lm).2 j := by
  obtain ⟨c1, g1, _, g2, _⟩ := colScalesFl_locmax_eq fl hfl ncol radix A r c lm hj
  have hpos : 0 < c1 := lt_of_lt_of_le h4 (g2 i hi t h1 h2 h3)
  rw [g1, if_pos hpos]
  exact powerOfRadix_pos radix hr c1

/-! ## The control flow of `psgsequbFl` -/

/-- Without conversion at line 200, `psgsequbFl` is `psgsequb`. -/
theorem psgsequbFl_exact : psgsequbFl (fun x => x) = psgsequb := rfl

theorem psgsequbFl_quick (fl : ℚ → ℚ) (A : SuperMatrix) (Astore : Nat → NRformat_loc ℚ)
    (grid : gridinfo_t) (smlnum : ℚ) (radix : Nat) (init : Nat → EquOut)
    (W : Nat → EquUninit) (iam : Nat)
    (h : ¬ illegalArg A) (hq : A.nrow = 0 ∨ A.ncol = 0) :
    psgsequbFl fl A Astore grid smlnum radix init W iam =
      some { init iam with info := 0, rowcnd := 1, colcnd := 1, amax := 0 } := by
  unfold illegalArg at h
  unfold psgsequbFl
  rw [if_neg h, if_pos hq]

/-- The routine `psgsequbFl` past the quick return, in terms of the quantities of the row
pass. -/
theorem psgsequbFl_main (fl : ℚ → ℚ) (A : SuperMatrix) (Astore : Nat → NRformat_loc ℚ)
    (grid : gridinfo_t) (smlnum : ℚ) (radix : Nat) (init : Nat → EquOut)
    (W : Nat → EquUninit) (iam : Nat)
    (h : ¬ illegalArg A) (hq : ¬ (A.nrow = 0 ∨ A.ncol = 0)) :
    psgsequbFl fl A Astore grid smlnum radix init W iam =
      if rowRcmin A Astore grid smlnum radix init = 0 then
        match firstZero (rowR A Astore radix init iam) A.nrow.toNat with
        | some i => some { rowOut1 A Astore grid smlnum radix init iam with info := (i : Int) + 1 }
        | none =>
          if ∃ q, q < grid.nprow * grid.npcol ∧
              firstZero (rowR A Astore radix init q) A.nrow.toNat ≠ none then none
          else some (psgsequbColsFl fl A.nrow.toNat A.ncol.toNat (grid.nprow * grid.npcol)
            Astore smlnum (1 / smlnum) radix (rowOut1 A Astore grid smlnum radix init) W iam)
      else some (psgsequbColsFl fl A.nrow.toNat A.ncol.toNat (grid.nprow * grid.npcol) Astore
        smlnum (1 / smlnum) radix (rowOut2 A Astore grid smlnum radix init) W iam) := by
  unfold illegalArg at h
  unfold psgsequbFl
  rw [if_neg h, if_neg hq]
  rfl

theorem psgsequbColsFl_eq (fl : ℚ → ℚ) (nrow ncol procs : Nat) (Astore : Nat → NRformat_loc ℚ)
    (smlnum bignum : ℚ) (radix : Nat) (o : Nat → EquOut) (W : Nat → EquUninit) (iam : Nat) :
    psgsequbColsFl fl nrow ncol procs Astore smlnum bignum radix o W iam =
      if (localMaxMin bignum 0 ncol (colCFl fl ncol procs Astore radix o W iam)).2 = 0 then
        match firstZero (colCFl fl ncol procs Astore radix o W iam) ncol with
        | some j => { o iam with
            c := colCFl fl ncol procs Astore radix o W iam, info := (nrow : Int) + j + 1 }
        | none => { o iam with
            c := colCFl fl ncol procs Astore radix o W iam
            r := gatherR procs Astore (fun q => (o q).r) W iam }
      else
        { o iam with
          c := invertScales ncol smlnum bignum (colCFl fl ncol procs Astore radix o W iam)
          colcnd := max (localMaxMin bignum 0 ncol (colCFl fl ncol procs Astore radix o W iam)).2
              smlnum /
            min (localMaxMin bignum 0 ncol (colCFl fl ncol procs Astore radix o W iam)).1 bignum
          r := gatherR procs Astore (fun q => (o q).r) W iam } := rfl

/-- The value of `info` after lines 191-273: unchanged, or `nrow + j + 1` for a column `j`. -/
theorem psgsequbColsFl_info (fl : ℚ → ℚ) (nrow ncol procs : Nat)
    (Astore : Nat → NRformat_loc ℚ) (smlnum bignum : ℚ) (radix : Nat) (o : Nat → EquOut)
    (W : Nat → EquUninit) (iam : Nat) :
    (psgsequbColsFl fl nrow ncol procs Astore smlnum bignum radix o W iam).info = (o iam).info ∨
    ∃ j : Nat, j < ncol ∧
      (psgsequbColsFl fl nrow ncol procs Astore smlnum bignum radix o W iam).info =
        (nrow : Int) + j + 1 := by
  rw [psgsequbColsFl_eq]
  split
  · cases hf : firstZero (colCFl fl ncol procs Astore radix o W iam) ncol with
    | some j => exact Or.inr ⟨j, ((firstZero_eq_some _ _ _).mp hf).1, rfl⟩
    | none => exact Or.inl rfl
  · exact Or.inl rfl

/-- With legal arguments `info` is 0, a row index in `1 .. nrow`, or `nrow` plus a column
index in `1 .. ncol`, whatever the conversion of line 200. -/
theorem psgsequbFl_info_range (fl : ℚ → ℚ) (A : SuperMatrix) (Astore : Nat → NRformat_loc ℚ)
    (grid : gridinfo_t) (smlnum : ℚ) (radix : Nat) (init : Nat → EquOut)
    (W : Nat → EquUninit) (iam : Nat) (o : EquOut) (h : ¬ illegalArg A)
    (hret : psgsequbFl fl A Astore grid smlnum radix init W iam = some o) :
    o.info = 0 ∨ (1 ≤ o.info ∧ o.info ≤ A.nrow) ∨
      (A.nrow + 1 ≤ o.info ∧ o.info ≤ A.nrow + A.ncol) := by
  have hn : 0 ≤ A.nrow := by
    by_contra hc
    exact h (Or.inl (by omega))
  have hm : 0 ≤ A.ncol := by
    by_contra hc
    exact h (Or.inr (Or.inl (by omega)))
  by_cases hq : A.nrow = 0 ∨ A.ncol = 0
  · rw [psgsequbFl_quick fl A Astore grid smlnum radix init W iam h hq] at hret
    rw [← Option.some.inj hret]
    exact Or.inl rfl
  · rw [psgsequbFl_main fl A Astore grid smlnum radix init W iam h hq] at hret
    have hcols : ∀ o1 : Nat → EquOut, (o1 iam).info = 0 →
        o = psgsequbColsFl fl A.nrow.toNat A.ncol.toNat (grid.nprow * grid.npcol) Astore
          smlnum (1 / smlnum) radix o1 W iam →
        o.info = 0 ∨ (1 ≤ o.info ∧ o.info ≤ A.nrow) ∨
          (A.nrow + 1 ≤ o.info ∧ o.info ≤ A.nrow + A.ncol) := by
      intro o1 h1 ho
      rcases psgsequbColsFl_info fl A.nrow.toNat A.ncol.toNat (grid.nprow * grid.npcol) Astore
        smlnum (1 / smlnum) radix o1 W iam with e | ⟨j, hj, e⟩
      · rw [ho, e, h1]
        exact Or.inl rfl
      · rw [ho, e]
        refine Or.inr (Or.inr ⟨?_, ?_⟩) <;> omega
    split at hret
    · cases hf : firstZero (rowR A Astore radix init iam) A.nrow.toNat with
      | some i =>
        rw [hf] at hret
        have hi := ((firstZero_eq_some _ _ _).mp hf).1
        rw [← Option.some.inj hret]
        refine Or.inr (Or.inl ⟨?_, ?_⟩)
        · show (1 : Int) ≤ (i : Int) + 1
          omega
        · show (i : Int) + 1 ≤ A.nrow
          omega
      | none =>
        rw [hf] at hret
        simp only [] at hret
        split at hret
        · exact absurd hret (by simp)
        · exact hcols _ rfl (Option.some.inj hret).symm
    · exact hcols _ rfl (Option.some.inj hret).symm

/-! ## Claims on the detection of a zero column -/

/-- The column that `psgsequb` reports.  For a matrix with legal metadata and `nrow > 0`, with
`smlnum > 0`, `radix ≥ 1`, at least one process and every process's rows below `nrow`:
when every local row stores a non-zero value, every entry of column `j < ncol` is stored
as 0 at line 200 and every column before `j` keeps a positive entry, every process
returns `info = nrow + j + 1`. -/
theorem psgsequbFl_zero_column (fl : ℚ → ℚ) (A : SuperMatrix)
    (Astore : Nat → NRformat_loc ℚ)
    (grid : gridinfo_t) (smlnum : ℚ) (radix : Nat) (init : Nat → EquOut)
    (W : Nat → EquUninit) (j : Nat) (hfl : FloatStore fl)
    (hlegal : ¬ illegalArg A) (hnrow : 0 < A.nrow) (hsml : 0 < smlnum) (hradix : 1 ≤ radix)
    (hprocs : 0 < grid.nprow * grid.npcol)
    (hrows : ∀ q, q < grid.nprow * grid.npcol →
      ((Astore q).fst_row + (Astore q).m_loc : Int) ≤ A.nrow)
    (hnz : ∀ q, q < grid.nprow * grid.npcol → ∀ i, i < (Astore q).m_loc →
      RowHasNonzero (Astore q) i)
    (hj : (j : Int) < A.ncol)
    (hlost : ColLost fl (grid.nprow * grid.npcol) A Astore smlnum radix init j)
    (hfirst : ∀ k, k < j →
      ColKept fl (grid.nprow * grid.npcol) A Astore smlnum radix init k) :
    ∀ iam, ∃ o, psgsequbFl fl A Astore grid smlnum radix init W iam = some o ∧
      o.info = A.nrow + j + 1 ∧ A.nrow + 1 ≤ o.info ∧ o.info ≤ A.nrow + A.ncol := by
  intro iam
  have hbigpos : (0 : ℚ) < 1 / smlnum := one_div_pos.mpr hsml
  have hrows1 : ∀ q, q < grid.nprow * grid.npcol →
      (Astore q).fst_row + (Astore q).m_loc ≤ A.nrow.toNat := by
    intro q hq
    have := hrows q hq
    omega
  have hj1 : j < A.ncol.toNat := by omega
  -- the row scales of the owned rows are positive
  have hrpos : ∀ q, q < grid.nprow * grid.npcol → ∀ i, i < (Astore q).m_loc →
      0 < rowR A Astore radix init q ((Astore q).fst_row + i) := by
    intro q hq i hi
    unfold rowR
    rw [rowScales_owned _ _ _ _ hi (hrows1 q hq)]
    obtain ⟨t, h1, h2, h3⟩ := hnz q hq i hi
    have hm : 0 < rowMax (Astore q) i :=
      lt_of_lt_of_le (abs_pos.mpr h3) (rowMax_ge _ _ h1 h2)
    rw [if_pos hm]
    exact powerOfRadix_pos radix hradix _
  have hmin : rowRcmin A Astore grid smlnum radix init ≠ 0 := by
    obtain ⟨q, hq, hatt⟩ := MPI_Allreduce_MIN_attain (grid.nprow * grid.npcol)
      (fun q => (localMaxMin (1 / smlnum) (Astore q).fst_row
        ((Astore q).fst_row + (Astore q).m_loc) (rowR A Astore radix init q)).2) hprocs
    have hatt1 : rowRcmin A Astore grid smlnum radix init =
        (localMaxMin (1 / smlnum) (Astore q).fst_row
          ((Astore q).fst_row + (Astore q).m_loc) (rowR A Astore radix init q)).2 := hatt
    rw [hatt1]
    rcases localMaxMin_min_attain (1 / smlnum) (Astore q).fst_row
      ((Astore q).fst_row + (Astore q).m_loc) (rowR A Astore radix init q) with h | ⟨i, h1, h2, h⟩
    · rw [h]
      exact ne_of_gt hbigpos
    · rw [h]
      have := hrpos q hq (i - (Astore q).fst_row) (by omega)
      rw [Nat.add_sub_cancel' h1] at this
      exact ne_of_gt this
  -- the inverted scale of an owned row
  have hinv : ∀ q, q < grid.nprow * grid.npcol → ∀ i, i < (Astore q).m_loc →
      (rowOut2 A Astore grid smlnum radix init q).r ((Astore q).fst_row + i) =
        1 / min (max (rowR A Astore radix init q ((Astore q).fst_row + i)) smlnum)
          (1 / smlnum) := by
    intro q hq i hi
    show invertScales A.nrow.toNat smlnum (1 / smlnum) (rowR A Astore radix init q)
      ((Astore q).fst_row + i) = _
    rw [invertScales_read, if_pos (by have := hrows1 q hq; omega)]
  -- the reduced column maxima
  have hcval : ∀ k, k < A.ncol.toNat →
      colCFl fl A.ncol.toNat (grid.nprow * grid.npcol) Astore radix
        (rowOut2 A Astore grid smlnum radix init) W iam k =
      MPI_Allreduce_MAX (grid.nprow * grid.npcol) (fun q =>
        (colScalesFl fl A.ncol.toNat radix (Astore q)
          (rowOut2 A Astore grid smlnum radix init q).r
          (rowOut2 A Astore grid smlnum radix init q).c (W q).loc_max).2 k) := by
    intro k hk
    unfold colCFl
    rw [MPI_Allreduce_MAX_vec_read, if_pos hk]
  have hcj : colCFl fl A.ncol.toNat (grid.nprow * grid.npcol) Astore radix
      (rowOut2 A Astore grid smlnum radix init) W iam j = 0 := by
    rw [hcval j hj1]
    obtain ⟨q, hq, hatt⟩ := MPI_Allreduce_MAX_attain (grid.nprow * grid.npcol) (fun q =>
        (colScalesFl fl A.ncol.toNat radix (Astore q)
          (rowOut2 A Astore grid smlnum radix init q).r
          (rowOut2 A Astore grid smlnum radix init q).c (W q).loc_max).2 j) hprocs
    exact hatt.trans (colScalesFl_locmax_zero fl hfl _ _ _ _ _ _ hj1
      (fun i hi t h1 h2 h3 => by
        rw [hinv q hq i hi]
        exact hlost q hq i hi t h1 h2 h3))
  have hck : ∀ k, k < j → 0 < colCFl fl A.ncol.toNat (grid.nprow * grid.npcol) Astore radix
      (rowOut2 A Astore grid smlnum radix init) W iam k := by
    intro k hk
    have hk1 : k < A.ncol.toNat := by omega
    rw [hcval k hk1]
    obtain ⟨q, hq, i, hi, t, h1, h2, h3, h4⟩ := hfirst k hk
    rw [← hinv q hq i hi] at h4
    exact lt_of_lt_of_le
      (colScalesFl_locmax_pos fl hfl A.ncol.toNat radix hradix (Astore q) _ _ _ hk1 hi h1 h2 h3
        h4)
      (MPI_Allreduce_MAX_ge (grid.nprow * grid.npcol) (fun q =>
        (colScalesFl fl A.ncol.toNat radix (Astore q)
          (rowOut2 A Astore grid smlnum radix init q).r
          (rowOut2 A Astore grid smlnum radix init q).c (W q).loc_max).2 k) hq)
  have hcnn : ∀ k, k < A.ncol.toNat → 0 ≤ colCFl fl A.ncol.toNat (grid.nprow * grid.npcol)
      Astore radix (rowOut2 A Astore grid smlnum radix init) W iam k := by
    intro k hk
    rw [hcval k hk]
    obtain ⟨q, hq, hatt⟩ := MPI_Allreduce_MAX_attain (grid.nprow * grid.npcol) (fun q =>
        (colScalesFl fl A.ncol.toNat radix (Astore q)
          (rowOut2 A Astore grid smlnum radix init q).r
          (rowOut2 A Astore grid smlnum radix init q).c (W q).loc_max).2 k) hprocs
    rw [hatt]
    exact colScalesFl_locmax_nonneg fl hfl A.ncol.toNat radix hradix (Astore q) _ _ _ hk
  have hcmin : (localMaxMin (1 / smlnum) 0 A.ncol.toNat (colCFl fl A.ncol.toNat
      (grid.nprow * grid.npcol) Astore radix (rowOut2 A Astore grid smlnum radix init) W iam)).2
      = 0 := by
    apply le_antisymm
    · have := (localMaxMin_spec (1 / smlnum) 0 A.ncol.toNat (colCFl fl A.ncol.toNat
        (grid.nprow * grid.npcol) Astore radix (rowOut2 A Astore grid smlnum radix init) W
        iam)).2.1 j (Nat.zero_le j) hj1
      rw [hcj] at this
      exact this
    · rcases localMaxMin_min_attain (1 / smlnum) 0 A.ncol.toNat (colCFl fl A.ncol.toNat
        (grid.nprow * grid.npcol) Astore radix (rowOut2 A Astore grid smlnum radix init) W iam)
        with h | ⟨k, _, hk, h⟩
      · rw [h]
        exact le_of_lt hbigpos
      · rw [h]
        exact hcnn k hk
  have hfz : firstZero (colCFl fl A.ncol.toNat (grid.nprow * grid.npcol) Astore radix
      (rowOut2 A Astore grid smlnum radix init) W iam) A.ncol.toNat = some j :=
    (firstZero_eq_some _ _ _).mpr ⟨hj1, hcj, fun k hk => ne_of_gt (hck k hk)⟩
  have hinfo : (psgsequbColsFl fl A.nrow.toNat A.ncol.toNat (grid.nprow * grid.npcol) Astore
      smlnum (1 / smlnum) radix (rowOut2 A Astore grid smlnum radix init) W iam).info =
      (A.nrow.toNat : Int) + j + 1 := by
    rw [psgsequbColsFl_eq, if_pos hcmin, hfz]
  refine ⟨psgsequbColsFl fl A.nrow.toNat A.ncol.toNat (grid.nprow * grid.npcol) Astore
      smlnum (1 / smlnum) radix (rowOut2 A Astore grid smlnum radix init) W iam, ?_, ?_, ?_, ?_⟩
  · rw [psgsequbFl_main fl A Astore grid smlnum radix init W iam hlegal (by omega),
      if_neg hmin]
  · rw [hinfo]
    omega
  · rw [hinfo]
    omega
  · rw [hinfo]
    omega


theorem powerOfRadix_two_pow_hundred : powerOfRadix 2 (2 ^ 100) = 2 ^ 100 := by
  unfold powerOfRadix
  rw [iexpOf_of_one_le 2 (by norm_num)]
  have h1 : ⌊((2 : ℚ) ^ 100)⌋₊ = 2 ^ 100 := by
    have : ((2 : ℚ) ^ 100) = ((2 ^ 100 : ℕ) : ℚ) := by norm_num
    rw [this, Nat.floor_natCast]
  have h2 : Nat.log 2 (2 ^ 100) = 100 := Nat.log_pow (by norm_num) 100
  rw [h1, h2, h2]
  norm_num

theorem rowMax_exUnderStore_zero : rowMax (exUnderStore 0) 0 = 2 ^ 100 := by
  norm_num [rowMax, rowMaxFrom, exUnderStore, arrN, arrQ, forRange, forLoop, abs_of_nonneg]

theorem rowR_exUnderStore_zero :
    rowR exUnderA exUnderStore 2 exEquInit 0 ((exUnderStore 0).fst_row + 0) = 2 ^ 100 := by
  unfold rowR
  rw [rowScales_owned _ _ _ _ (by decide) (by decide), rowMax_exUnderStore_zero,
    if_pos (by positivity), powerOfRadix_two_pow_hundred]

/-- C11, as stated, fails in two ways.  At the quick return of lines 120-125: the matrix
`exEmptyA` has legal metadata, no rows and one column, so every row has a non-zero value,
vacuously, and column 0 has none; the claim gives `info = nrow + 0 + 1 = 1` and `psgsequb`
returns `info = 0`, whatever the conversion at line 200.  At the store of line 200: in
the 2 × 3 matrix of `exUnderStore` row 0 is `(0: 2^100), (1: 2^(-100))`, row 1 is `(0: 1)`,
and column 2 is the first column without a non-zero value, so the claim gives
`info = 2 + 2 + 1`; with radix 2 and `smlnum = 2^(-126)` the factor of row 0 is `2^(-100)`,
the product `2^(-200)` of column 1 underflows to 0 in the store, and `psgsequb` returns
`info = 2 + 1 + 1`. -/
theorem C11_zero_column_counterexample :
    (¬ illegalArg exEmptyA ∧
      (∀ q, q < exEquGrid.nprow * exEquGrid.npcol → ∀ i, i < (exEmptyStore q).m_loc →
        RowHasNonzero (exEmptyStore q) i) ∧
      (0 : Int) < exEmptyA.ncol ∧
      ColEmpty (exEquGrid.nprow * exEquGrid.npcol) exEmptyStore 0 ∧
      ∀ fl : ℚ → ℚ,
        ∃ o, psgsequbFl fl exEmptyA exEmptyStore exEquGrid (1 / 1024) 2 exEquInit exEquW 0 =
            some o ∧
          o.info = 0 ∧ o.info ≠ exEmptyA.nrow + (0 : Nat) + 1) ∧
    (¬ illegalArg exUnderA ∧
      (∀ q, q < exOneGrid.nprow * exOneGrid.npcol → ∀ i, i < (exUnderStore q).m_loc →
        RowHasNonzero (exUnderStore q) i) ∧
      ((2 : Nat) : Int) < exUnderA.ncol ∧
      ColEmpty (exOneGrid.nprow * exOneGrid.npcol) exUnderStore 2 ∧
      (∀ k, k < 2 → ¬ ColEmpty (exOneGrid.nprow * exOneGrid.npcol) exUnderStore k) ∧
      ∃ o, psgsequbFl flushToZero exUnderA exUnderStore exOneGrid (1 / 2 ^ 126) 2 exEquInit
          exEquW 0 = some o ∧
        o.info = exUnderA.nrow + (1 : Nat) + 1 ∧ o.info ≠ exUnderA.nrow + (2 : Nat) + 1) := by
  have hl : ¬ illegalArg exEmptyA := by decide
  have hnz0 : (exUnderStore 0).nzval 0 ≠ 0 := by norm_num [exUnderStore, arrQ]
  have hnz1 : (exUnderStore 0).nzval 1 ≠ 0 := by norm_num [exUnderStore, arrQ]
  have hnz2 : (exUnderStore 0).nzval 2 ≠ 0 := by norm_num [exUnderStore, arrQ]
  have hrowsNZ : ∀ q, q < exOneGrid.nprow * exOneGrid.npcol → ∀ i, i < (exUnderStore q).m_loc →
      RowHasNonzero (exUnderStore q) i := by
    intro q hq i hi
    have hq1 : q < 1 := hq
    have hi2 : i < 2 := hi
    interval_cases q
    interval_cases i
    · exact ⟨0, by decide, by decide, hnz0⟩
    · exact ⟨2, by decide, by decide, hnz2⟩
  refine ⟨⟨hl, fun q _ i hi => absurd hi (Nat.not_lt_zero i), by decide,
    fun q _ i hi => absurd hi (Nat.not_lt_zero i), fun fl =>
    ⟨_, psgsequbFl_quick fl exEmptyA exEmptyStore exEquGrid (1 / 1024) 2 exEquInit exEquW 0 hl
      (Or.inl rfl), rfl, ?_⟩⟩, by decide, hrowsNZ, by decide, ?_, ?_, ?_⟩
  · show (0 : Int) ≠ exEmptyA.nrow + (0 : Nat) + 1
    decide
  · intro q hq i hi t h1 h2 h3
    exfalso
    have hq1 : q < 1 := hq
    have hi2 : i < 2 := hi
    interval_cases q
    interval_cases i
    · have ht : t < 2 := h2
      interval_cases t <;> exact absurd h3 (by decide)
    · have ht1 : 2 ≤ t := h1
      have ht2 : t < 3 := h2
      interval_cases t
      exact absurd h3 (by decide)
  · intro k hk h
    interval_cases k
    · exact hnz0 (h 0 (by decide) 0 (by decide) 0 (by decide) (by decide) (by decide))
    · exact hnz1 (h 0 (by decide) 0 (by decide) 1 (by decide) (by decide) (by decide))
  · obtain ⟨o, ho, hi, _⟩ := psgsequbFl_zero_column flushToZero exUnderA exUnderStore exOneGrid
      (1 / 2 ^ 126) 2 exEquInit exEquW 1 floatStore_flushToZero (by decide) (by decide)
      (by positivity) (by decide) (by decide)
      (by
        intro q hq
        have hq1 : q < 1 := hq
        interval_cases q
        decide)
      hrowsNZ (by decide)
      (by
        intro q hq i hi t h1 h2 h3
        have hq1 : q < 1 := hq
        have hi2 : i < 2 := hi
        interval_cases q
        interval_cases i
        · have ht : t < 2 := h2
          interval_cases t
          · exact absurd h3 (by decide)
          · rw [rowR_exUnderStore_zero]
            norm_num [flushToZero, exUnderStore, arrQ, abs_of_nonneg]
        · have ht1 : 2 ≤ t := h1
          have ht2 : t < 3 := h2
          interval_cases t
          exact absurd h3 (by decide))
      (by
        intro k hk
        have hk0 : k = 0 := Nat.lt_one_iff.mp hk
        subst hk0
        refine ⟨0, by decide, 0, by decide, 0, by decide, by decide, by decide, ?_⟩
        rw [rowR_exUnderStore_zero]
        norm_num [flushToZero, exUnderStore, arrQ, abs_of_nonneg]) 0
    refine ⟨o, ho, hi, ?_⟩
    rw [hi]
    decide

/-- C11, amended.  For a matrix with legal metadata and `nrow > 0`, with `smlnum > 0`,
`radix ≥ 1`, at least one process, every process's rows below `nrow`, and a conversion
`fl` to `float` at the store of line 200 that keeps 0, is monotone and keeps a `float`:
when every local row of every process stores a non-zero value, column `j < ncol` has no
non-zero value on any process, and every column before `j` has an entry whose scaled
magnitude `|A(i,k)| * R(i)` does not underflow to 0 in that store, `psgsequb` returns
`info = nrow + j + 1` on every process, a value in `nrow+1 .. nrow+ncol`.  And whenever
`psgsequb` returns with legal metadata, `info` is 0, in `1 .. nrow`, or in
`nrow+1 .. nrow+ncol`. -/
theorem C11_zero_column_amended (fl : ℚ → ℚ) (A : SuperMatrix)
    (Astore : Nat → NRformat_loc ℚ)
    (grid : gridinfo_t) (smlnum : ℚ) (radix : Nat) (init : Nat → EquOut)
    (W : Nat → EquUninit) (j : Nat) (hfl : FloatStore fl)
    (hlegal : ¬ illegalArg A) (hnrow : 0 < A.nrow) (hsml : 0 < smlnum) (hradix : 1 ≤ radix)
    (hprocs : 0 < grid.nprow * grid.npcol)
    (hrows : ∀ q, q < grid.nprow * grid.npcol →
      ((Astore q).fst_row + (Astore q).m_loc : Int) ≤ A.nrow)
    (hnz : ∀ q, q < grid.nprow * grid.npcol → ∀ i, i < (Astore q).m_loc →
      RowHasNonzero (Astore q) i)
    (hj : (j : Int) < A.ncol) (hempty : ColEmpty (grid.nprow * grid.npcol) Astore j)
    (hfirst : ∀ k, k < j →
      ColKept fl (grid.nprow * grid.npcol) A Astore smlnum radix init k) :
    (∀ iam, ∃ o, psgsequbFl fl A Astore grid smlnum radix init W iam = some o ∧
      o.info = A.nrow + j + 1 ∧ A.nrow + 1 ≤ o.info ∧ o.info ≤ A.nrow + A.ncol) ∧
    (∀ iam o, psgsequbFl fl A Astore grid smlnum radix init W iam = some o →
      o.info = 0 ∨ (1 ≤ o.info ∧ o.info ≤ A.nrow) ∨
        (A.nrow + 1 ≤ o.info ∧ o.info ≤ A.nrow + A.ncol)) := by
  refine ⟨?_, fun iam o hret =>
    psgsequbFl_info_range fl A Astore grid smlnum radix init W iam o hlegal hret⟩
  apply psgsequbFl_zero_column fl A Astore grid smlnum radix init W j hfl hlegal hnrow hsml
    hradix hprocs hrows hnz hj ?_ hfirst
  -- an entry 0 is stored as 0
  intro q hq i hi t h1 h2 h3
  rw [hempty q hq i hi t h1 h2 h3, abs_zero, zero_mul, max_self]
  exact hfl.1

/-- C11, amended, on the 2 × 2 matrix of `exZeroColStore`, whose rows both are `(0: 1)`, with
the conversion `flushToZero`: column 0 keeps the product 1, column 1 is empty, and
rank 1 returns `info = 2 + 1 + 1`. -/
theorem C11_zero_column_amended_witness :
    ∃ o, psgsequbFl flushToZero exFullA exZeroColStore exEquGrid (1 / 1024) 2 exEquInit exEquW
        1 = some o ∧
      o.info = exFullA.nrow + (1 : Nat) + 1 ∧ exFullA.nrow + 1 ≤ o.info ∧
      o.info ≤ exFullA.nrow + exFullA.ncol :=
  (C11_zero_column_amended flushToZero exFullA exZeroColStore exEquGrid (1 / 1024) 2 exEquInit
    exEquW 1 floatStore_flushToZero
    (by decide) (by decide) (by norm_num) (by decide) (by decide)
    (by
      intro q hq
      have hq2 : q < 2 := hq
      interval_cases q <;> decide)
    (by
      intro q hq i hi
      have hq2 : q < 2 := hq
      refine ⟨0, ?_⟩
      interval_cases q
      · have hi0 : i = 0 := Nat.lt_one_iff.mp hi
        subst hi0
        norm_num [exZeroColStore, arrN, arrQ]
      · have hi0 : i = 0 := Nat.lt_one_iff.mp hi
        subst hi0
        norm_num [exZeroColStore, arrN, arrQ])
    (by decide)
    (by
      intro q hq i hi t h1 h2 h3
      have hq2 : q < 2 := hq
      exfalso
      interval_cases q
      · have hi0 : i = 0 := Nat.lt_one_iff.mp hi
        subst hi0
        have ht : t = 0 := Nat.lt_one_iff.mp h2
        subst ht
        exact absurd h3 (by decide)
      · have hi0 : i = 0 := Nat.lt_one_iff.mp hi
        subst hi0
        have ht : t = 0 := Nat.lt_one_iff.mp h2
        subst ht
        exact absurd h3 (by decide))
    (by
      intro k hk
      have hk0 : k = 0 := Nat.lt_one_iff.mp hk
      subst hk0
      refine ⟨0, by decide, 0, by decide, 0, by decide, by decide, by decide, ?_⟩
      norm_num [flushToZero, rowR, exFullA, rowScales, exZeroColStore, forLoop, forRange, write,
        arrN, arrQ, exEquInit, powerOfRadix_two_one])).1 1

/-! ## The condition estimates -/

/-- The ratio `max(mn, sml) / min(mx, big)` of lines 187 and 244, for scales `s` whose smallest
is `mn` (capped by `big`) and whose largest is `mx ≥ sml`, is the ratio of the smallest to
the largest of the factors `1 / min(max(s, sml), big)`. -/
theorem condRatio_spec (sml big : ℚ) (hs : 0 < sml) (hsb : sml ≤ big) (n : Nat)
    (s R : Nat → ℚ) (mn mx : ℚ)
    (hR : ∀ g, g < n → R g = 1 / min (max (s g) sml) big)
    (hmn_big : mn ≤ big) (hmn_le : ∀ g, g < n → mn ≤ s g)
    (hmn_att : mn = big ∨ ∃ g, g < n ∧ mn = s g)
    (hmx_ge : ∀ g, g < n → s g ≤ mx) (hmx_att : mx = 0 ∨ ∃ g, g < n ∧ mx = s g)
    (hn : 0 < n) (hbig : sml ≤ mx) :
    ∃ i1 i2, i1 < n ∧ i2 < n ∧ (∀ g, g < n → R i1 ≤ R g ∧ R g ≤ R i2) ∧
      max mn sml / min mx big = R i1 / R i2 ∧
      max mn sml = min (max (s i2) sml) big ∧ min mx big = min (max (s i1) sml) big ∧
      0 < max mn sml / min mx big ∧ max mn sml / min mx big ≤ 1 := by
  have hbpos : 0 < big := lt_of_lt_of_le hs hsb
  have hcpos : ∀ x : ℚ, 0 < min (max x sml) big :=
    fun x => lt_min (lt_of_lt_of_le hs (le_max_right _ _)) hbpos
  have hmono : ∀ x y : ℚ, x ≤ y → min (max x sml) big ≤ min (max y sml) big :=
    fun x y h => min_le_min (max_le_max h (le_refl _)) (le_refl _)
  have k1 : max mn sml = min (max mn sml) big := (min_eq_left (max_le hmn_big hsb)).symm
  have k2 : min mx big = min (max mx sml) big := by rw [max_eq_left hbig]
  obtain ⟨i1, hi1, e1⟩ : ∃ g, g < n ∧ mx = s g := by
    rcases hmx_att with h | h
    · rw [h] at hbig
      exact absurd hs (not_lt.mpr hbig)
    · exact h
  obtain ⟨i2, hi2, e2⟩ : ∃ g, g < n ∧ min (max mn sml) big = min (max (s g) sml) big := by
    rcases hmn_att with h | ⟨g, hg, h⟩
    · refine ⟨0, hn, le_antisymm (hmono _ _ (hmn_le 0 hn)) ?_⟩
      rw [h, max_eq_left hsb, min_self]
      exact min_le_right _ _
    · exact ⟨g, hg, by rw [h]⟩
  have hle : min (max mn sml) big ≤ min (max mx sml) big :=
    le_trans (hmono _ _ (hmn_le 0 hn)) (hmono _ _ (hmx_ge 0 hn))
  refine ⟨i1, i2, hi1, hi2, fun g hg => ?_, ?_, k1.trans e2, by rw [k2, e1], ?_, ?_⟩
  · rw [hR i1 hi1, hR g hg, hR i2 hi2, ← e1, ← e2]
    exact ⟨one_div_le_one_div_of_le (hcpos _) (hmono _ _ (hmx_ge g hg)),
      one_div_le_one_div_of_le (hcpos _) (hmono _ _ (hmn_le g hg))⟩
  · rw [hR i1 hi1, hR i2 hi2, ← e1, ← e2, ← k1, ← k2]
    have h1 : max mn sml ≠ 0 := ne_of_gt (k1 ▸ hcpos mn)
    have h2 : min mx big ≠ 0 := ne_of_gt (k2 ▸ hcpos mx)
    field_simp
  · rw [k1, k2]
    exact div_pos (hcpos _) (hcpos _)
  · rw [k1, k2]
    exact (div_le_one (hcpos _)).mpr hle

/-- After a call of `psgsequb` that returns `info = 0` on a matrix distributed by prefix
sums, entry `g` of `r` is the inverted clamped scale its owner computed for row `g`. -/
theorem psgsequb_success_rows (A : SuperMatrix) (Astore : Nat → NRformat_loc ℚ)
    (grid : gridinfo_t) (smlnum : ℚ) (radix : Nat) (init : Nat → EquOut)
    (W : Nat → EquUninit) (iam : Nat) (o : EquOut)
    (hnrow : 0 < A.nrow) (hncol : 0 < A.ncol) (hsml : 0 < smlnum)
    (hprocs : 0 < grid.nprow * grid.npcol)
    (hfst : ∀ q, q < grid.nprow * grid.npcol →
      (Astore q).fst_row = prefixSum (mLocs Astore) q)
    (hcover : (prefixSum (mLocs Astore) (grid.nprow * grid.npcol) : Int) = A.nrow)
    (hret : psgsequb A Astore grid smlnum radix init W iam = some o) (hinfo : o.info = 0) :
    (∀ q, q < grid.nprow * grid.npcol →
      (Astore q).fst_row + (Astore q).m_loc ≤ A.nrow.toNat) ∧
    o = psgsequbCols A.nrow.toNat A.ncol.toNat (grid.nprow * grid.npcol) Astore
      smlnum (1 / smlnum) radix (rowOut2 A Astore grid smlnum radix init) W iam ∧
    (localMaxMin (1 / smlnum) 0 A.ncol.toNat (colC A.ncol.toNat (grid.nprow * grid.npcol) Astore
      radix (rowOut2 A Astore grid smlnum radix init) W iam)).2 ≠ 0 ∧
    ∀ g, g < A.nrow.toNat →
      ∃ q, q < grid.nprow * grid.npcol ∧ (Astore q).fst_row ≤ g ∧
        g < (Astore q).fst_row + (Astore q).m_loc ∧
        o.r g = 1 / min (max (rowR A Astore radix init q g) smlnum) (1 / smlnum) := by
  have hrows : ∀ q, q < grid.nprow * grid.npcol →
      (Astore q).fst_row + (Astore q).m_loc ≤ A.nrow.toNat := by
    intro q hq
    have h1 : prefixSum (mLocs Astore) (q + 1) ≤
        prefixSum (mLocs Astore) (grid.nprow * grid.npcol) :=
      prefixSum_mono (mLocs Astore) (Nat.succ_le_of_lt hq)
    have h2 : prefixSum (mLocs Astore) (q + 1) =
        prefixSum (mLocs Astore) q + (Astore q).m_loc := rfl
    have h3 := hfst q hq
    omega
  obtain ⟨_, _, hcmin, ho⟩ := psgsequb_success A Astore grid smlnum radix init W iam o
    hnrow hncol hsml hprocs hrows hret hinfo
  refine ⟨hrows, ho, hcmin, fun g hg => ?_⟩
  have hg1 : g < prefixSum (mLocs Astore) (grid.nprow * grid.npcol) := by omega
  obtain ⟨q, hq, t, ht, hgt⟩ := prefixSum_find (mLocs Astore) _ g hg1
  have hf := hfst q hq
  have ht1 : t < (Astore q).m_loc := ht
  refine ⟨q, hq, by omega, by omega, ?_⟩
  rw [ho, psgsequbCols_of_min_ne _ _ _ _ _ _ _ _ _ _ hcmin]
  show gatherR (grid.nprow * grid.npcol) Astore
    (fun q => (rowOut2 A Astore grid smlnum radix init q).r) W iam g = _
  rw [hgt, gatherR_read (grid.nprow * grid.npcol) Astore _ W iam hq ht]
  show invertScales A.nrow.toNat smlnum (1 / smlnum) (rowR A Astore radix init q)
    ((Astore q).fst_row + t) = _
  rw [invertScales_read, if_pos (by omega), hf]

/-- C14, as stated, fails at the quick return of lines 120-125.  For the matrix `exNoColA`
with two rows and no column `psgsequb` returns `info = 0` and `rowcnd = 1` with `r` as it was
before the call: `R(0) = 1` is the smallest and `R(1) = 2` the largest entry, and their
ratio is 1/2. -/
theorem C14_quick_return_counterexample :
    ∃ o, psgsequb exNoColA exNoColStore exEquGrid (1 / 1024) 2 exRampInit exEquW 0 = some o ∧
      o.info = 0 ∧ (0 : ℚ) < 1 / 1024 ∧ (1 : ℚ) / 1024 ≤ 1 ∧ o.rowcnd = 1 ∧
      o.r 0 = 1 ∧ o.r 1 = 2 ∧
      (∀ i : Nat, (i : Int) < exNoColA.nrow → o.r 0 ≤ o.r i ∧ o.r i ≤ o.r 1) ∧
      o.rowcnd ≠ o.r 0 / o.r 1 := by
  have hl : ¬ illegalArg exNoColA := by decide
  have h0 : (exRampInit 0).r 0 = 1 := by norm_num [exRampInit]
  have h1 : (exRampInit 0).r 1 = 2 := by norm_num [exRampInit]
  refine ⟨_, psgsequb_quick exNoColA exNoColStore exEquGrid (1 / 1024) 2 exRampInit exEquW 0
    hl (Or.inr rfl), rfl, by norm_num, by norm_num, rfl, h0, h1, ?_, ?_⟩
  · intro i hi
    show (exRampInit 0).r 0 ≤ (exRampInit 0).r i ∧ (exRampInit 0).r i ≤ (exRampInit 0).r 1
    have hi2 : i < 2 := by
      have : (i : Int) < 2 := hi
      omega
    interval_cases i
    · rw [h0, h1]
      norm_num
    · rw [h0, h1]
      norm_num
  · show (1 : ℚ) ≠ (exRampInit 0).r 0 / (exRampInit 0).r 1
    rw [h0, h1]
    norm_num

/-- C14, amended.  For a matrix with `nrow > 0` and `ncol > 0`, with `0 < smlnum ≤ 1` and
`bignum = 1/smlnum`, at least one process, each process's `fst_row` equal to the sum of the
`m_loc` of the lower ranks and the `m_loc` summing to `nrow`, and when the largest row
scale and the largest column scale before inversion are at least `smlnum`: whenever
`psgsequb` returns `info = 0`, `rowcnd` is the ratio of the smallest to the largest
`R(i)`, `i < nrow`, which is the clamped scale of the row with the largest `R` over the
clamped scale of the row with the smallest `R`; `colcnd` is the same ratio for `C`; and
`0 < rowcnd ≤ 1`, `0 < colcnd ≤ 1`. -/
theorem C14_condition_ratio_amended (A : SuperMatrix) (Astore : Nat → NRformat_loc ℚ)
    (grid : gridinfo_t) (smlnum : ℚ) (radix : Nat) (init : Nat → EquOut)
    (W : Nat → EquUninit) (iam : Nat) (o : EquOut)
    (hnrow : 0 < A.nrow) (hncol : 0 < A.ncol) (hsml : 0 < smlnum) (hsml1 : smlnum ≤ 1)
    (hprocs : 0 < grid.nprow * grid.npcol)
    (hfst : ∀ q, q < grid.nprow * grid.npcol →
      (Astore q).fst_row = prefixSum (mLocs Astore) q)
    (hcover : (prefixSum (mLocs Astore) (grid.nprow * grid.npcol) : Int) = A.nrow)
    (hrowbig : ∃ q, q < grid.nprow * grid.npcol ∧ ∃ i, i < (Astore q).m_loc ∧
      smlnum ≤ rowR A Astore radix init q ((Astore q).fst_row + i))
    (hcolbig : ∃ j, j < A.ncol.toNat ∧
      smlnum ≤ colC A.ncol.toNat (grid.nprow * grid.npcol) Astore radix
        (rowOut2 A Astore grid smlnum radix init) W iam j)
    (hret : psgsequb A Astore grid smlnum radix init W iam = some o) (hinfo : o.info = 0) :
    (∃ i1 i2 : Nat, (i1 : Int) < A.nrow ∧ (i2 : Int) < A.nrow ∧
      (∀ i : Nat, (i : Int) < A.nrow → o.r i1 ≤ o.r i ∧ o.r i ≤ o.r i2) ∧
      o.rowcnd = o.r i1 / o.r i2 ∧
      ∃ q1 q2, q1 < grid.nprow * grid.npcol ∧ q2 < grid.nprow * grid.npcol ∧
        (Astore q1).fst_row ≤ i1 ∧ i1 < (Astore q1).fst_row + (Astore q1).m_loc ∧
        (Astore q2).fst_row ≤ i2 ∧ i2 < (Astore q2).fst_row + (Astore q2).m_loc ∧
        o.rowcnd = min (max (rowR A Astore radix init q2 i2) smlnum) (1 / smlnum) /
          min (max (rowR A Astore radix init q1 i1) smlnum) (1 / smlnum)) ∧
    (∃ j1 j2 : Nat, (j1 : Int) < A.ncol ∧ (j2 : Int) < A.ncol ∧
      (∀ j : Nat, (j : Int) < A.ncol → o.c j1 ≤ o.c j ∧ o.c j ≤ o.c j2) ∧
      o.colcnd = o.c j1 / o.c j2) ∧
    0 < o.rowcnd ∧ o.rowcnd ≤ 1 ∧ 0 < o.colcnd ∧ o.colcnd ≤ 1 := by
  have hsb : smlnum ≤ 1 / smlnum :=
    le_trans hsml1 ((one_le_div hsml).mpr hsml1)
  obtain ⟨hrows, ho, hcmin, hread⟩ := psgsequb_success_rows A Astore grid smlnum radix init W
    iam o hnrow hncol hsml hprocs hfst hcover hret hinfo
  have hoeq := psgsequbCols_of_min_ne A.nrow.toNat A.ncol.toNat (grid.nprow * grid.npcol) Astore
    smlnum (1 / smlnum) radix (rowOut2 A Astore grid smlnum radix init) W iam hcmin
  have hrc : o.rowcnd = max (rowRcmin A Astore grid smlnum radix init) smlnum /
      min (rowRcmax A Astore grid smlnum radix init) (1 / smlnum) := by
    rw [ho, hoeq]
    rfl
  have hcc : o.colcnd = max (localMaxMin (1 / smlnum) 0 A.ncol.toNat (colC A.ncol.toNat
        (grid.nprow * grid.npcol) Astore radix (rowOut2 A Astore grid smlnum radix init) W
        iam)).2 smlnum /
      min (localMaxMin (1 / smlnum) 0 A.ncol.toNat (colC A.ncol.toNat
        (grid.nprow * grid.npcol) Astore radix (rowOut2 A Astore grid smlnum radix init) W
        iam)).1 (1 / smlnum) := by
    rw [ho, hoeq]
  have hoc : ∀ j, j < A.ncol.toNat → o.c j = 1 / min (max (colC A.ncol.toNat
      (grid.nprow * grid.npcol) Astore radix (rowOut2 A Astore grid smlnum radix init) W
      iam j) smlnum) (1 / smlnum) := by
    intro j hj
    rw [ho, hoeq]
    show invertScales A.ncol.toNat smlnum (1 / smlnum) _ j = _
    rw [invertScales_read, if_pos hj]
  -- the owner of a row
  choose! own hown using hread
  have huniq : ∀ q, q < grid.nprow * grid.npcol → ∀ g, (Astore q).fst_row ≤ g →
      g < (Astore q).fst_row + (Astore q).m_loc → own g = q := by
    intro q hq g h1 h2
    have hg : g < A.nrow.toNat := by have := hrows q hq; omega
    obtain ⟨hq1, g1, g2, _⟩ := hown g hg
    have e1 := hfst q hq
    have e2 := hfst (own g) hq1
    have hu := prefixSum_unique (mLocs Astore) (i := own g) (j := q)
      (t := g - (Astore (own g)).fst_row) (u := g - (Astore q).fst_row)
      (by show _ < (Astore (own g)).m_loc; omega) (by show _ < (Astore q).m_loc; omega)
      (by omega)
    exact hu.1
  -- the rows
  have hrowsR := condRatio_spec smlnum (1 / smlnum) hsml hsb A.nrow.toNat
    (fun g => rowR A Astore radix init (own g) g) o.r
    (rowRcmin A Astore grid smlnum radix init) (rowRcmax A Astore grid smlnum radix init)
    (fun g hg => (hown g hg).2.2.2)
    (le_trans (MPI_Allreduce_MIN_le (grid.nprow * grid.npcol) (fun q =>
        (localMaxMin (1 / smlnum) (Astore q).fst_row ((Astore q).fst_row + (Astore q).m_loc)
          (rowR A Astore radix init q)).2) hprocs)
      (localMaxMin_spec _ _ _ _).1)
    (fun g hg => le_trans (MPI_Allreduce_MIN_le (grid.nprow * grid.npcol) (fun q =>
        (localMaxMin (1 / smlnum) (Astore q).fst_row ((Astore q).fst_row + (Astore q).m_loc)
          (rowR A Astore radix init q)).2) (hown g hg).1)
      ((localMaxMin_spec _ _ _ _).2.1 g (hown g hg).2.1 (hown g hg).2.2.1))
    (by
      obtain ⟨q, hq, hatt⟩ := MPI_Allreduce_MIN_attain (grid.nprow * grid.npcol) (fun q =>
        (localMaxMin (1 / smlnum) (Astore q).fst_row ((Astore q).fst_row + (Astore q).m_loc)
          (rowR A Astore radix init q)).2) hprocs
      have hatt1 : rowRcmin A Astore grid smlnum radix init =
          (localMaxMin (1 / smlnum) (Astore q).fst_row
            ((Astore q).fst_row + (Astore q).m_loc) (rowR A Astore radix init q)).2 := hatt
      rcases localMaxMin_min_attain (1 / smlnum) (Astore q).fst_row
        ((Astore q).fst_row + (Astore q).m_loc) (rowR A Astore radix init q)
        with h | ⟨g, h1, h2, h⟩
      · exact Or.inl (hatt1.trans h)
      · refine Or.inr ⟨g, by have := hrows q hq; omega, ?_⟩
        show _ = rowR A Astore radix init (own g) g
        rw [huniq q hq g h1 h2]
        exact hatt1.trans h)
    (fun g hg => le_trans ((localMaxMin_spec (1 / smlnum) (Astore (own g)).fst_row
        ((Astore (own g)).fst_row + (Astore (own g)).m_loc)
        (rowR A Astore radix init (own g))).2.2.2.1 g (hown g hg).2.1 (hown g hg).2.2.1)
      (MPI_Allreduce_MAX_ge (grid.nprow * grid.npcol) (fun q =>
        (localMaxMin (1 / smlnum) (Astore q).fst_row ((Astore q).fst_row + (Astore q).m_loc)
          (rowR A Astore radix init q)).1) (hown g hg).1))
    (by
      obtain ⟨q, hq, hatt⟩ := MPI_Allreduce_MAX_attain (grid.nprow * grid.npcol) (fun q =>
        (localMaxMin (1 / smlnum) (Astore q).fst_row ((Astore q).fst_row + (Astore q).m_loc)
          (rowR A Astore radix init q)).1) hprocs
      have hatt1 : rowRcmax A Astore grid smlnum radix init =
          (localMaxMin (1 / smlnum) (Astore q).fst_row
            ((Astore q).fst_row + (Astore q).m_loc) (rowR A Astore radix init q)).1 := hatt
      rcases (localMaxMin_spec (1 / smlnum) (Astore q).fst_row
        ((Astore q).fst_row + (Astore q).m_loc) (rowR A Astore radix init q)).2.2.2.2
        with h | ⟨g, h1, h2, h⟩
      · exact Or.inl (hatt1.trans h)
      · refine Or.inr ⟨g, by have := hrows q hq; omega, ?_⟩
        show _ = rowR A Astore radix init (own g) g
        rw [huniq q hq g h1 h2]
        exact hatt1.trans h)
    (by omega)
    (by
      obtain ⟨q, hq, i, hi, h⟩ := hrowbig
      exact le_trans h (le_trans
        ((localMaxMin_spec (1 / smlnum) (Astore q).fst_row
          ((Astore q).fst_row + (Astore q).m_loc) (rowR A Astore radix init q)).2.2.2.1
          ((Astore q).fst_row + i) (Nat.le_add_right _ _) (by omega))
        (MPI_Allreduce_MAX_ge (grid.nprow * grid.npcol) (fun q =>
          (localMaxMin (1 / smlnum) (Astore q).fst_row ((Astore q).fst_row + (Astore q).m_loc)
            (rowR A Astore radix init q)).1) hq)))
  -- the columns
  have hcolsR := condRatio_spec smlnum (1 / smlnum) hsml hsb A.ncol.toNat
    (colC A.ncol.toNat (grid.nprow * grid.npcol) Astore radix
      (rowOut2 A Astore grid smlnum radix init) W iam) o.c
    (localMaxMin (1 / smlnum) 0 A.ncol.toNat (colC A.ncol.toNat
        (grid.nprow * grid.npcol) Astore radix (rowOut2 A Astore grid smlnum radix init) W
        iam)).2
    (localMaxMin (1 / smlnum) 0 A.ncol.toNat (colC A.ncol.toNat
        (grid.nprow * grid.npcol) Astore radix (rowOut2 A Astore grid smlnum radix init) W
        iam)).1
    hoc (localMaxMin_spec _ _ _ _).1
    (fun g hg => (localMaxMin_spec _ _ _ _).2.1 g (Nat.zero_le g) hg)
    (by
      rcases localMaxMin_min_attain (1 / smlnum) 0 A.ncol.toNat (colC A.ncol.toNat
        (grid.nprow * grid.npcol) Astore radix (rowOut2 A Astore grid smlnum radix init) W
        iam) with h | ⟨g, _, h2, h⟩
      · exact Or.inl h
      · exact Or.inr ⟨g, h2, h⟩)
    (fun g hg => (localMaxMin_spec _ _ _ _).2.2.2.1 g (Nat.zero_le g) hg)
    (by
      rcases (localMaxMin_spec (1 / smlnum) 0 A.ncol.toNat (colC A.ncol.toNat
        (grid.nprow * grid.npcol) Astore radix (rowOut2 A Astore grid smlnum radix init) W
        iam)).2.2.2.2 with h | ⟨g, _, h2, h⟩
      · exact Or.inl h
      · exact Or.inr ⟨g, h2, h⟩)
    (by omega)
    (by
      obtain ⟨j, hj, h⟩ := hcolbig
      exact le_trans h ((localMaxMin_spec _ _ _ _).2.2.2.1 j (Nat.zero_le j) hj))
  obtain ⟨i1, i2, hi1, hi2, hb, hratio, hk1, hk2, hpos, hle1⟩ := hrowsR
  obtain ⟨j1, j2, hj1, hj2, hcb, hcratio, _, _, hcpos, hcle1⟩ := hcolsR
  refine ⟨⟨i1, i2, by omega, by omega, fun i hi => hb i (by omega), hrc.trans hratio,
    own i1, own i2, (hown i1 hi1).1, (hown i2 hi2).1, (hown i1 hi1).2.1, (hown i1 hi1).2.2.1,
    (hown i2 hi2).2.1, (hown i2 hi2).2.2.1, ?_⟩,
    ⟨j1, j2, by omega, by omega, fun j hj => hcb j (by omega), hcc.trans hcratio⟩,
    by rw [hrc]; exact hpos, by rw [hrc]; exact hle1, by rw [hcc]; exact hcpos,
    by rw [hcc]; exact hcle1⟩
  rw [hrc, hk1, hk2]

/-- C14, amended, on the 2 × 2 matrix `exFullA` distributed over two processes, with radix
2 and `smlnum = 2^(-10)`: rank 0 returns `info = 0` with both estimates in `(0, 1]`. -/
theorem C14_condition_ratio_amended_witness :
    ∃ o, psgsequb exFullA exFullStore exEquGrid (1 / 1024) 2 exEquInit exEquW 0 = some o ∧
      o.info = 0 ∧ 0 < o.rowcnd ∧ o.rowcnd ≤ 1 ∧ 0 < o.colcnd ∧ o.colcnd ≤ 1 := by
  have h : (psgsequb exFullA exFullStore exEquGrid (1 / 1024) 2 exEquInit exEquW 0).map
      (fun o => o.info) = some 0 := by
    norm_num [psgsequb, psgsequbCols, colScales, exFullA, exEquGrid, rowScales, exFullStore,
      forLoop, forRange, write, arrN, arrQ, exEquInit, powerOfRadix_two_one, localMaxMin,
      MPI_Allreduce_MAX, MPI_Allreduce_MIN, MPI_Allreduce_MAX_vec, invertScales, firstZero]
  obtain ⟨o, ho, hi⟩ := Option.map_eq_some'.mp h
  have hrow : (1 : ℚ) / 1024 ≤
      rowR exFullA exFullStore 2 exEquInit 0 ((exFullStore 0).fst_row + 0) := by
    norm_num [rowR, exFullA, rowScales, exFullStore, forLoop, forRange, write, arrN, arrQ,
      exEquInit, powerOfRadix_two_one]
  have hcol : (1 : ℚ) / 1024 ≤ colC exFullA.ncol.toNat (exEquGrid.nprow * exEquGrid.npcol)
      exFullStore 2 (rowOut2 exFullA exFullStore exEquGrid (1 / 1024) 2 exEquInit) exEquW 0 0 := by
    norm_num [colC, colScales, rowOut2, rowOut1, rowR, exFullA, exEquGrid, rowScales,
      exFullStore, forLoop, forRange, write, arrN, arrQ, exEquInit, powerOfRadix_two_one,
      MPI_Allreduce_MAX, MPI_Allreduce_MAX_vec, invertScales]
  exact ⟨o, ho, hi,
    (C14_condition_ratio_amended exFullA exFullStore exEquGrid (1 / 1024) 2 exEquInit exEquW 0 o
      (by decide) (by decide) (by norm_num) (by norm_num) (by decide) (by decide) (by decide)
      ⟨0, by decide, 0, by decide, hrow⟩ ⟨0, by decide, hcol⟩ ho hi).2.2⟩

theorem powerOfRadix_two_eighth : powerOfRadix 2 (1 / 8) = 1 / 8 := by
  unfold powerOfRadix
  rw [iexpOf_of_lt_one 2 (by norm_num)]
  have h0 : ((1 : ℚ) / 8)⁻¹ = 8 := by norm_num
  have h1 : ⌊(8 : ℚ)⌋₊ = 8 := Nat.floor_ofNat 8
  have h2 : Nat.log 2 8 = 3 := Nat.log_eq_of_pow_le_of_lt_pow (by norm_num) (by norm_num)
  have h3 : Nat.log 2 (2 ^ 3) = 3 := Nat.log_eq_of_pow_le_of_lt_pow (by norm_num) (by norm_num)
  rw [h0, h1, h2, h3]
  norm_num [zpow_neg]

theorem powerOfRadix_two_half : powerOfRadix 2 (1 / 2) = 1 / 2 := by
  unfold powerOfRadix
  rw [iexpOf_of_lt_one 2 (by norm_num)]
  have h0 : ((1 : ℚ) / 2)⁻¹ = 2 := by norm_num
  have h1 : ⌊(2 : ℚ)⌋₊ = 2 := Nat.floor_ofNat 2
  have h2 : Nat.log 2 2 = 1 := Nat.log_eq_of_pow_le_of_lt_pow (by norm_num) (by norm_num)
  have h3 : Nat.log 2 (2 ^ 1) = 1 := Nat.log_eq_of_pow_le_of_lt_pow (by norm_num) (by norm_num)
  rw [h0, h1, h2, h3]
  norm_num [zpow_neg]

/-- The ratio of line 187 leaves `(0, 1]` when every row scale is below `smlnum`: for the
1 × 1 matrix with the entry 1/8, radix 2 and `smlnum = 1/4`, `psgsequb` returns `info = 0`
and `rowcnd = max(1/8, 1/4) / min(1/8, 4) = 2`, while `R(0) = 4` is the only row scale
factor. -/
theorem rowcnd_above_one_below_smlnum :
    (psgsequb exOneA (fun _ => exRowD) exOneGrid (1 / 4) 2 exEquInit exEquW 0).map
      (fun o => (o.info, o.rowcnd, o.r 0)) = some (0, 2, 4) := by
  norm_num [psgsequb, psgsequbCols, colScales, exOneA, exOneGrid, rowScales, exRowD,
    forLoop, forRange, write, arrN, arrQ, exEquInit, powerOfRadix_two_eighth,
    powerOfRadix_two_half, localMaxMin, gatherR, MPI_Allgatherv, MPI_Allgather,
    MPI_Allreduce_MAX, MPI_Allreduce_MIN, MPI_Allreduce_MAX_vec, invertScales, firstZero,
    abs_of_nonneg]

end SuperLU
